import Mathlib

/-!
# N2D2 cell execution engine: pooling (`PoolCell_Frame`) and batch normalisation
(`BatchNormCell_Frame_CUDA`), with the helpers of `Utils` and `DeepNetExport`

Shallow embedding of `src/Cell/PoolCell_Frame.cpp`,
`src/Cell/BatchNormCell_Frame_CUDA.cpp`, `include/Cell/DeconvCell_Frame.hpp`,
`include/utils/Utils.hpp` and `src/Export/DeepNetExport.cpp`.

Conventions of the embedding

* element types `T` / `ParamT` (half, float, double) are modelled by exact rationals;
* a method of a cell is a function from the cell state to a `Run`: the sequence of
  numeric kernel calls it issued, the exception it threw (if any) and the state of
  the object when control left the method;
* `unsigned int` arithmetic that depends on the data (the channel offset of the
  pooling loops, the propagate counter) is taken modulo `2^32`; a loop counter `k`
  runs below the number of tensors of an interface and is a plain natural number;
* routines of other libraries and of classes whose source is not at hand (pooling
  kernels, cuDNN, the base class `Cell_Frame`) are parameters of the model;
* host/device synchronisation (`synchronize...`) and `tensor_cast` do not change the
  logical value of a tensor and are the identity in this model;
* the numeric functions of `Utils` are computed in exact arithmetic; the algorithms and
  the streams of the standard library are parameters with the contract of the standard,
  or are modelled as the standard describes them;
* where the rounding or the special values of the machine arithmetic decide the outcome,
  the arithmetic is a parameter: the sum of two elements in `Utils::median`
  (`ElementArithmetic`), the operations of `double` in
  `Utils::zeroAlignedQuantizedRange` (`zeroAlignedQuantizedRangeWith`, with the rounding
  `binary64`), a momentum that is a NaN (`MomentumValue`);
* a loop whose end depends on the data carries a bound on the runs of its body, and its
  result is stated for every bound that is large enough.
-/

namespace N2D2

/-! ## Tensors -/

/-- Modelled from the spec: the `Tensor<T>` class (header not part of the sources at hand):
an ordered sequence of extents `dims`, the element storage `data` and the validity
flag carried by every tensor. -/
structure Tensor (α : Type) where
  dims : List Nat
  data : List α
  valid : Bool
deriving DecidableEq

namespace Tensor

variable {α : Type}

/-- Modelled from the spec: `Tensor::empty()`, true when the tensor holds no element. -/
def empty (t : Tensor α) : Bool := t.data.isEmpty

/-- Modelled from the spec: `Tensor::dimZ()`, the channel extent of `[width, height,
channels, batch]` (1 when the tensor has fewer than three dimensions). -/
def dimZ (t : Tensor α) : Nat := t.dims.getD 2 1

/-- Modelled from the spec: number of elements of a tensor of the given extents
(`size == product(dims)`). -/
def computeSize (dims : List Nat) : Nat := dims.prod

/-- Modelled from the spec: `Tensor::resize(dims, value)`: the extents become `dims` and
the storage is resized to their product the way `std::vector::resize(n, value)` does it:
elements already present are kept, new ones are `value`. -/
def resize (t : Tensor α) (dims : List Nat) (value : α) : Tensor α :=
  { dims := dims
    data := (t.data ++ List.replicate (computeSize dims - t.data.length) value).take
              (computeSize dims)
    valid := t.valid }

/-- Modelled from the spec: `Tensor::fill(value)`: every element becomes `value`. -/
def fill (t : Tensor α) (value : α) : Tensor α :=
  { t with data := t.data.map (fun _ => value) }

/-- Modelled from the spec: `setValid()` marks the tensor as holding a meaningful value. -/
def setValid (t : Tensor α) : Tensor α := { t with valid := true }

/-- Modelled from the spec: `clearValid()` marks the tensor as stale. -/
def clearValid (t : Tensor α) : Tensor α := { t with valid := false }

/-- Modelled from the spec: `isValid()` reads the validity flag. -/
def isValid (t : Tensor α) : Bool := t.valid

end Tensor

/-- A tensor of the given extents whose elements are all `v`, not marked valid. -/
def constTensor {α : Type} (dims : List Nat) (v : α) : Tensor α :=
  ⟨dims, List.replicate (Tensor.computeSize dims) v, false⟩

/-- Outcome of running one method of a cell: the numeric kernel calls issued (in order),
the exception thrown (`none` when the method returned normally) and the state of the
object when control left the method. -/
structure Run (κ σ : Type) where
  calls : List κ
  error : Option String
  state : σ

namespace Run

variable {κ σ : Type}

/-- A run that issued the call `c` and then continued as `r`. -/
def after (c : κ) (r : Run κ σ) : Run κ σ := { r with calls := c :: r.calls }

/-- The method returned normally. -/
def ok (r : Run κ σ) : Prop := r.error = none

instance (r : Run κ σ) : Decidable r.ok := by unfold ok; infer_instance

end Run

/-- Message of the `std::out_of_range` raised when an interface is indexed past its end. -/
def outOfRange : String := "out_of_range"

/-! ## PoolCell_Frame -/

/-- The two pooling modes of `PoolCell::Pooling`. -/
inductive Pooling where
  | Max
  | Average
deriving DecidableEq

/-- Pooling descriptor `PoolCell_Frame_Kernels::Descriptor` built by the constructor from
`poolDims`, `strideDims` and `paddingDims`. -/
structure PoolDesc where
  pool : List Nat
  stride : List Nat
  padding : List Nat
deriving DecidableEq

/-- The view `mMapping.rows(offset, nb)` handed to a kernel: rows
`[offset, offset + nb)` of the connectivity mapping. -/
structure MappingRows where
  mapping : Tensor Bool
  offset : Nat
  nb : Nat
deriving DecidableEq

/-- The numeric kernels of `PoolCell_Frame_Kernels` (defined outside the files at hand),
with the argument order of their call sites. `forwardMax` returns the new outputs and the
new argmax tensor, the other kernels the tensor they write. -/
structure PoolCell_Frame_Kernels where
  forwardMax : ℚ → Tensor ℚ → PoolDesc → ℚ → Tensor ℚ → Tensor Nat → Bool → MappingRows →
    Tensor ℚ × Tensor Nat
  forwardAverage : ℚ → Tensor ℚ → PoolDesc → ℚ → Tensor ℚ → Bool → MappingRows → Tensor ℚ
  backwardMax : ℚ → Tensor ℚ → PoolDesc → ℚ → Tensor ℚ → Tensor Nat → MappingRows → Tensor ℚ
  backwardAverage : ℚ → Tensor ℚ → PoolDesc → ℚ → Tensor ℚ → Bool → MappingRows → Tensor ℚ

/-- The base class `Cell_Frame<T>` (defined outside the files at hand): its `propagate`
applies the activation to the outputs, its `backPropagate` applies the derivative of
the activation to the incoming gradient. -/
structure Cell_Frame where
  propagate : Bool → Tensor ℚ → Tensor ℚ
  backPropagate : Tensor ℚ → Tensor ℚ → Tensor ℚ

/-- A base class without activation. -/
def noActivation : Cell_Frame where
  propagate := fun _ out => out
  backPropagate := fun _ diffInputs => diffInputs

/-- Which kernel a call went to. -/
inductive PoolKernel where
  | forwardMax
  | forwardAverage
  | backwardMax
  | backwardAverage
deriving DecidableEq

/-- One call of a pooling kernel as issued by `PoolCell_Frame`: the kernel, the scaling
factors, the input group `k` whose tensors (`mInputs[k]`, `mArgMax[k]`,
`mDiffOutputs[k]`) were passed, the boolean flag of the call site and the rows of the
mapping. -/
structure PoolCall where
  kernel : PoolKernel
  alpha : ℚ
  beta : ℚ
  group : Nat
  flag : Bool
  rowsOffset : Nat
  rowsNb : Nat
deriving DecidableEq

/-- State of a `PoolCell_Frame<T>` object. -/
structure PoolCell_Frame where
  mName : String
  mPooling : Pooling
  mPoolDesc : PoolDesc
  mMapping : Tensor Bool
  mInputs : List (Tensor ℚ)
  mOutputs : Tensor ℚ
  mArgMax : List (Tensor Nat)
  mDiffInputs : Tensor ℚ
  mDiffOutputs : List (Tensor ℚ)
deriving DecidableEq

namespace PoolCell_Frame

/-- The `for` loop of `PoolCell_Frame<T>::propagate`, started at group `k` with the
inputs `mInputs[k], mInputs[k+1], ...` still to be processed. -/
def propagateLoop (K : PoolCell_Frame_Kernels) (alpha : ℚ) :
    List (Tensor ℚ) → Nat → ℚ → Nat → PoolCell_Frame → Run PoolCall PoolCell_Frame
  | [], _, _, _, c => ⟨[], none, c⟩
  | input :: rest, k, beta0, offset, c =>
    let beta : ℚ := if k > 0 then 1 else beta0
    let rows : MappingRows := ⟨c.mMapping, offset, input.dimZ⟩
    match c.mPooling with
    | Pooling.Max =>
      match c.mArgMax[k]? with
      | none => ⟨[], some outOfRange, c⟩
      | some argMax =>
        let r := K.forwardMax alpha input c.mPoolDesc beta c.mOutputs argMax false rows
        (propagateLoop K alpha rest (k + 1) beta ((offset + input.dimZ) % 2 ^ 32)
            { c with mOutputs := r.1, mArgMax := c.mArgMax.set k r.2 }).after
          ⟨PoolKernel.forwardMax, alpha, beta, k, false, offset, input.dimZ⟩
    | Pooling.Average =>
      let out := K.forwardAverage alpha input c.mPoolDesc beta c.mOutputs true rows
      (propagateLoop K alpha rest (k + 1) beta ((offset + input.dimZ) % 2 ^ 32)
          { c with mOutputs := out }).after
        ⟨PoolKernel.forwardAverage, alpha, beta, k, true, offset, input.dimZ⟩

/-- The method `PoolCell_Frame<T>::propagate(inference)`. -/
def propagate (K : PoolCell_Frame_Kernels) (F : Cell_Frame) (c : PoolCell_Frame)
    (inference : Bool) : Run PoolCall PoolCell_Frame :=
  let r := propagateLoop K 1 c.mInputs 0 0 0 c
  match r.error with
  | some _ => r
  | none =>
    { r with
      state :=
        { r.state with
          mOutputs := F.propagate inference r.state.mOutputs
          mDiffInputs := r.state.mDiffInputs.clearValid } }

/-- The `for` loop of `PoolCell_Frame<T>::backPropagate`, started at group `k` with the
inputs `mInputs[k], mInputs[k+1], ...` still to be processed. -/
def backPropagateLoop (K : PoolCell_Frame_Kernels) (alpha : ℚ) :
    List (Tensor ℚ) → Nat → Nat → PoolCell_Frame → Run PoolCall PoolCell_Frame
  | [], _, _, c => ⟨[], none, c⟩
  | input :: rest, k, offset, c =>
    match c.mDiffOutputs[k]? with
    | none => ⟨[], some outOfRange, c⟩
    | some slot =>
      let beta : ℚ := if slot.isValid then 1 else 0
      let diffOutput : Tensor ℚ := slot
      let rows : MappingRows := ⟨c.mMapping, offset, input.dimZ⟩
      match c.mPooling with
      | Pooling.Max =>
        match c.mArgMax[k]? with
        | none => ⟨[], some outOfRange, c⟩
        | some argMax =>
          let d := K.backwardMax alpha c.mDiffInputs c.mPoolDesc beta diffOutput argMax rows
          (backPropagateLoop K alpha rest (k + 1) ((offset + input.dimZ) % 2 ^ 32)
              { c with mDiffOutputs := c.mDiffOutputs.set k d.setValid }).after
            ⟨PoolKernel.backwardMax, alpha, beta, k, false, offset, input.dimZ⟩
      | Pooling.Average =>
        let d := K.backwardAverage alpha c.mDiffInputs c.mPoolDesc beta diffOutput true rows
        (backPropagateLoop K alpha rest (k + 1) ((offset + input.dimZ) % 2 ^ 32)
            { c with mDiffOutputs := c.mDiffOutputs.set k d.setValid }).after
          ⟨PoolKernel.backwardAverage, alpha, beta, k, true, offset, input.dimZ⟩

/-- The method `PoolCell_Frame<T>::backPropagate()`. -/
def backPropagate (K : PoolCell_Frame_Kernels) (F : Cell_Frame) (c : PoolCell_Frame) :
    Run PoolCall PoolCell_Frame :=
  if c.mDiffOutputs.isEmpty then ⟨[], none, c⟩
  else
    let c1 := { c with mDiffInputs := F.backPropagate c.mOutputs c.mDiffInputs }
    backPropagateLoop K 1 c1.mInputs 0 0 c1

/-- Post-condition of `PoolCell_Frame<T>::initialize()` that the two passes rely on: in
`Max` mode every input group has its argmax tensor. -/
def Initialized (c : PoolCell_Frame) : Prop :=
  c.mPooling = Pooling.Max → c.mInputs.length ≤ c.mArgMax.length

instance (c : PoolCell_Frame) : Decidable c.Initialized := by
  unfold Initialized; infer_instance

/-- The forward kernel selected by the pooling mode. -/
def forwardKernel (c : PoolCell_Frame) : PoolKernel :=
  match c.mPooling with
  | Pooling.Max => PoolKernel.forwardMax
  | Pooling.Average => PoolKernel.forwardAverage

/-- The backward kernel selected by the pooling mode. -/
def backwardKernel (c : PoolCell_Frame) : PoolKernel :=
  match c.mPooling with
  | Pooling.Max => PoolKernel.backwardMax
  | Pooling.Average => PoolKernel.backwardAverage

/-- The boolean flag of the call sites: `false` for the max kernels (in the backward
max kernel the record keeps `false`, the call has no flag), `true` for the average
kernels. -/
def kernelFlag (c : PoolCell_Frame) : Bool :=
  match c.mPooling with
  | Pooling.Max => false
  | Pooling.Average => true

/-- Kernels that leave the tensor they write untouched (used for concrete runs). -/
def idleKernels : PoolCell_Frame_Kernels where
  forwardMax := fun _ _ _ _ out argMax _ _ => (out, argMax)
  forwardAverage := fun _ _ _ _ out _ _ => out
  backwardMax := fun _ _ _ _ diffOutput _ _ => diffOutput
  backwardAverage := fun _ _ _ _ diffOutput _ _ => diffOutput

/-- A max-pooling cell with two input groups of 2 and 3 channels, initialised, whose
first upstream gradient slot is already valid. -/
def smallCell : PoolCell_Frame where
  mName := "pool"
  mPooling := Pooling.Max
  mPoolDesc := ⟨[1, 1], [1, 1], [0, 0]⟩
  mMapping := constTensor [1, 5] true
  mInputs := [constTensor [1, 1, 2, 1] 0, constTensor [1, 1, 3, 1] 0]
  mOutputs := constTensor [1, 1, 1, 1] 0
  mArgMax := [constTensor [1, 1, 1, 1] 0, constTensor [1, 1, 1, 1] 0]
  mDiffInputs := (constTensor [1, 1, 1, 1] 0).setValid
  mDiffOutputs := [(constTensor [1, 1, 2, 1] 0).setValid, constTensor [1, 1, 3, 1] 0]

/-- The cell `smallCell` placed first in the network: it has no upstream gradient
slot (`mDiffOutputs` is empty). -/
def firstLayerCell : PoolCell_Frame := { smallCell with mDiffOutputs := [] }

end PoolCell_Frame

/-! ## BatchNormCell_Frame_CUDA -/

/-- The normalisation modes `cudnnBatchNormMode_t`. -/
inductive CudnnBatchNormMode where
  | CUDNN_BATCHNORM_PER_ACTIVATION
  | CUDNN_BATCHNORM_SPATIAL
deriving DecidableEq

/-- What a successful `cudnnBatchNormalizationForwardTraining` wrote: the outputs, the
running mean and variance, and the saved batch statistics. -/
structure ForwardTrainingResult where
  outputs : Tensor ℚ
  runningMean : Tensor ℚ
  runningVariance : Tensor ℚ
  savedMean : Tensor ℚ
  savedVariance : Tensor ℚ

/-- What a successful `cudnnBatchNormalizationBackward` wrote: the gradient with respect
to the input and the gradients of scale and bias. -/
structure BackwardResult where
  diffOutput : Tensor ℚ
  diffScale : Tensor ℚ
  diffBias : Tensor ℚ

/-- The part of the cuDNN library (external to the repository) used by the cell, with
the arguments of the call sites in their order (descriptor and pointer of one tensor
are one argument). A routine returns `none` when its status is not
`CUDNN_STATUS_SUCCESS`, which `CHECK_CUDNN_STATUS` turns into an exception.

* `deriveBNDims mode input` stands for the chain `cudnnCreateTensorDescriptor`,
  `cudnnDeriveBNTensorDescriptor`, `cudnnGetTensorNdDescriptor` (5 dimensions
  requested), `cudnnDestroyTensorDescriptor`: the `dims` vector after
  `dims.resize(nbDims)`;
* `batchMean`, `batchVariance` are the statistics of the mini-batch that the training
  routine computes from its input. -/
structure CuDNN where
  CUDNN_BN_MIN_EPSILON : ℚ
  deriveBNDims : CudnnBatchNormMode → Tensor ℚ → Option (List Nat)
  batchMean : CudnnBatchNormMode → Tensor ℚ → List ℚ
  batchVariance : CudnnBatchNormMode → Tensor ℚ → List ℚ
  forwardInference : CudnnBatchNormMode → ℚ → ℚ → Tensor ℚ → Tensor ℚ → Tensor ℚ → Tensor ℚ →
    Tensor ℚ → Tensor ℚ → ℚ → Option (Tensor ℚ)
  forwardTraining : CudnnBatchNormMode → ℚ → ℚ → Tensor ℚ → Tensor ℚ → Tensor ℚ → Tensor ℚ →
    ℚ → Tensor ℚ → Tensor ℚ → ℚ → Tensor ℚ → Tensor ℚ → Option ForwardTrainingResult
  backward : CudnnBatchNormMode → ℚ → ℚ → ℚ → ℚ → Tensor ℚ → Tensor ℚ → Tensor ℚ →
    Tensor ℚ → Tensor ℚ → Tensor ℚ → ℚ → Tensor ℚ → Tensor ℚ → Option BackwardResult

/-- One call of a cuDNN batch-normalisation routine with its scalar arguments. -/
inductive CudnnCall where
  | forwardInference (alpha beta : ℚ)
  | forwardTraining (alpha beta exponentialAverageFactor : ℚ)
  | backward (alphaData betaData alpha beta : ℚ)
deriving DecidableEq

/-- The part of a solver read by the cell. -/
structure Solver where
  isNewIteration : Bool
deriving DecidableEq

/-- State of a `BatchNormCell_Frame_CUDA<T>` object. -/
structure BatchNormCell_Frame_CUDA where
  mName : String
  mInputs : List (Tensor ℚ)
  mOutputs : Tensor ℚ
  mDiffInputs : Tensor ℚ
  mDiffOutputs : List (Tensor ℚ)
  mMode : CudnnBatchNormMode
  mNbPropagate : Nat
  mEpsilon : ℚ
  mMovingAverageMomentum : ℚ
  mScale : Tensor ℚ
  mBias : Tensor ℚ
  mMean : Tensor ℚ
  mVariance : Tensor ℚ
  mSavedMean : Tensor ℚ
  mSavedVariance : Tensor ℚ
  mDiffScale : Tensor ℚ
  mDiffBias : Tensor ℚ
  mScaleSolver : Solver
  mBiasSolver : Solver
deriving DecidableEq

/-- Text written by `os << vec` for a `std::vector` (`Utils.hpp`): every element
followed by one blank. -/
def showVector (vec : List Nat) : String :=
  String.join (vec.map (fun d => toString d ++ " "))

/-- The message `msg` contains the text `part`. -/
def mentions (msg part : String) : Prop := part.data <:+: msg.data

instance (msg part : String) : Decidable (mentions msg part) := by
  unfold mentions; infer_instance

namespace BatchNormCell_Frame_CUDA

/-- Message of the exception raised by `CHECK_CUDNN_STATUS` on a failed status. -/
def cudnnFailure : String := "CUDNN_STATUS failure"

/-- Message of a failed `assert`. -/
def assertionFailed : String := "assertion failed"

/-- Message of the `std::domain_error` thrown for more than one input. -/
def concatenationMessage : String :=
  "BatchNormCell_Frame_CUDA<T>::initialize(): " ++ "inputs concatenation is not supported."

/-- Message of the `std::runtime_error` thrown when the shared tensor called `what`
(`scale`, `bias`, `mean` or `variance`) has not the required dims. -/
def wrongSizeMessage (mName what : String) (requiredDims actualDims : List Nat) : String :=
  "BatchNormCell_Frame_CUDA<T>::initialize():" ++ " in cell " ++ mName
    ++ ", wrong size for shared " ++ what ++ ", expected" ++ " size is "
    ++ showVector requiredDims ++ " whereas actual size is " ++ showVector actualDims ++ "\n"

/-- Message of the `std::runtime_error` thrown for a momentum outside `]0, 1[`; `shown`
is the text written for the momentum. -/
def wrongMomentumMessage (mName shown : String) : String :=
  "BatchNormCell_Frame_CUDA<T>::initialize():" ++ " in cell " ++ mName
    ++ ", wrong value for MovingAverageMomentum. "
    ++ "Expected value range ]0.0, 1.0[ whereas actual value is " ++ shown ++ "\n"

/-- One of the four blocks `if (t->empty()) t->resize(requiredDims, value); else if
(t->dims() != requiredDims) throw ...` of `initialize`: the tensor afterwards, or the
message thrown. -/
def checkShared (mName what : String) (requiredDims : List Nat) (value : ℚ) (t : Tensor ℚ) :
    Except String (Tensor ℚ) :=
  if t.empty then Except.ok (t.resize requiredDims value)
  else if t.dims ≠ requiredDims then
    Except.error (wrongSizeMessage mName what requiredDims t.dims)
  else Except.ok t

/-- The method `BatchNormCell_Frame_CUDA<T>::initialize()`; `fmt` is the text written by
`operator<<` for a `double`. -/
def initializeCell (L : CuDNN) (fmt : ℚ → String) (s : BatchNormCell_Frame_CUDA) :
    Run CudnnCall BatchNormCell_Frame_CUDA :=
  if s.mInputs.length > 1 then ⟨[], some concatenationMessage, s⟩
  else
    let s1 := { s with mMode := CudnnBatchNormMode.CUDNN_BATCHNORM_SPATIAL, mNbPropagate := 0 }
    let s2 := if L.CUDNN_BN_MIN_EPSILON > 0 ∧ s1.mEpsilon < L.CUDNN_BN_MIN_EPSILON then
        { s1 with mEpsilon := L.CUDNN_BN_MIN_EPSILON } else s1
    match s2.mInputs[0]? with
    | none => ⟨[], some outOfRange, s2⟩
    | some input0 =>
      match L.deriveBNDims s2.mMode input0 with
      | none => ⟨[], some cudnnFailure, s2⟩
      | some dims =>
        let requiredDims := dims.reverse
        match checkShared s2.mName "scale" requiredDims 1 s2.mScale with
        | Except.error msg => ⟨[], some msg, s2⟩
        | Except.ok scale =>
          let s3 := { s2 with mScale := scale }
          match checkShared s3.mName "bias" requiredDims 0 s3.mBias with
          | Except.error msg => ⟨[], some msg, s3⟩
          | Except.ok bias =>
            let s4 := { s3 with mBias := bias }
            match checkShared s4.mName "mean" requiredDims 0 s4.mMean with
            | Except.error msg => ⟨[], some msg, s4⟩
            | Except.ok mean =>
              let s5 := { s4 with mMean := mean }
              match checkShared s5.mName "variance" requiredDims 0 s5.mVariance with
              | Except.error msg => ⟨[], some msg, s5⟩
              | Except.ok variance =>
                let s6 := { s5 with mVariance := variance }
                if s6.mMovingAverageMomentum ≤ 0 ∨ s6.mMovingAverageMomentum ≥ 1 then
                  ⟨[], some (wrongMomentumMessage s6.mName (fmt s6.mMovingAverageMomentum)), s6⟩
                else
                  ⟨[], none,
                    { s6 with
                      mSavedMean := s6.mSavedMean.resize requiredDims 0
                      mSavedVariance := s6.mSavedVariance.resize requiredDims 0
                      mDiffScale := s6.mDiffScale.resize requiredDims 0
                      mDiffBias := s6.mDiffBias.resize requiredDims 0 }⟩

/-- The tail of `propagate`: the base class `Cell_Frame_CUDA<T>::propagate(inference)`
followed by `mDiffInputs.clearValid()`. -/
def finishPropagate (F : Cell_Frame) (inference : Bool) (s : BatchNormCell_Frame_CUDA) :
    BatchNormCell_Frame_CUDA :=
  { s with
    mOutputs := F.propagate inference s.mOutputs
    mDiffInputs := s.mDiffInputs.clearValid }

/-- The method `BatchNormCell_Frame_CUDA<T>::propagate(inference)`. -/
def propagate (L : CuDNN) (F : Cell_Frame) (s : BatchNormCell_Frame_CUDA) (inference : Bool) :
    Run CudnnCall BatchNormCell_Frame_CUDA :=
  let alpha : ℚ := 1
  let beta : ℚ := 0
  match s.mInputs[0]? with
  | none => ⟨[], some outOfRange, s⟩
  | some input0 =>
    if inference then
      match L.forwardInference s.mMode alpha beta input0 s.mOutputs s.mScale s.mBias s.mMean
          s.mVariance s.mEpsilon with
      | none => ⟨[CudnnCall.forwardInference alpha beta], some cudnnFailure, s⟩
      | some outputs =>
        ⟨[CudnnCall.forwardInference alpha beta], none,
          finishPropagate F inference { s with mOutputs := outputs }⟩
    else
      let s1 := { s with
        mSavedMean := s.mSavedMean.fill 0
        mSavedVariance := s.mSavedVariance.fill 0 }
      match L.forwardTraining s1.mMode alpha beta input0 s1.mOutputs s1.mScale s1.mBias
          s1.mMovingAverageMomentum s1.mMean s1.mVariance s1.mEpsilon s1.mSavedMean
          s1.mSavedVariance with
      | none =>
        ⟨[CudnnCall.forwardTraining alpha beta s1.mMovingAverageMomentum], some cudnnFailure, s1⟩
      | some res =>
        ⟨[CudnnCall.forwardTraining alpha beta s1.mMovingAverageMomentum], none,
          finishPropagate F inference
            { s1 with
              mOutputs := res.outputs
              mMean := res.runningMean
              mVariance := res.runningVariance
              mSavedMean := res.savedMean
              mSavedVariance := res.savedVariance
              mNbPropagate := (s1.mNbPropagate + 1) % 2 ^ 32 }⟩

/-- The method `BatchNormCell_Frame_CUDA<T>::backPropagate()`. -/
def backPropagate (L : CuDNN) (F : Cell_Frame) (s : BatchNormCell_Frame_CUDA) :
    Run CudnnCall BatchNormCell_Frame_CUDA :=
  let s1 := { s with mDiffInputs := F.backPropagate s.mOutputs s.mDiffInputs }
  let alpha : ℚ := 1
  let alphaData : ℚ := 1
  if s1.mScaleSolver.isNewIteration ≠ s1.mBiasSolver.isNewIteration then
    ⟨[], some assertionFailed, s1⟩
  else
    let beta : ℚ := if s1.mScaleSolver.isNewIteration then 0 else 1
    match s1.mDiffOutputs[0]? with
    | none => ⟨[], some outOfRange, s1⟩
    | some slot0 =>
      let betaData : ℚ := if slot0.isValid then 1 else 0
      match s1.mInputs[0]? with
      | none => ⟨[], some outOfRange, s1⟩
      | some input0 =>
        let diffOutput0 := slot0
        match L.backward s1.mMode alphaData betaData alpha beta input0 s1.mDiffInputs
            diffOutput0 s1.mScale s1.mDiffScale s1.mDiffBias s1.mEpsilon s1.mSavedMean
            s1.mSavedVariance with
        | none => ⟨[CudnnCall.backward alphaData betaData alpha beta], some cudnnFailure, s1⟩
        | some res =>
          ⟨[CudnnCall.backward alphaData betaData alpha beta], none,
            { s1 with
              mDiffScale := res.diffScale
              mDiffBias := res.diffBias
              mDiffOutputs := s1.mDiffOutputs.set 0 res.diffOutput.setValid }⟩

/-- The state in which `initialize` returns normally when the four parameter tensors
after their checks are `scale`, `bias`, `mean` and `variance`. -/
def initializedState (L : CuDNN) (s : BatchNormCell_Frame_CUDA) (requiredDims : List Nat)
    (scale bias mean variance : Tensor ℚ) : BatchNormCell_Frame_CUDA :=
  { s with
    mMode := CudnnBatchNormMode.CUDNN_BATCHNORM_SPATIAL
    mNbPropagate := 0
    mEpsilon := if L.CUDNN_BN_MIN_EPSILON > 0 ∧ s.mEpsilon < L.CUDNN_BN_MIN_EPSILON then
      L.CUDNN_BN_MIN_EPSILON else s.mEpsilon
    mScale := scale
    mBias := bias
    mMean := mean
    mVariance := variance
    mSavedMean := s.mSavedMean.resize requiredDims 0
    mSavedVariance := s.mSavedVariance.resize requiredDims 0
    mDiffScale := s.mDiffScale.resize requiredDims 0
    mDiffBias := s.mDiffBias.resize requiredDims 0 }

/-- The four shared parameter tensors in the order in which `initialize` checks them:
scale, bias, running mean, running variance. -/
def sharedTensors (s : BatchNormCell_Frame_CUDA) : List (Tensor ℚ) :=
  [s.mScale, s.mBias, s.mMean, s.mVariance]

/-- The tensor is already present (non-empty) and its dims differ from the required
dims. -/
def Mismatch (requiredDims : List Nat) (t : Tensor ℚ) : Prop :=
  t.empty = false ∧ t.dims ≠ requiredDims

instance (requiredDims : List Nat) (t : Tensor ℚ) : Decidable (Mismatch requiredDims t) := by
  unfold Mismatch; infer_instance

/-- The tensor is empty or has the required dims. -/
def Acceptable (requiredDims : List Nat) (t : Tensor ℚ) : Prop :=
  t.empty = true ∨ t.dims = requiredDims

instance (requiredDims : List Nat) (t : Tensor ℚ) : Decidable (Acceptable requiredDims t) := by
  unfold Acceptable; infer_instance

/-- The tensor a parameter holds after a successful `initialize`, as the specification
describes it: a tensor that was present is kept, one that was empty is created with the
required dims and filled with `value`. -/
def keptOrCreated (requiredDims : List Nat) (value : ℚ) (t : Tensor ℚ) : Tensor ℚ :=
  if t.empty then
    ⟨requiredDims, List.replicate (Tensor.computeSize requiredDims) value, t.valid⟩
  else t

/-- The error report as the specification words it: whenever one of the four tensors is
present with wrong dims, the run fails with a message that contains the cell name, the
required dims and the dims of that very tensor. -/
def ReportsOwnDims (s : BatchNormCell_Frame_CUDA) (requiredDims : List Nat)
    (r : Run CudnnCall BatchNormCell_Frame_CUDA) : Prop :=
  ∀ t ∈ sharedTensors s, Mismatch requiredDims t →
    ∃ msg, r.error = some msg ∧ mentions msg s.mName ∧
      mentions msg (showVector requiredDims) ∧ mentions msg (showVector t.dims)

/-- The error report of the code: whenever one of the four tensors is present with wrong
dims, the run fails with a message that contains the cell name, the required dims and
the dims of the first tensor, in the order scale, bias, mean, variance, that is present
with wrong dims. -/
def ReportsFirstMismatch (s : BatchNormCell_Frame_CUDA) (requiredDims : List Nat)
    (r : Run CudnnCall BatchNormCell_Frame_CUDA) : Prop :=
  ∀ t ∈ sharedTensors s, Mismatch requiredDims t →
    ∃ msg first,
      (sharedTensors s).find? (fun u => decide (Mismatch requiredDims u)) = some first ∧
      r.error = some msg ∧ mentions msg s.mName ∧
      mentions msg (showVector requiredDims) ∧ mentions msg (showVector first.dims)

/-- Element-wise weighted average `wPrevious * previous + wBatch * batch` of a running
statistic and a batch statistic. -/
def weightedAverage (wPrevious wBatch : ℚ) (previous batch : List ℚ) : List ℚ :=
  List.zipWith (fun r b => wPrevious * r + wBatch * b) previous batch

/-- The running statistics after the run `r` of a training pass on the state `s` with
input `input0` are the weighted averages, with weights `wPrevious` and `wBatch`, of the
running statistics of `s` and the statistics of the batch. -/
def RunningStatisticsAs (wPrevious wBatch : ℚ) (L : CuDNN) (s : BatchNormCell_Frame_CUDA)
    (input0 : Tensor ℚ) (r : Run CudnnCall BatchNormCell_Frame_CUDA) : Prop :=
  r.state.mMean.data =
      weightedAverage wPrevious wBatch s.mMean.data (L.batchMean s.mMode input0) ∧
  r.state.mVariance.data =
      weightedAverage wPrevious wBatch s.mVariance.data (L.batchVariance s.mMode input0)

/-- Contract of `cudnnBatchNormalizationForwardTraining` for the running statistics, from
the cuDNN API reference: with `exponentialAverageFactor = factor` the routine computes
`runningMean = runningMean*(1 - factor) + newMean*factor`, and the running variance in the
same way. -/
def ExponentialAverageContract (L : CuDNN) : Prop :=
  ∀ mode alpha beta input outputs scale bias factor mean variance epsilon savedMean
    savedVariance res,
    L.forwardTraining mode alpha beta input outputs scale bias factor mean variance epsilon
        savedMean savedVariance = some res →
      res.runningMean.data = weightedAverage (1 - factor) factor mean.data (L.batchMean mode input)
      ∧ res.runningVariance.data =
          weightedAverage (1 - factor) factor variance.data (L.batchVariance mode input)

/-- Values of channel `z` of a tensor of extents `[width, height, channels, batch]`
stored with the width running fastest. -/
def channelValues (t : Tensor ℚ) (z : Nat) : List ℚ :=
  (t.data.enum.filter
    (fun p => (p.1 / (t.dims.getD 0 1 * t.dims.getD 1 1)) % t.dimZ = z)).map Prod.snd

/-- Arithmetic mean of a list. -/
def average (l : List ℚ) : ℚ := l.sum / l.length

/-- Mean of every channel over the batch and the spatial extent. -/
def channelMeans (t : Tensor ℚ) : List ℚ :=
  (List.range t.dimZ).map (fun z => average (channelValues t z))

/-- Variance of every channel over the batch and the spatial extent. -/
def channelVariances (t : Tensor ℚ) : List ℚ :=
  (List.range t.dimZ).map (fun z =>
    average ((channelValues t z).map (fun x => (x - average (channelValues t z)) ^ 2)))

/-- A stand-in for the library in concrete runs. The batch statistics are computed
exactly per channel and the running statistics follow `ExponentialAverageContract`; the
derived descriptor of a 4-dimensional input is `1 x C x 1 x 1`. The quantities that need
a square root (normalised outputs, saved inverse deviation, gradients) are left as they
were. -/
def referenceCuDNN : CuDNN where
  CUDNN_BN_MIN_EPSILON := 0
  deriveBNDims := fun _ input => some [1, input.dimZ, 1, 1]
  batchMean := fun _ input => channelMeans input
  batchVariance := fun _ input => channelVariances input
  forwardInference := fun _ _ _ _ outputs _ _ _ _ _ => some outputs
  forwardTraining := fun _ _ _ input outputs _ _ factor mean variance _ _ savedVariance =>
    some
      { outputs := outputs
        runningMean :=
          { mean with data := weightedAverage (1 - factor) factor mean.data (channelMeans input) }
        runningVariance :=
          { variance with
            data := weightedAverage (1 - factor) factor variance.data (channelVariances input) }
        savedMean := { mean with data := channelMeans input }
        savedVariance := savedVariance }
  backward := fun _ _ _ _ _ _ _ diffOutput _ diffScale diffBias _ _ _ =>
    some ⟨diffOutput, diffScale, diffBias⟩

/-- Text written for a `double` in concrete runs (numerator and denominator). -/
def showRatio (q : ℚ) : String := toString q.num ++ "/" ++ toString q.den

/-- A batch-normalisation cell before `initialize`: one input of one channel
(`2 x 1 x 1 x 2`, every value 2), momentum `0.9`, no parameter tensor allocated yet, its
`DiffInputs` marked valid and one upstream gradient slot. -/
def freshCell : BatchNormCell_Frame_CUDA where
  mName := "bn"
  mInputs := [constTensor [2, 1, 1, 2] 2]
  mOutputs := constTensor [2, 1, 1, 2] 0
  mDiffInputs := (constTensor [2, 1, 1, 2] 0).setValid
  mDiffOutputs := [constTensor [2, 1, 1, 2] 0]
  mMode := CudnnBatchNormMode.CUDNN_BATCHNORM_PER_ACTIVATION
  mNbPropagate := 7
  mEpsilon := 1 / 100000
  mMovingAverageMomentum := 9 / 10
  mScale := ⟨[], [], false⟩
  mBias := ⟨[], [], false⟩
  mMean := ⟨[], [], false⟩
  mVariance := ⟨[], [], false⟩
  mSavedMean := ⟨[], [], false⟩
  mSavedVariance := ⟨[], [], false⟩
  mDiffScale := ⟨[], [], false⟩
  mDiffBias := ⟨[], [], false⟩
  mScaleSolver := ⟨true⟩
  mBiasSolver := ⟨true⟩

/-- The cell `freshCell` after `initialize`: scale 1, bias 0, running mean 0 and running
variance 0, each of dims `1 x 1 x 1 x 1`. -/
def readyCell : BatchNormCell_Frame_CUDA :=
  { freshCell with
    mMode := CudnnBatchNormMode.CUDNN_BATCHNORM_SPATIAL
    mNbPropagate := 0
    mScale := constTensor [1, 1, 1, 1] 1
    mBias := constTensor [1, 1, 1, 1] 0
    mMean := constTensor [1, 1, 1, 1] 0
    mVariance := constTensor [1, 1, 1, 1] 0
    mSavedMean := constTensor [1, 1, 1, 1] 0
    mSavedVariance := constTensor [1, 1, 1, 1] 0
    mDiffScale := constTensor [1, 1, 1, 1] 0
    mDiffBias := constTensor [1, 1, 1, 1] 0 }

/-- The cell `readyCell` placed first in the network: no upstream gradient slot. -/
def firstLayerBatchNorm : BatchNormCell_Frame_CUDA := { readyCell with mDiffOutputs := [] }

/-- The cell `freshCell` with a second input group. -/
def twoInputCell : BatchNormCell_Frame_CUDA :=
  { freshCell with mInputs := [constTensor [2, 1, 1, 2] 2, constTensor [2, 1, 1, 2] 2] }

/-- The cell `freshCell` with loaded parameters of the wrong shapes: a scale of dims `2`
and a running mean of dims `3`, where `1 x 1 x 1 x 1` is required. -/
def misloadedCell : BatchNormCell_Frame_CUDA :=
  { freshCell with
    mScale := constTensor [2] 1
    mMean := constTensor [3] 0 }

/-- The cell `freshCell` with a loaded scale and a loaded running mean of the required
dims; bias and running variance are not allocated yet. -/
def loadedCell : BatchNormCell_Frame_CUDA :=
  { freshCell with
    mScale := ⟨[1, 1, 1, 1], [3], false⟩
    mMean := ⟨[1, 1, 1, 1], [1 / 2], false⟩ }

/-- The tensors `a` and `b` differ at most in the values of their elements: they have
the same dims, the same number of elements and the same validity flag. -/
def SameShape (a b : Tensor ℚ) : Prop :=
  a.dims = b.dims ∧ a.data.length = b.data.length ∧ a.valid = b.valid

instance (a b : Tensor ℚ) : Decidable (SameShape a b) := by
  unfold SameShape; infer_instance

/-- The cell `readyCell` whose two caches still hold the batch statistics of an earlier
training pass. -/
def staleCell : BatchNormCell_Frame_CUDA :=
  { readyCell with
    mSavedMean := ⟨[1, 1, 1, 1], [5], false⟩
    mSavedVariance := ⟨[1, 1, 1, 1], [7], false⟩ }

/-- The propagate counter after the run `r` of a training pass is the counter of `s`
plus one, as the specification words it. -/
def CounterPlusOne (s : BatchNormCell_Frame_CUDA)
    (r : Run CudnnCall BatchNormCell_Frame_CUDA) : Prop :=
  r.ok → r.state.mNbPropagate = s.mNbPropagate + 1

/-- The cell `readyCell` after `2^32 - 1` training passes. -/
def saturatedCell : BatchNormCell_Frame_CUDA :=
  { readyCell with mNbPropagate := 4294967295 }

end BatchNormCell_Frame_CUDA

/-! ## Parameter files of BatchNormCell_Frame_CUDA -/

/-- The object representation of an element of type `T`: `sizeOf` is `sizeof(T)`,
`bytesOf x` the bytes of the value `x` in memory and `valueOf` the value read back from
`sizeof(T)` bytes. -/
structure ElementFormat where
  sizeOf : Nat
  bytesOf : ℚ → List Nat
  valueOf : List Nat → ℚ

/-- The value `x` is a value of the element type: it occupies `sizeof(T)` bytes, from
which it is read back unchanged. -/
def ElementFormat.Faithful (fmt : ElementFormat) (x : ℚ) : Prop :=
  (fmt.bytesOf x).length = fmt.sizeOf ∧ fmt.valueOf (fmt.bytesOf x) = x

/-- Modelled from the spec: the state of a binary input stream (`std::ifstream`): the
bytes not read yet and the `eofbit` and `failbit` flags. -/
structure IStream where
  rest : List Nat
  eof : Bool
  fail : Bool
deriving DecidableEq

/-- Modelled from the spec: `good()` of a stream, no flag is set. -/
def IStream.good (st : IStream) : Bool := !st.eof && !st.fail

/-- Modelled from the spec: the layout written by `Tensor::save`, which is missing from
the sources: the raw element values in iteration order, with no header. -/
def serialize (fmt : ElementFormat) : List ℚ → List Nat
  | [] => []
  | x :: xs => fmt.bytesOf x ++ serialize fmt xs

/-- Modelled from the spec: reading one element (`stream.read` of `sizeof(T)` bytes). A
stream that is not good reads nothing; a stream with fewer than `sizeof(T)` bytes left
is exhausted and gets `eofbit` and `failbit`; an element that could not be read keeps
its value. -/
def readElement (fmt : ElementFormat) (st : IStream) (old : ℚ) : IStream × ℚ :=
  if st.good then
    if fmt.sizeOf ≤ st.rest.length then
      (⟨st.rest.drop fmt.sizeOf, false, false⟩, fmt.valueOf (st.rest.take fmt.sizeOf))
    else (⟨[], true, true⟩, old)
  else (⟨st.rest, st.eof, true⟩, old)

/-- Modelled from the spec: reading the elements of a tensor in iteration order. -/
def readElements (fmt : ElementFormat) : IStream → List ℚ → IStream × List ℚ
  | st, [] => (st, [])
  | st, x :: xs =>
    ((readElements fmt (readElement fmt st x).1 xs).1,
      (readElement fmt st x).2 :: (readElements fmt (readElement fmt st x).1 xs).2)

/-- Modelled from the spec: `Tensor::load`, which is missing from the sources: the
elements of the tensor, whose dims are kept, are read back in the order in which
`Tensor::save` wrote them. -/
def Tensor.load (fmt : ElementFormat) (st : IStream) (t : Tensor ℚ) : IStream × Tensor ℚ :=
  ((readElements fmt st t.data).1, { t with data := (readElements fmt st t.data).2 })

/-- Modelled from the spec: the file a parameter file is written to: whether it can be
created, and how many bytes can be written to it before the stream goes bad (`none`: no
limit). -/
structure Destination where
  creatable : Bool
  capacity : Option Nat
deriving DecidableEq

namespace BatchNormCell_Frame_CUDA

/-- The method `BatchNormCell_Frame_CUDA<T>::saveFreeParameters(fileName)`: the content
of the file written, or the message of the exception. -/
def saveFreeParameters (fmt : ElementFormat) (fileName : String) (dest : Destination)
    (s : BatchNormCell_Frame_CUDA) : Except String (List Nat) :=
  if !dest.creatable then
    Except.error ("Could not create parameter file (.SYN): " ++ fileName)
  else
    let content := serialize fmt s.mScale.data ++ serialize fmt s.mBias.data
      ++ serialize fmt s.mMean.data ++ serialize fmt s.mVariance.data
    match dest.capacity with
    | none => Except.ok content
    | some n =>
      if n < content.length then Except.error ("Error writing parameter file: " ++ fileName)
      else Except.ok content

/-- The method `BatchNormCell_Frame_CUDA<T>::loadFreeParameters(fileName,
ignoreNotExists)`; `source` is the content of the file, `none` when it cannot be
opened. -/
def loadFreeParameters (fmt : ElementFormat) (fileName : String) (source : Option (List Nat))
    (ignoreNotExists : Bool) (s : BatchNormCell_Frame_CUDA) :
    Run CudnnCall BatchNormCell_Frame_CUDA :=
  match source with
  | none =>
    if ignoreNotExists then ⟨[], none, s⟩
    else ⟨[], some ("Could not open parameter file (.SYN): " ++ fileName), s⟩
  | some bytes =>
    let syn0 : IStream := ⟨bytes, false, false⟩
    let scale := Tensor.load fmt syn0 s.mScale
    let bias := Tensor.load fmt scale.1 s.mBias
    let mean := Tensor.load fmt bias.1 s.mMean
    let variance := Tensor.load fmt mean.1 s.mVariance
    let syn := variance.1
    let s1 := { s with
      mScale := scale.2, mBias := bias.2, mMean := mean.2, mVariance := variance.2 }
    if syn.eof then
      ⟨[], some ("End-of-file reached prematurely in parameter file (.SYN): " ++ fileName), s1⟩
    else if !syn.good then
      ⟨[], some ("Error while reading parameter file (.SYN): " ++ fileName), s1⟩
    else if syn.rest ≠ [] then
      ⟨[], some ("Synaptic file (.SYN) size larger than expected: " ++ fileName), s1⟩
    else ⟨[], none, s1⟩

/-- The tensors `a` and `b` have the same shape: the same dims and the same number of
elements. -/
def SameSize (a b : Tensor ℚ) : Prop :=
  a.dims = b.dims ∧ a.data.length = b.data.length

instance (a b : Tensor ℚ) : Decidable (SameSize a b) := by
  unfold SameSize; infer_instance

/-- The tensor `a` has the dims and, element for element, the values of `b`. -/
def SameElements (a b : Tensor ℚ) : Prop :=
  a.dims = b.dims ∧ a.data = b.data

/-- Number of elements of the four parameter tensors of a cell. -/
def nbFreeParameters (s : BatchNormCell_Frame_CUDA) : Nat :=
  s.mScale.data.length + s.mBias.data.length + s.mMean.data.length + s.mVariance.data.length

/-- An element format of two bytes, numerator and denominator, for the fractions
`n / d` with `0 ≤ n < 256` and `d < 256`. -/
def fractionFormat : ElementFormat where
  sizeOf := 2
  bytesOf := fun x => [x.num.toNat, x.den]
  valueOf := fun bytes => (bytes.getD 0 0 : ℚ) / (bytes.getD 1 1 : ℚ)

/-- A destination that can be created and written without limit. -/
def plainFile : Destination := ⟨true, none⟩

/-- The cell `readyCell` after training: scale 2, bias 1/2, running mean 3/4 and running
variance 5. -/
def trainedCell : BatchNormCell_Frame_CUDA :=
  { readyCell with
    mScale := ⟨[1, 1, 1, 1], [2], false⟩
    mBias := ⟨[1, 1, 1, 1], [1 / 2], false⟩
    mMean := ⟨[1, 1, 1, 1], [3 / 4], false⟩
    mVariance := ⟨[1, 1, 1, 1], [5], false⟩ }

end BatchNormCell_Frame_CUDA

/-! ## Construction of a PoolCell_Frame -/

/-- How the construction of a cell fails: a failed `assert`, or a `std::domain_error`
with its message. -/
inductive ConstructionFailure where
  | assertion
  | domain_error (what : String)
deriving DecidableEq

namespace PoolCell_Frame

/-- The constructor `PoolCell_Frame<T>::PoolCell_Frame(deepNet, name, poolDims,
nbOutputs, strideDims, paddingDims, pooling, activation)`. `POOL_KERNEL_MAX_DIMS` is the
value of the macro of that name, defined outside the sources at hand. The descriptor is
built in the member initialiser list from `poolDims.size()` entries of each vector; the
`assert` and the three checks are the body. The arguments handed on to the base classes
(`deepNet`, `nbOutputs`, `activation`) play no part in the checks. -/
def ctor (POOL_KERNEL_MAX_DIMS : Nat) (name : String) (poolDims strideDims paddingDims : List Nat)
    (pooling : Pooling) : Except ConstructionFailure PoolCell_Frame :=
  let mPoolDesc : PoolDesc :=
    ⟨poolDims, strideDims.take poolDims.length, paddingDims.take poolDims.length⟩
  if ¬ poolDims.length ≤ POOL_KERNEL_MAX_DIMS then
    Except.error ConstructionFailure.assertion
  else if poolDims.length ≠ 2 then
    Except.error (ConstructionFailure.domain_error
      ("PoolCell_Frame: only 2D pooling is" ++ " supported"))
  else if strideDims.length ≠ poolDims.length then
    Except.error (ConstructionFailure.domain_error
      ("PoolCell_Frame: the number of dimensions" ++ " of stride must match the number of"
        ++ " dimensions of the pooling."))
  else if paddingDims.length ≠ poolDims.length then
    Except.error (ConstructionFailure.domain_error
      ("PoolCell_Frame: the number of dimensions" ++ " of padding must match the number of"
        ++ " dimensions of the pooling."))
  else
    Except.ok
      { mName := name
        mPooling := pooling
        mPoolDesc := mPoolDesc
        mMapping := ⟨[], [], false⟩
        mInputs := []
        mOutputs := ⟨[], [], false⟩
        mArgMax := []
        mDiffInputs := ⟨[], [], false⟩
        mDiffOutputs := [] }

/-- The construction passed its configuration checks. -/
def Constructed (r : Except ConstructionFailure PoolCell_Frame) : Prop :=
  ∃ c, r = Except.ok c

/-- The construction failed with a `std::domain_error`. -/
def DomainError (r : Except ConstructionFailure PoolCell_Frame) : Prop :=
  ∃ what, r = Except.error (ConstructionFailure.domain_error what)

/-- The outcome `r` of a construction from `poolDims`, `strideDims` and `paddingDims` as
the specification describes it: the checks pass if and only if each vector has exactly
two entries, and the construction fails with a domain error when `poolDims` has not two
entries, when `strideDims` has not as many entries as `poolDims`, and when `paddingDims`
has not as many entries as `poolDims`. -/
def ChecksAsSpecified (poolDims strideDims paddingDims : List Nat)
    (r : Except ConstructionFailure PoolCell_Frame) : Prop :=
  (Constructed r ↔ poolDims.length = 2 ∧ strideDims.length = 2 ∧ paddingDims.length = 2) ∧
  (poolDims.length ≠ 2 → DomainError r) ∧
  (strideDims.length ≠ poolDims.length → DomainError r) ∧
  (paddingDims.length ≠ poolDims.length → DomainError r)

end PoolCell_Frame

/-! ## FcCell: accumulation over input groups -/

/-- Modelled from the spec: the state of a fully-connected cell without bias and without
activation (`FcCell_Frame_CUDA`, whose sources are missing; only its tests are at
hand). `mInputs[b][k]` holds the elements of input group `k` for batch item `b`,
`mSynapses[k][o]` the weights between the elements of group `k` and output `o`, and
`mOutputs[b][o]` the outputs. -/
structure FcCell where
  mInputs : List (List (List ℚ))
  mSynapses : List (List (List ℚ))
  mOutputs : List (List ℚ)

namespace FcCell

/-- Sum of the products `weight * input` over the elements of one group. -/
def dot (w x : List ℚ) : ℚ := (List.zipWith (fun a b => a * b) w x).sum

/-- Modelled from the spec: the forward kernel of the cell for one input group and one
batch item, with the scale-and-add convention: every output becomes
`alpha * (weighted sum of the inputs of the group) + beta * (old output)`. -/
def forward (alpha : ℚ) (x : List ℚ) (weights : List (List ℚ)) (beta : ℚ) (outputs : List ℚ) :
    List ℚ :=
  List.zipWith (fun w y => alpha * dot w x + beta * y) weights outputs

/-- Modelled from the spec: the loop of `propagate` over the input groups of one batch
item: the first group overwrites the outputs (`beta = 0`), the following groups
accumulate (`beta = 1`). -/
def propagateLoop : List (List ℚ) → List (List (List ℚ)) → Nat → List ℚ → List ℚ
  | x :: xs, W :: Ws, k, outputs =>
    propagateLoop xs Ws (k + 1) (forward 1 x W (if k > 0 then 1 else 0) outputs)
  | _, _, _, outputs => outputs

/-- Modelled from the spec: `propagate` of the fully-connected cell without bias and
without activation. -/
def propagate (c : FcCell) : FcCell :=
  { c with
    mOutputs := List.zipWith (fun groups outputs => propagateLoop groups c.mSynapses 0 outputs)
      c.mInputs c.mOutputs }

/-- The sum, over all input groups and all elements of those groups, of
`weight(output, element) * input(element)`. -/
def weightedSum (groups : List (List ℚ)) (synapses : List (List (List ℚ))) (o : Nat) : ℚ :=
  (List.zipWith (fun x W => dot (W.getD o []) x) groups synapses).sum

/-- The value `sum` that the tests `propagate_input_check` and `propagate_2_input_check`
compare every output with: the sum of all the input values of all the groups (of batch
item 0). -/
def expectedInputSum (groups : List (List ℚ)) : ℚ := (groups.map List.sum).sum

/-- The value `sum` that the test `propagate_weight_check` compares output `o` with: the
sum of the weights of that output. -/
def expectedWeightSum (synapses : List (List (List ℚ))) (o : Nat) : ℚ :=
  (synapses.map (fun W => (W.getD o []).sum)).sum

/-- A cell with one output and two input groups of one element each, valued 1 and 1/2
for batch item 0 (3 and 5 for batch item 1), all weights 1; the outputs hold 9 from an
earlier pass. -/
def twoGroupCell : FcCell where
  mInputs := [[[1], [1 / 2]], [[3], [5]]]
  mSynapses := [[[1]], [[1]]]
  mOutputs := [[9], [9]]

end FcCell

/-! ## DeconvCell_Frame: index-addressed accessors -/

/-- Modelled from the spec: the `Interface<T>` of shared synapses, an ordered collection
of weight tensors with channel-offset addressing. A weight tensor is seen through
`t[output][channel]`, the kernel between one output and one channel of the tensor.
`getTensor channel` is the outcome of `Interface::getTensor(channel, &tensorChannel)`:
the position in the collection of the tensor that owns the global channel index
`channel` and the value stored in `tensorChannel`, or `none` when no tensor owns the
channel. -/
structure SynapseInterface where
  tensors : List (List (List (Tensor ℚ)))
  getTensor : Nat → Option (Nat × Nat)

/-- The part of the state of a `DeconvCell_Frame<T>` object that the index-addressed
accessors read and write. -/
structure DeconvCell_Frame where
  mSharedSynapses : SynapseInterface
  mBias : Tensor ℚ

namespace DeconvCell_Frame

/-- Message of the failed shape check of a tensor assignment. -/
def shapeMismatch : String := "assertion failed: dims"

/-- Modelled from the spec: assignment `view = value` to a tensor that aliases storage:
the elements of `value` are written into the storage of `view`; the shapes must
agree. -/
def assign (view value : Tensor ℚ) : Option (Tensor ℚ) :=
  if view.dims = value.dims ∧ view.data.length = value.data.length then
    some { view with data := value.data }
  else none

/-- The address `sharedSynapses[output][channel - tensorChannel]` computed by `getWeight`
and by `setWeight`: the position of the tensor, the output, and the channel inside the
tensor, an `unsigned int` difference. -/
def weightAddress (c : DeconvCell_Frame) (output channel : Nat) : Option (Nat × Nat × Nat) :=
  match c.mSharedSynapses.getTensor channel with
  | none => none
  | some (t, tensorChannel) => some (t, output, (channel + 2 ^ 32 - tensorChannel) % 2 ^ 32)

/-- The kernel at an address, when the tensor, the output and the channel exist. -/
def kernelAt (tensors : List (List (List (Tensor ℚ)))) (a : Nat × Nat × Nat) :
    Option (Tensor ℚ) :=
  match tensors[a.1]? with
  | none => none
  | some sharedSynapses =>
    match sharedSynapses[a.2.1]? with
    | none => none
    | some row => row[a.2.2]?

/-- The accessor `DeconvCell_Frame<T>::getWeight(output, channel, value)`: the tensor
`value` after the call. -/
def getWeight (c : DeconvCell_Frame) (output channel : Nat) (value : Tensor ℚ) :
    Except String (Tensor ℚ) :=
  match weightAddress c output channel with
  | none => Except.error outOfRange
  | some a =>
    match kernelAt c.mSharedSynapses.tensors a with
    | none => Except.error outOfRange
    | some kernel => Except.ok { dims := kernel.dims, data := kernel.data, valid := value.valid }

/-- The accessor `DeconvCell_Frame<T>::getBias(output, value)`: the tensor `value` after
the call. -/
def getBias (c : DeconvCell_Frame) (output : Nat) (value : Tensor ℚ) : Except String (Tensor ℚ) :=
  match c.mBias.data[output]? with
  | none => Except.error outOfRange
  | some b => Except.ok { dims := [1], data := [b], valid := value.valid }

/-- The accessor `DeconvCell_Frame<T>::setWeight(output, channel, value)`: the cell after
the call. -/
def setWeight (c : DeconvCell_Frame) (output channel : Nat) (value : Tensor ℚ) :
    Except String DeconvCell_Frame :=
  match weightAddress c output channel with
  | none => Except.error outOfRange
  | some a =>
    match c.mSharedSynapses.tensors[a.1]? with
    | none => Except.error outOfRange
    | some sharedSynapses =>
      match sharedSynapses[a.2.1]? with
      | none => Except.error outOfRange
      | some row =>
        match row[a.2.2]? with
        | none => Except.error outOfRange
        | some kernel =>
          match assign kernel value with
          | none => Except.error shapeMismatch
          | some written =>
            Except.ok
              { c with
                mSharedSynapses :=
                  { c.mSharedSynapses with
                    tensors := c.mSharedSynapses.tensors.set a.1
                      (sharedSynapses.set a.2.1 (row.set a.2.2 written)) } }

/-- The accessor `DeconvCell_Frame<T>::setBias(output, value)`: the cell after the
call. -/
def setBias (c : DeconvCell_Frame) (output : Nat) (value : Tensor ℚ) :
    Except String DeconvCell_Frame :=
  match value.data[0]? with
  | none => Except.error outOfRange
  | some v0 =>
    if output < c.mBias.data.length then
      Except.ok { c with mBias := { c.mBias with data := c.mBias.data.set output v0 } }
    else Except.error outOfRange

/-- A cell with two weight tensors, of channels 0 to 1 and of channel 2, two outputs,
kernels of one element and biases 10 and 20. -/
def deconvCell : DeconvCell_Frame where
  mSharedSynapses :=
    { tensors :=
        [[[⟨[1, 1], [1], false⟩, ⟨[1, 1], [2], false⟩],
          [⟨[1, 1], [3], false⟩, ⟨[1, 1], [4], false⟩]],
         [[⟨[1, 1], [5], false⟩], [⟨[1, 1], [6], false⟩]]]
      getTensor := fun channel =>
        if channel < 2 then some (0, 0) else if channel < 3 then some (1, 2) else none }
  mBias := ⟨[2], [10, 20], false⟩

end DeconvCell_Frame

/-! ## PoolCell_Frame: a forward pass followed by a backward pass -/

namespace PoolCell_Frame

/-- The row offsets of the successive iterations of the two loops, started at `offset`
for groups of `z_0, z_1, ...` channels: the `unsigned int` sums as the code computes
them. -/
def wrapOffsets : Nat → List Nat → List Nat
  | _, [] => []
  | offset, z :: zs => offset :: wrapOffsets ((offset + z) % 2 ^ 32) zs

/-- What the loop of `propagate`, started at group `k` with row offset `offset` in state
`c`, does for the inputs `ins`: it ends normally, leaves everything but the outputs and
the argmax tensors as it was, calls the forward kernel of the pooling mode for group
`k + i` on the rows `[offset_i, offset_i + z_i)`, and in `Max` mode leaves in
`mArgMax[k + i]` the argmax tensor returned by that call. -/
def ForwardTrace (K : PoolCell_Frame_Kernels) (alpha : ℚ) (ins : List (Tensor ℚ))
    (k offset : Nat) (c : PoolCell_Frame) (r : Run PoolCall PoolCell_Frame) : Prop :=
  r.error = none ∧ r.state.mInputs = c.mInputs ∧ r.state.mPooling = c.mPooling ∧
  r.state.mMapping = c.mMapping ∧ r.state.mPoolDesc = c.mPoolDesc ∧
  r.state.mArgMax.length = c.mArgMax.length ∧
  (∀ i input, ins[i]? = some input →
    ∃ call, r.calls[i]? = some call ∧ call.kernel = c.forwardKernel ∧ call.alpha = alpha ∧
      call.flag = c.kernelFlag ∧ call.group = k + i ∧
      call.rowsOffset = (wrapOffsets offset (ins.map Tensor.dimZ)).getD i 0 ∧
      call.rowsNb = input.dimZ) ∧
  (c.mPooling = Pooling.Max → ∀ i input, ins[i]? = some input →
    ∃ beta outputs argMax,
      r.state.mArgMax[k + i]? = some (K.forwardMax alpha input c.mPoolDesc beta outputs argMax
        false ⟨c.mMapping, (wrapOffsets offset (ins.map Tensor.dimZ)).getD i 0,
          input.dimZ⟩).2) ∧
  (∀ j, j < k → r.state.mArgMax[j]? = c.mArgMax[j]?)

/-- What the loop of `backPropagate`, started at group `k` with row offset `offset` in
state `c`, does for the inputs `ins`: it ends normally, calls the backward kernel of the
pooling mode for group `k + i` on the rows `[offset_i, offset_i + z_i)`, and in `Max`
mode leaves in `mDiffOutputs[k + i]` the tensor returned by the backward max kernel for
the gradient slot and the argmax tensor of that group. -/
def BackwardTrace (K : PoolCell_Frame_Kernels) (alpha : ℚ) (ins : List (Tensor ℚ))
    (k offset : Nat) (c : PoolCell_Frame) (r : Run PoolCall PoolCell_Frame) : Prop :=
  r.error = none ∧
  (∀ i input, ins[i]? = some input →
    ∃ call, r.calls[i]? = some call ∧ call.kernel = c.backwardKernel ∧ call.alpha = alpha ∧
      call.flag = c.kernelFlag ∧ call.group = k + i ∧
      call.rowsOffset = (wrapOffsets offset (ins.map Tensor.dimZ)).getD i 0 ∧
      call.rowsNb = input.dimZ) ∧
  (c.mPooling = Pooling.Max → ∀ i input, ins[i]? = some input →
    ∃ slot argMax, c.mDiffOutputs[k + i]? = some slot ∧ c.mArgMax[k + i]? = some argMax ∧
      r.state.mDiffOutputs[k + i]? = some (K.backwardMax alpha c.mDiffInputs c.mPoolDesc
        (if slot.isValid then 1 else 0) slot argMax
        ⟨c.mMapping, (wrapOffsets offset (ins.map Tensor.dimZ)).getD i 0,
          input.dimZ⟩).setValid) ∧
  (∀ j, j < k → r.state.mDiffOutputs[j]? = c.mDiffOutputs[j]?)

/-- Modelled from the spec: the gradient routed to input element `i` by the backward max
kernel (`PoolCell_Frame_Kernels::backwardMax`, missing from the sources): the sum of the
incoming gradients of the output elements whose recorded argmax is `i`. -/
def routedGradient : List ℚ → List Nat → Nat → ℚ
  | g :: gs, a :: as, i => (if a = i then g else 0) + routedGradient gs as i
  | _, _, _ => 0

/-- Modelled from the spec: the backward max kernel: it scatters the incoming gradient
of every output element to exactly the recorded argmax location, zero elsewhere, with
the scale-and-add convention `alpha * routed + beta * old`. -/
def backwardMaxSpec (alpha : ℚ) (diffInputs : Tensor ℚ) (_desc : PoolDesc) (beta : ℚ)
    (diffOutput : Tensor ℚ) (argMax : Tensor Nat) (_rows : MappingRows) : Tensor ℚ :=
  { diffOutput with
    data := List.zipWith
      (fun i old => alpha * routedGradient diffInputs.data argMax.data i + beta * old)
      (List.range diffOutput.data.length) diffOutput.data }

/-- The forward max pass of `c` followed by a backward pass on the gradients `diffInputs`
and `diffOutputs` as the specification describes it: for every input group `k` there
are mapping rows and an argmax tensor such that the forward max kernel returned this
argmax tensor for group `k` on these rows, the cell kept it in `mArgMax[k]`, and the
backward max kernel was handed this argmax tensor and the same rows, its result being
the new gradient slot `k`. -/
def ArgMaxHandedOver (K : PoolCell_Frame_Kernels) (F : Cell_Frame) (c : PoolCell_Frame)
    (forwardRun backwardRun : Run PoolCall PoolCell_Frame)
    (diffInputs : Tensor ℚ) (diffOutputs : List (Tensor ℚ)) : Prop :=
  forwardRun.ok ∧ backwardRun.ok ∧
  ∀ (k : Nat) (input : Tensor ℚ), c.mInputs[k]? = some input →
    ∃ (rows : MappingRows) (argMax : Tensor Nat) (beta1 beta2 : ℚ) (outputs : Tensor ℚ)
      (argMax0 : Tensor Nat) (slot : Tensor ℚ),
      rows.mapping = c.mMapping ∧ rows.nb = input.dimZ ∧
      argMax = (K.forwardMax 1 input c.mPoolDesc beta1 outputs argMax0 false rows).2 ∧
      forwardRun.state.mArgMax[k]? = some argMax ∧
      diffOutputs[k]? = some slot ∧
      backwardRun.state.mDiffOutputs[k]? = some
        (K.backwardMax 1 (F.backPropagate forwardRun.state.mOutputs diffInputs) c.mPoolDesc
          beta2 slot argMax rows).setValid

/-- The routing of the gradient by a backward max kernel that scatters as the
specification describes: with `G` the incoming gradient after the activation derivative,
element `i` of the new gradient slot `k` is the sum of the elements of `G` whose argmax
recorded by the forward pass is `i`, scaled and added to the old content of the slot, and
the gradient of an output element `e` whose recorded argmax is not `i` contributes
nothing to it: replacing it by any value `v` leaves the routed sum unchanged. -/
def GradientRouted (F : Cell_Frame) (c : PoolCell_Frame)
    (forwardRun backwardRun : Run PoolCall PoolCell_Frame)
    (diffInputs : Tensor ℚ) (diffOutputs : List (Tensor ℚ)) : Prop :=
  ∀ (k : Nat) (input : Tensor ℚ), c.mInputs[k]? = some input →
    ∃ (argMax : Tensor Nat) (slot out : Tensor ℚ) (beta : ℚ),
      forwardRun.state.mArgMax[k]? = some argMax ∧ diffOutputs[k]? = some slot ∧
      backwardRun.state.mDiffOutputs[k]? = some out ∧
      ∀ (i : Nat) (old : ℚ), slot.data[i]? = some old →
        out.data[i]? = some
          (1 * routedGradient (F.backPropagate forwardRun.state.mOutputs diffInputs).data
            argMax.data i + beta * old) ∧
        ∀ (e : Nat) (v : ℚ), argMax.data[e]? ≠ some i →
          routedGradient ((F.backPropagate forwardRun.state.mOutputs diffInputs).data.set e v)
              argMax.data i =
            routedGradient (F.backPropagate forwardRun.state.mOutputs diffInputs).data
              argMax.data i

/-- Kernels whose backward max kernel scatters as the specification describes and whose
forward max kernel records element `1` as the argmax of every output element (used for
concrete runs). -/
def scatterKernels : PoolCell_Frame_Kernels :=
  { idleKernels with
    forwardMax := fun _ _ _ _ out argMax _ _ =>
      (out, { argMax with data := argMax.data.map fun _ => 1 })
    backwardMax := backwardMaxSpec }

/-- An incoming gradient of one element, `7`. -/
def sevenGradient : Tensor ℚ := ⟨[1, 1, 1, 1], [7], true⟩

end PoolCell_Frame

/-! ## Utils: rounding, greatest common divisor, statistics -/

/-- How a function of `Utils` fails: a `std::runtime_error` or a `std::domain_error`
with its message, or a conversion of a floating-point value to `int` whose value does not
fit (undefined behaviour). -/
inductive UtilsFailure where
  | runtime_error (what : String)
  | domain_error (what : String)
  | undefinedConversion
deriving DecidableEq

namespace Utils

/-- The enumeration `Utils::Rounding`. -/
inductive Rounding where
  | HalfUp
  | HalfDown
  | HalfAwayFromZero
  | HalfTowardsZero
deriving DecidableEq

/-- The function `Utils::round(x, rule)` on exact numbers: `floor` and `ceil` are the
integer floor and ceiling, `T(0.5f)` is one half. The result is stored in the type of the
input. -/
def round (x : ℚ) (rule : Rounding) : ℚ :=
  match rule with
  | Rounding.HalfUp => ((⌊x + 1 / 2⌋ : ℤ) : ℚ)
  | Rounding.HalfDown => ((⌈x - 1 / 2⌉ : ℤ) : ℚ)
  | Rounding.HalfTowardsZero =>
    if x < 0 then ((⌊x + 1 / 2⌋ : ℤ) : ℚ) else ((⌈x - 1 / 2⌉ : ℤ) : ℚ)
  | Rounding.HalfAwayFromZero =>
    if x < 0 then ((⌈x - 1 / 2⌉ : ℤ) : ℚ) else ((⌊x + 1 / 2⌋ : ℤ) : ℚ)

/-- The function `std::fmod(x, y)` on exact numbers: `x - n * y` where `n` is the quotient
`x / y` with its fractional part cut off; there is no result (a NaN) when `y` is zero. -/
def fmod (x y : ℚ) : Option ℚ :=
  if y = 0 then none
  else some (x - ((if 0 ≤ x / y then ⌊x / y⌋ else ⌈x / y⌉ : ℤ) : ℚ) * y)

/-- The `do ... while` loop of `Utils::gcd`, with a bound `fuel` on the number of times
its body runs (`none` when the bound is reached). When `fmod` has no result, `a` becomes a
NaN, the test `fabs(a) > precision` is false and the loop ends. -/
def gcdLoop (precision : ℚ) : Nat → ℚ → ℚ → Option ℚ
  | 0, _, _ => none
  | fuel + 1, a, b =>
    match fmod b a with
    | none => some a
    | some r => if |r| > precision then gcdLoop precision fuel r a else some a

/-- The function `Utils::gcd(x, y, precision)`, the body of its loop running at most
`fuel` times. -/
def gcd (fuel : Nat) (x y precision : ℚ) : Option ℚ :=
  gcdLoop precision fuel (min x y) (max x y)

/-- The `for` loop of `Utils::mean`, entered at iteration `k` with the running mean
`mean`. The numbers are exact: elements of an ordered field `F`, such as the fractions or
the real numbers. -/
def meanLoop {F : Type} [LinearOrderedField F] : List F → Nat → F → F
  | [], _, mean => mean
  | x :: rest, k, mean =>
    let delta := x - mean
    meanLoop rest (k + 1) (mean + delta / k)

/-- The function `Utils::mean(first, last)` on the sequence `x`. -/
def mean {F : Type} [LinearOrderedField F] (x : List F) : Except UtilsFailure F :=
  if x.isEmpty then
    Except.error (UtilsFailure.runtime_error "Utils::mean(): number of elements must be > 0.")
  else
    Except.ok (meanLoop x 1 0)

/-- The `for` loop of `Utils::meanStdDev` (the method of Welford), entered at iteration
`k` with the running mean `mean` and the running sum `M2`. -/
def meanStdDevLoop {F : Type} [LinearOrderedField F] : List F → Nat → F → F → F × F
  | [], _, mean, M2 => (mean, M2)
  | x :: rest, k, mean, M2 =>
    let delta := x - mean
    let mean1 := mean + delta / k
    let delta2 := x - mean1
    meanStdDevLoop rest (k + 1) mean1 (M2 + delta * delta2)

/-- The function `Utils::meanStdDev(first, last, unbiased)` on the sequence `x`. The
function `std::sqrt` is a parameter. -/
def meanStdDev {F : Type} [LinearOrderedField F] (sqrt : F → F) (x : List F) (unbiased : Bool) :
    Except UtilsFailure (F × F) :=
  if x.isEmpty then
    Except.error
      (UtilsFailure.runtime_error "Utils::meanStdDev(): number of elements must be > 0.")
  else
    let size := x.length
    if size = 1 ∧ unbiased = true then
      Except.error (UtilsFailure.runtime_error
        "Utils::meanStdDev(): number of elements must be > 1 for unbiased.")
    else
      let r := meanStdDevLoop x 1 0 0
      let stdDev :=
        if unbiased then sqrt (r.2 / ((size - 1 : Nat) : F)) else sqrt (r.2 / (size : F))
      Except.ok (r.1, stdDev)

/-- The arithmetic mean `(x_1 + ... + x_n) / n`. -/
def arithmeticMean {F : Type} [LinearOrderedField F] (x : List F) : F := x.sum / x.length

/-- The sum of the squared deviations `(x_i - c)^2`. -/
def sumSquaredDeviations {F : Type} [LinearOrderedField F] (x : List F) (c : F) : F :=
  (x.map fun xi => (xi - c) ^ 2).sum

/-- The variance as the specification states it: the sum of the squared deviations from
the arithmetic mean, divided by `n - 1` when `unbiased` and by `n` otherwise. -/
def variance {F : Type} [LinearOrderedField F] (x : List F) (unbiased : Bool) : F :=
  sumSquaredDeviations x (arithmeticMean x) /
    (if unbiased then ((x.length - 1 : Nat) : F) else (x.length : F))

/-- The contract of `std::sqrt` in exact arithmetic: on every number that is not negative
the result is the root that is not negative. -/
def ExactSqrt {F : Type} [LinearOrderedField F] (sqrt : F → F) : Prop :=
  ∀ v : F, 0 ≤ v → 0 ≤ sqrt v ∧ sqrt v ^ 2 = v

/-- The conversion `(int)x` of a floating-point value: the fractional part is cut off;
there is no defined result when the value does not fit the 32-bit type `int`. -/
def toInt (x : ℚ) : Option Int :=
  let t : Int := if 0 ≤ x then ⌊x⌋ else ⌈x⌉
  if -2147483648 ≤ t ∧ t ≤ 2147483647 then some t else none

/-- The value as `int` of an `unsigned int` result: the arithmetic of `unsigned int` is
modulo `2^32`, and the conversion to `int` keeps the bits (two's complement). -/
def intOfUnsigned (n : Int) : Int := (n + 2147483648) % 4294967296 - 2147483648

/-- The function `Utils::zeroAlignedQuantizedRange(minVal, maxVal, levels, roundingRule)`
on exact numbers. `levels` is an `unsigned int`; `quantizedZero - (levels - 1)` mixes `int`
and `unsigned int` and is computed in `unsigned int`. -/
def zeroAlignedQuantizedRange (minVal maxVal : ℚ) (levels : Nat) (roundingRule : Rounding) :
    Except UtilsFailure (ℚ × ℚ) :=
  if maxVal ≤ minVal then
    Except.error (UtilsFailure.domain_error
      ("Utils::zeroAlignedQuantizedRange(): " ++ "maxVal must be > minVal."))
  else if levels < 2 then
    Except.error (UtilsFailure.domain_error
      ("Utils::zeroAlignedQuantizedRange(): " ++ "levels must be > 1."))
  else
    let scaling : ℚ := (maxVal - minVal) / ((levels - 1 : Nat) : ℚ)
    let zero : ℚ := (0 - minVal) / scaling
    match toInt (round zero roundingRule) with
    | none => Except.error UtilsFailure.undefinedConversion
    | some quantizedZero =>
      let zeroLevel : Int := intOfUnsigned (quantizedZero - ((levels - 1 : Nat) : Int))
      if quantizedZero < 0 then Except.ok (0, maxVal)
      else if zeroLevel > 0 then Except.ok (minVal, 0)
      else if (quantizedZero : ℚ) ≤ zero then
        if quantizedZero > 0 then
          Except.ok (minVal, (zeroLevel : ℚ) * minVal / (quantizedZero : ℚ))
        else Except.ok (0, maxVal)
      else
        if zeroLevel < 0 then
          Except.ok ((quantizedZero : ℚ) * maxVal / (zeroLevel : ℚ), maxVal)
        else Except.ok (minVal, 0)

end Utils

/-! ## Utils: median -/

namespace Utils

end Utils

/-! ## DeepNetExport: the name of the output buffer of a cell -/

/-- A cell as `DeepNetExport` reads it: `getName()`. -/
structure Cell where
  getName : String
deriving DecidableEq

/-- The graph container `DeepNet` (defined outside the sources at hand) as
`DeepNetExport::getCellOutputName` reads it: the layers, each a vector of cell names, the
lookup of a cell (`none` when it yields no cell to read) and the parents of a cell, a
vector of shared pointers of which each may be null (`none`). -/
structure DeepNet where
  getLayers : List (List String)
  getCell : String → Option Cell
  getParentCells : String → List (Option Cell)

namespace DeepNetExport

/-- The local variables `tmp` (the content of the string stream) and `isHandle` of
`DeepNetExport::getCellOutputName`. -/
structure ScanState where
  tmp : String
  isHandle : Bool
deriving DecidableEq

/-- The innermost loop of `getCellOutputName`, over the parents of one scanned cell;
`parentName` is the local string that the source calls by the word for a leading part.
There is no result when a parent pointer is null. -/
def scanParents (cellName : String) : List (Option Cell) → ScanState → Option ScanState
  | [], st => some st
  | none :: _, _ => none
  | some parent :: rest, st =>
    let parentName := parent.getName
    scanParents cellName rest
      { tmp := st.tmp ++ (parentName ++ "_")
        isHandle := if parentName = cellName then false else st.isHandle }

/-- The loop of `getCellOutputName` over the cells of one layer. -/
def scanCells (deepNet : DeepNet) (cellName : String) :
    List String → ScanState → Option ScanState
  | [], st => some st
  | cell :: rest, st =>
    let parentCells := deepNet.getParentCells cell
    if st.isHandle then
      match scanParents cellName parentCells { st with tmp := "" } with
      | none => none
      | some st1 => scanCells deepNet cellName rest st1
    else scanCells deepNet cellName rest st

/-- The loop of `getCellOutputName` over the layers. -/
def scanLayers (deepNet : DeepNet) (cellName : String) :
    List (List String) → ScanState → Option ScanState
  | [], st => some st
  | layer :: rest, st =>
    match scanCells deepNet cellName layer st with
    | none => none
    | some st1 => scanLayers deepNet cellName rest st1

/-- The function `DeepNetExport::getCellOutputName(deepNet, layerNumber, cellNumber)`.
There is no result (`none`) when `at` throws, when the cell looked up cannot be read or
when a null parent pointer is read. -/
def getCellOutputName (deepNet : DeepNet) (layerNumber cellNumber : Nat) : Option String :=
  match deepNet.getLayers[layerNumber]? with
  | none => none
  | some inputLayer =>
    match inputLayer[cellNumber]? with
    | none => none
    | some key =>
      match deepNet.getCell key with
      | none => none
      | some inputCell =>
        let cellName := inputCell.getName
        match scanLayers deepNet cellName (deepNet.getLayers.drop (layerNumber + 1))
            { tmp := "", isHandle := true } with
        | none => none
        | some st => some st.tmp

/-- The names of the parents of a cell, in order. -/
def parentNames (deepNet : DeepNet) (cell : String) : List String :=
  (deepNet.getParentCells cell).filterMap fun p => p.map Cell.getName

/-- Whether the cell `cell` has a parent named `cellName`. -/
def hasParent (deepNet : DeepNet) (cellName cell : String) : Bool :=
  decide (cellName ∈ parentNames deepNet cell)

/-- The concatenation of `name + "_"` over a list of names. -/
def underscored : List String → String
  | [] => ""
  | name :: rest => (name ++ "_") ++ underscored rest

/-- The result of `getCellOutputName` as the specification states it, for the cell named
`cellName` and the cells `scanned` of the later layers, in order: the concatenation for
the first scanned cell that has a parent named `cellName`; without such a cell, the
concatenation for the last scanned cell; the empty string when no cell is scanned. -/
def expectedOutputName (deepNet : DeepNet) (cellName : String) (scanned : List String) :
    String :=
  match scanned.find? (hasParent deepNet cellName) with
  | some c => underscored (parentNames deepNet c)
  | none =>
    match scanned.getLast? with
    | some c => underscored (parentNames deepNet c)
    | none => ""

/-- A network of three layers: `a`; then `b` and `c`, both fed by `a`; then `d`, fed by
`b` and `c`. -/
def diamondNet : DeepNet where
  getLayers := [["a"], ["b", "c"], ["d"]]
  getCell := fun name => some ⟨name⟩
  getParentCells := fun name =>
    if name = "d" then [some ⟨"b"⟩, some ⟨"c"⟩]
    else if name = "b" ∨ name = "c" then [some ⟨"a"⟩]
    else []

/-- The result of the scan of the cells `scanned` started with the content `tmp`. -/
def scanOutcome (deepNet : DeepNet) (cellName : String) (scanned : List String)
    (st : ScanState) : ScanState :=
  if st.isHandle then
    match scanned.find? (hasParent deepNet cellName) with
    | some c => ⟨underscored (parentNames deepNet c), false⟩
    | none =>
      match scanned.getLast? with
      | some c => ⟨underscored (parentNames deepNet c), true⟩
      | none => st
  else st

/-- The scanned cells whose parents `getCellOutputName` reads: the cells up to and
including the first one that has a parent named `cellName`. -/
def readCells (deepNet : DeepNet) (cellName : String) : List String → List String
  | [] => []
  | c :: rest =>
    if hasParent deepNet cellName c then [c] else c :: readCells deepNet cellName rest

/-- None of the parent pointers of the cells `cells` is null. -/
def NoNullParent (deepNet : DeepNet) (cells : List String) : Prop :=
  ∀ c ∈ cells, ∀ p ∈ deepNet.getParentCells c, p ≠ none

/-- A network of three layers: the environment; then `a`, fed by the environment; then
`b`, fed by the environment and by `a`. The environment is no cell: the parent pointer
that stands for it is null. -/
def envNet : DeepNet where
  getLayers := [["env"], ["a"], ["b"]]
  getCell := fun name => if name = "env" then none else some ⟨name⟩
  getParentCells := fun name =>
    if name = "a" then [none]
    else if name = "b" then [none, some ⟨"a"⟩]
    else []

/-- The network `envNet` with the parents of `b` in the other order. -/
def lateNullNet : DeepNet where
  getLayers := [["env"], ["a"], ["b"], ["c"]]
  getCell := fun name => if name = "env" then none else some ⟨name⟩
  getParentCells := fun name =>
    if name = "a" then [none]
    else if name = "b" then [some ⟨"a"⟩]
    else if name = "c" then [none, some ⟨"b"⟩]
    else []

end DeepNetExport

namespace Utils

/-! ## Utils: quoted strings and vectors of strings on streams -/

/-- An input stream `std::istream` over a sequence of characters, as the standard
describes it: the characters not read yet, the state bits `eofbit` and `failbit`
(`badbit` is never set on a sequence in memory) and the format flag `skipws`. -/
structure CharStream where
  rest : List Char
  eofbit : Bool
  failbit : Bool
  skipws : Bool
deriving DecidableEq

namespace CharStream

/-- The member `good()`: no state bit is set. -/
def good (is : CharStream) : Bool := !is.eofbit && !is.failbit

/-- The member `peek()`: the next character without extracting it, or the end-of-file
value (`none`). On a stream that is not good it sets `failbit`; at the end of the
sequence it sets `eofbit`. -/
def peek (is : CharStream) : Option Char × CharStream :=
  if is.good then
    match is.rest with
    | [] => (none, { is with eofbit := true })
    | c :: _ => (some c, is)
  else (none, { is with failbit := true })

/-- The member `get()`: extracts the next character, or yields the end-of-file value
(`none`). On a stream that is not good it sets `failbit`; at the end of the sequence it
sets `eofbit` and `failbit`. -/
def get (is : CharStream) : Option Char × CharStream :=
  if is.good then
    match is.rest with
    | [] => (none, { is with eofbit := true, failbit := true })
    | c :: cs => (some c, { is with rest := cs })
  else (none, { is with failbit := true })

end CharStream

/-- The function `std::isspace` of the default locale on the value of `peek()` or
`get()`: space, tabulations, line feed, form feed and carriage return; the end-of-file
value is no space. -/
def isspace (c : Option Char) : Bool :=
  match c with
  | none => false
  | some ch =>
    ch == ' ' || ch == '\t' || ch == '\n' || ch == Char.ofNat 11 || ch == Char.ofNat 12
      || ch == '\r'

/-- The extraction `is >> str` of a `std::string`, as the standard describes it: on a
stream that is not good it sets `failbit`; with `skipws` it discards the leading
whitespace and, at the end of the sequence, sets `eofbit` and `failbit`; otherwise it
erases `str` and extracts characters up to the next whitespace or to the end of the
sequence, where it sets `eofbit`; it sets `failbit` when it extracted none. -/
def extractString (is : CharStream) (str : List Char) : List Char × CharStream :=
  if is.good then
    let afterSpaces := if is.skipws then is.rest.dropWhile (fun c => isspace (some c)) else is.rest
    if is.skipws && afterSpaces.isEmpty then
      (str, { is with rest := [], eofbit := true, failbit := true })
    else
      let word := afterSpaces.takeWhile (fun c => !isspace (some c))
      let remaining := afterSpaces.dropWhile (fun c => !isspace (some c))
      (word, { is with rest := remaining, eofbit := remaining.isEmpty, failbit := word.isEmpty })
  else (str, { is with failbit := true })

/-- The loop `while (std::isspace(is.peek())) is.get();` of the extraction of a quoted
string. -/
def discardWhitespace (is : CharStream) : CharStream :=
  if isspace is.peek.1 = true then discardWhitespace is.peek.2.get.2 else is.peek.2
termination_by is.rest.length
decreasing_by
  rename_i h
  obtain ⟨rest, e, f, s⟩ := is
  cases e <;> cases f <;> cases rest <;>
    simp_all [CharStream.peek, CharStream.get, CharStream.good, isspace]

/-- The character stored by `push_back(c)` for the value `c` of `get()`: the character
itself, or the character of code 255 for the end-of-file value. -/
def charOfInt (c : Option Char) : Char := c.getD (Char.ofNat 255)

/-- The loop `while (c != proxy.delim || escaped)` of the extraction of a quoted string,
entered with the value `c` of the last `get()`. -/
def readQuotedLoop (delim escape : Char) (c : Option Char) (escaped : Bool) (str : List Char)
    (is : CharStream) : Except UtilsFailure (List Char × CharStream) :=
  if c ≠ some delim ∨ escaped = true then
    let escaped1 := !escaped && (c == some escape)
    let str1 := if !escaped1 then str ++ [charOfInt c] else str
    if is.get.2.good = true then
      readQuotedLoop delim escape is.get.1 escaped1 str1 is.get.2
    else
      Except.error (UtilsFailure.runtime_error "Error reading quoted string")
  else Except.ok (str, is)
termination_by is.rest.length
decreasing_by
  rename_i h
  obtain ⟨rest, e, f, s⟩ := is
  cases e <;> cases f <;> cases rest <;> simp_all [CharStream.get, CharStream.good]

/-- The extraction `is >> Utils::quoted(str, delim, escape)`: the string read and the
stream on return, or the exception thrown. -/
def readQuoted (delim escape : Char) (is : CharStream) (str : List Char) :
    Except UtilsFailure (List Char × CharStream) :=
  let savedSkipws := is.skipws
  let is1 := if savedSkipws then discardWhitespace is else is
  if is1.peek.1 = some delim then
    let is2 := is1.peek.2.get.2
    let is3 := { is2 with skipws := false }
    match readQuotedLoop delim escape is3.get.1 false [] is3.get.2 with
    | Except.error e => Except.error e
    | Except.ok r => Except.ok (r.1, { r.2 with skipws := savedSkipws })
  else
    Except.ok (extractString is1.peek.2 str)

/-- The insertion `os << Utils::quoted(str, delim, escape)`, `os` being the characters
written so far. The quotes and the escape character written are the literals of the
source. -/
def writeQuoted (delim escape : Char) (os : List Char) (str : List Char) : List Char :=
  (str.foldl (fun os c => (if c = delim ∨ c = escape then os ++ ['\\'] else os) ++ [c])
    (os ++ ['"'])) ++ ['"']

/-- The insertion `os << vec` of a vector of strings. -/
def writeVector (os : List Char) (vec : List (List Char)) : List Char :=
  vec.foldl (fun os str => writeQuoted '"' '\\' os str ++ [' ']) os

/-- The loop `while (is >> std::skipws >> Utils::quoted(word)) vec.push_back(word);`,
its body running at most `fuel` times (`none` when the bound is reached). -/
def readVectorLoop : Nat → CharStream → List Char → List (List Char) →
    Option (Except UtilsFailure (List (List Char) × CharStream))
  | 0, _, _, _ => none
  | fuel + 1, is, word, vec =>
    match readQuoted '"' '\\' { is with skipws := true } word with
    | Except.error e => some (Except.error e)
    | Except.ok r =>
      if r.2.failbit then some (Except.ok (vec, r.2))
      else readVectorLoop fuel r.2 r.1 (vec ++ [r.1])

/-- The extraction `is >> vec` of a vector of strings, the body of its loop running at
most `fuel` times. -/
def readVector (fuel : Nat) (is : CharStream) :
    Option (Except UtilsFailure (List (List Char) × CharStream)) :=
  match readVectorLoop fuel is [] [] with
  | none => none
  | some (Except.error e) => some (Except.error e)
  | some (Except.ok r) =>
    if r.2.eofbit then some (Except.ok (r.1, { r.2 with eofbit := true, failbit := false }))
    else some (Except.ok r)

/-- A stream `std::istringstream` opened on a text. -/
def streamOn (text : List Char) : CharStream := ⟨text, false, false, true⟩

/-- The characters written by `os << Utils::quoted(str)` between the two quotes, with the
default delimiter and escape character: every double quote and every backslash of `str`
is preceded by a backslash. -/
def escapedText : List Char → List Char
  | [] => []
  | c :: cs => (if c = '"' ∨ c = '\\' then ['\\', c] else [c]) ++ escapedText cs

/-- The text written by `os << vec` for a vector of strings: every string quoted and
followed by a space. -/
def vectorText : List (List Char) → List Char
  | [] => []
  | str :: rest => '"' :: (escapedText str ++ '"' :: ' ' :: vectorText rest)

end Utils

/-! ## BatchNormCell_Frame_CUDA: the momentum as a `double` -/

/-- A value of the `double` parameter `MovingAverageMomentum`: a number or a NaN. (An
infinite value compares with `0.0` and `1.0` as a number beyond them does.) -/
inductive MomentumValue where
  | number (m : ℚ)
  | nan
deriving DecidableEq

namespace MomentumValue

/-- The value lies strictly between 0 and 1; a NaN does not. -/
def InOpenUnit : MomentumValue → Prop
  | number m => 0 < m ∧ m < 1
  | nan => False

end MomentumValue

namespace BatchNormCell_Frame_CUDA

/-- The test `mMovingAverageMomentum <= 0.0 || mMovingAverageMomentum >= 1.0` of
`initialize` on a `double`: both comparisons are false for a NaN. -/
def momentumOutOfRange : MomentumValue → Bool
  | MomentumValue.number m => decide (m ≤ 0 ∨ m ≥ 1)
  | MomentumValue.nan => false

/-- The method `BatchNormCell_Frame_CUDA<T>::initialize()` on a cell whose parameter
`MovingAverageMomentum` holds the `double` value `momentum`, a number or a NaN; `shown` is
the text written for it by `operator<<`. The statements are those of `initializeCell`,
which is this method for a momentum that is a number; the field `mMovingAverageMomentum`
of the state is not read. -/
def initializeCellWith (L : CuDNN) (shown : String) (s : BatchNormCell_Frame_CUDA)
    (momentum : MomentumValue) : Run CudnnCall BatchNormCell_Frame_CUDA :=
  if s.mInputs.length > 1 then ⟨[], some concatenationMessage, s⟩
  else
    let s1 := { s with mMode := CudnnBatchNormMode.CUDNN_BATCHNORM_SPATIAL, mNbPropagate := 0 }
    let s2 := if L.CUDNN_BN_MIN_EPSILON > 0 ∧ s1.mEpsilon < L.CUDNN_BN_MIN_EPSILON then
        { s1 with mEpsilon := L.CUDNN_BN_MIN_EPSILON } else s1
    match s2.mInputs[0]? with
    | none => ⟨[], some outOfRange, s2⟩
    | some input0 =>
      match L.deriveBNDims s2.mMode input0 with
      | none => ⟨[], some cudnnFailure, s2⟩
      | some dims =>
        let requiredDims := dims.reverse
        match checkShared s2.mName "scale" requiredDims 1 s2.mScale with
        | Except.error msg => ⟨[], some msg, s2⟩
        | Except.ok scale =>
          let s3 := { s2 with mScale := scale }
          match checkShared s3.mName "bias" requiredDims 0 s3.mBias with
          | Except.error msg => ⟨[], some msg, s3⟩
          | Except.ok bias =>
            let s4 := { s3 with mBias := bias }
            match checkShared s4.mName "mean" requiredDims 0 s4.mMean with
            | Except.error msg => ⟨[], some msg, s4⟩
            | Except.ok mean =>
              let s5 := { s4 with mMean := mean }
              match checkShared s5.mName "variance" requiredDims 0 s5.mVariance with
              | Except.error msg => ⟨[], some msg, s5⟩
              | Except.ok variance =>
                let s6 := { s5 with mVariance := variance }
                if momentumOutOfRange momentum then
                  ⟨[], some (wrongMomentumMessage s6.mName shown), s6⟩
                else
                  ⟨[], none,
                    { s6 with
                      mSavedMean := s6.mSavedMean.resize requiredDims 0
                      mSavedVariance := s6.mSavedVariance.resize requiredDims 0
                      mDiffScale := s6.mDiffScale.resize requiredDims 0
                      mDiffBias := s6.mDiffBias.resize requiredDims 0 }⟩

end BatchNormCell_Frame_CUDA

/-! ## Utils: zeroAlignedQuantizedRange in the arithmetic of `double` -/

namespace Utils

/-- The integer nearest to `x`, the even one of the two when `x` is half-way. -/
def roundHalfEven (x : ℚ) : ℤ :=
  if x - ⌊x⌋ < 1 / 2 then ⌊x⌋
  else if x - ⌊x⌋ > 1 / 2 then ⌊x⌋ + 1
  else if ⌊x⌋ % 2 = 0 then ⌊x⌋ else ⌊x⌋ + 1

/-- The `double` nearest to `x` (IEEE 754 binary64, rounding to nearest, ties to even):
the result of an arithmetic operation of `double` whose exact result is `x`. The
significand has 53 bits; the range of the exponent is taken as unbounded (neither
overflow nor underflow). -/
def binary64 (x : ℚ) : ℚ :=
  if x = 0 then 0
  else (roundHalfEven (x / 2 ^ (Int.log 2 |x| - 52)) : ℚ) * 2 ^ (Int.log 2 |x| - 52)

/-- The function `Utils::round(x, rule)` for `T = double`, the sum `x + T(0.5f)` and the
difference `x - T(0.5f)` being rounded by `fl`; `floor` and `ceil` are exact. -/
def roundWith (fl : ℚ → ℚ) (x : ℚ) (rule : Rounding) : ℚ :=
  match rule with
  | Rounding.HalfUp => ((⌊fl (x + 1 / 2)⌋ : ℤ) : ℚ)
  | Rounding.HalfDown => ((⌈fl (x - 1 / 2)⌉ : ℤ) : ℚ)
  | Rounding.HalfTowardsZero =>
    if x < 0 then ((⌊fl (x + 1 / 2)⌋ : ℤ) : ℚ) else ((⌈fl (x - 1 / 2)⌉ : ℤ) : ℚ)
  | Rounding.HalfAwayFromZero =>
    if x < 0 then ((⌈fl (x - 1 / 2)⌉ : ℤ) : ℚ) else ((⌊fl (x + 1 / 2)⌋ : ℤ) : ℚ)

/-- The function `Utils::zeroAlignedQuantizedRange(minVal, maxVal, levels, roundingRule)`
for `T = double`: every sum, difference, product and quotient of floating-point numbers
is rounded by `fl`. The conversions of `levels - 1`, `quantizedZero` and `zeroLevel` to
`double` are exact (32-bit integers). -/
def zeroAlignedQuantizedRangeWith (fl : ℚ → ℚ) (minVal maxVal : ℚ) (levels : Nat)
    (roundingRule : Rounding) : Except UtilsFailure (ℚ × ℚ) :=
  if maxVal ≤ minVal then
    Except.error (UtilsFailure.domain_error
      ("Utils::zeroAlignedQuantizedRange(): " ++ "maxVal must be > minVal."))
  else if levels < 2 then
    Except.error (UtilsFailure.domain_error
      ("Utils::zeroAlignedQuantizedRange(): " ++ "levels must be > 1."))
  else
    let scaling : ℚ := fl (fl (maxVal - minVal) / ((levels - 1 : Nat) : ℚ))
    let zero : ℚ := fl (fl (0 - minVal) / scaling)
    match toInt (roundWith fl zero roundingRule) with
    | none => Except.error UtilsFailure.undefinedConversion
    | some quantizedZero =>
      let zeroLevel : Int := intOfUnsigned (quantizedZero - ((levels - 1 : Nat) : Int))
      if quantizedZero < 0 then Except.ok (0, maxVal)
      else if zeroLevel > 0 then Except.ok (minVal, 0)
      else if (quantizedZero : ℚ) ≤ zero then
        if quantizedZero > 0 then
          Except.ok (minVal, fl (fl ((zeroLevel : ℚ) * minVal) / (quantizedZero : ℚ)))
        else Except.ok (0, maxVal)
      else
        if zeroLevel < 0 then
          Except.ok (fl (fl ((quantizedZero : ℚ) * maxVal) / (zeroLevel : ℚ)), maxVal)
        else Except.ok (minVal, 0)

end Utils

/-! ## Theorems: PoolCell_Frame -/

namespace PoolCell_Frame

/-- C4. For every `PoolCell_Frame` whose `DiffOutputs` collection is empty,
`backPropagate` returns normally without calling any kernel and leaves every field of
the cell unchanged. -/
theorem backPropagate_without_gradient (K : PoolCell_Frame_Kernels) (F : Cell_Frame)
    (c : PoolCell_Frame) (hempty : c.mDiffOutputs = []) :
    (backPropagate K F c).calls = [] ∧ (backPropagate K F c).error = none ∧
      (backPropagate K F c).state = c := by
  simp [backPropagate, hempty]

/-- C4, concrete run: the first-layer cell has no upstream gradient slot and is left
untouched. -/
theorem backPropagate_without_gradient_witness :
    firstLayerCell.mDiffOutputs = [] ∧
      (backPropagate idleKernels noActivation firstLayerCell).calls = [] ∧
      (backPropagate idleKernels noActivation firstLayerCell).error = none ∧
      (backPropagate idleKernels noActivation firstLayerCell).state = firstLayerCell :=
  ⟨rfl, backPropagate_without_gradient idleKernels noActivation firstLayerCell rfl⟩

theorem pool_propagate_clearValid (K : PoolCell_Frame_Kernels) (F : Cell_Frame)
    (c : PoolCell_Frame) (inference : Bool) (hok : (propagate K F c inference).ok) :
    (propagate K F c inference).state.mDiffInputs.isValid = false := by
  unfold Run.ok at hok
  unfold propagate at hok ⊢
  cases h : (propagateLoop K 1 c.mInputs 0 0 0 c).error with
  | some e => simp [h] at hok
  | none => simp [h, Tensor.isValid, Tensor.clearValid]

end PoolCell_Frame

/-! ## Theorems: BatchNormCell_Frame_CUDA -/

theorem mentions_mid (a b c : String) : mentions (a ++ b ++ c) b :=
  ⟨a.data, c.data, by simp [String.data_append]⟩

theorem mentions_last (a b : String) : mentions (a ++ b) b :=
  ⟨a.data, [], by simp [String.data_append]⟩

theorem mentions_append (msg part t : String) (h : mentions msg part) :
    mentions (msg ++ t) part := by
  obtain ⟨u, v, huv⟩ := h
  exact ⟨u, v ++ t.data, by simp [String.data_append, ← huv]⟩

namespace BatchNormCell_Frame_CUDA

theorem wrongSizeMessage_mentions (mName what : String) (requiredDims actualDims : List Nat) :
    mentions (wrongSizeMessage mName what requiredDims actualDims) mName ∧
    mentions (wrongSizeMessage mName what requiredDims actualDims) (showVector requiredDims) ∧
    mentions (wrongSizeMessage mName what requiredDims actualDims) (showVector actualDims) := by
  unfold wrongSizeMessage
  refine ⟨?_, ?_, ?_⟩ <;>
    repeat (first | exact mentions_mid _ _ _ | apply mentions_append)

theorem wrongMomentumMessage_mentions (mName shown : String) :
    mentions (wrongMomentumMessage mName shown) mName := by
  unfold wrongMomentumMessage
  repeat (first | exact mentions_mid _ _ _ | apply mentions_append)

theorem checkShared_acceptable (mName what : String) (requiredDims : List Nat) (value : ℚ)
    (t : Tensor ℚ) (h : Acceptable requiredDims t) :
    checkShared mName what requiredDims value t =
      Except.ok (if t.empty then t.resize requiredDims value else t) := by
  unfold checkShared
  by_cases he : t.empty = true
  · simp [he]
  · rcases h with h | h
    · exact absurd h he
    · simp [he, h]

theorem checkShared_mismatch (mName what : String) (requiredDims : List Nat) (value : ℚ)
    (t : Tensor ℚ) (h : Mismatch requiredDims t) :
    checkShared mName what requiredDims value t =
      Except.error (wrongSizeMessage mName what requiredDims t.dims) := by
  unfold checkShared
  simp [h.1, h.2]

theorem acceptable_or_mismatch (requiredDims : List Nat) (t : Tensor ℚ) :
    Acceptable requiredDims t ∨ Mismatch requiredDims t := by
  unfold Acceptable Mismatch
  by_cases he : t.empty = true
  · exact Or.inl (Or.inl he)
  · by_cases hd : t.dims = requiredDims
    · exact Or.inl (Or.inr hd)
    · exact Or.inr ⟨by simpa using he, hd⟩

theorem not_mismatch_of_acceptable (requiredDims : List Nat) (t : Tensor ℚ)
    (h : Acceptable requiredDims t) : ¬ Mismatch requiredDims t := by
  rintro ⟨h1, h2⟩
  rcases h with h | h
  · rw [h1] at h; exact Bool.false_ne_true h
  · exact h2 h

/-- The run of `initialize` on a cell with the single input `input0`, written with the
four checks of the parameter tensors. -/
theorem initializeCell_single (L : CuDNN) (fmt : ℚ → String) (s : BatchNormCell_Frame_CUDA)
    (input0 : Tensor ℚ) (dims : List Nat) (hin : s.mInputs = [input0])
    (hd : L.deriveBNDims CudnnBatchNormMode.CUDNN_BATCHNORM_SPATIAL input0 = some dims) :
    (initializeCell L fmt s).error =
      (match checkShared s.mName "scale" dims.reverse 1 s.mScale with
        | Except.error msg => some msg
        | Except.ok _ =>
          match checkShared s.mName "bias" dims.reverse 0 s.mBias with
          | Except.error msg => some msg
          | Except.ok _ =>
            match checkShared s.mName "mean" dims.reverse 0 s.mMean with
            | Except.error msg => some msg
            | Except.ok _ =>
              match checkShared s.mName "variance" dims.reverse 0 s.mVariance with
              | Except.error msg => some msg
              | Except.ok _ =>
                if s.mMovingAverageMomentum ≤ 0 ∨ s.mMovingAverageMomentum ≥ 1 then
                  some (wrongMomentumMessage s.mName (fmt s.mMovingAverageMomentum))
                else none) ∧
    ∀ scale bias mean variance,
      checkShared s.mName "scale" dims.reverse 1 s.mScale = Except.ok scale →
      checkShared s.mName "bias" dims.reverse 0 s.mBias = Except.ok bias →
      checkShared s.mName "mean" dims.reverse 0 s.mMean = Except.ok mean →
      checkShared s.mName "variance" dims.reverse 0 s.mVariance = Except.ok variance →
      ¬ (s.mMovingAverageMomentum ≤ 0 ∨ s.mMovingAverageMomentum ≥ 1) →
      (initializeCell L fmt s).state = initializedState L s dims.reverse scale bias mean variance := by
  unfold initializeCell
  by_cases heps : L.CUDNN_BN_MIN_EPSILON > 0 ∧ s.mEpsilon < L.CUDNN_BN_MIN_EPSILON
  all_goals
    simp only [hin, List.length_singleton, gt_iff_lt, Nat.lt_irrefl, if_false, heps, if_true,
      and_self, List.getElem?_cons_zero, hd]
    constructor
    · cases checkShared s.mName "scale" dims.reverse 1 s.mScale <;>
      cases checkShared s.mName "bias" dims.reverse 0 s.mBias <;>
      cases checkShared s.mName "mean" dims.reverse 0 s.mMean <;>
      cases checkShared s.mName "variance" dims.reverse 0 s.mVariance <;>
      simp only []
      split <;> rfl
    · intro scale bias mean variance h1 h2 h3 h4 hm
      simp [h1, h2, h3, h4, hm, initializedState, heps, hin]

theorem backPropagate_empty_slots (L : CuDNN) (F : Cell_Frame) (s : BatchNormCell_Frame_CUDA)
    (hempty : s.mDiffOutputs = []) :
    (backPropagate L F s).calls = [] ∧
      ((backPropagate L F s).error = some outOfRange ∨
        (backPropagate L F s).error = some assertionFailed) := by
  unfold backPropagate
  by_cases h : s.mScaleSolver.isNewIteration = s.mBiasSolver.isNewIteration
  · simp [h, hempty]
  · simp [h]

/-- C3, evaluation at the failing input: on the initialised first-layer cell, whose
`DiffOutputs` collection is empty, `backPropagate` does not short-circuit: it runs the
base-class step and then indexes slot 0 of the empty collection, which raises
`out_of_range`, before any cuDNN routine is called. -/
theorem backPropagate_without_gradient_throws :
    firstLayerBatchNorm.mDiffOutputs = [] ∧
      (backPropagate referenceCuDNN noActivation firstLayerBatchNorm).error = some outOfRange ∧
      (backPropagate referenceCuDNN noActivation firstLayerBatchNorm).calls = [] := by
  have h := backPropagate_empty_slots referenceCuDNN noActivation firstLayerBatchNorm rfl
  refine ⟨rfl, ?_, h.1⟩
  simp [backPropagate, firstLayerBatchNorm, readyCell, freshCell]

/-- C7. `initialize` fails whenever the cell has more than one input group, and the
failure leaves every field of the cell as it was (no cuDNN routine is called either). -/
theorem initialize_rejects_concatenation (L : CuDNN) (fmt : ℚ → String)
    (s : BatchNormCell_Frame_CUDA) (hmany : 1 < s.mInputs.length) :
    (initializeCell L fmt s).error = some concatenationMessage ∧
      (initializeCell L fmt s).state = s ∧ (initializeCell L fmt s).calls = [] := by
  simp [initializeCell, hmany]

/-- C7, concrete run: a cell with two input groups is rejected unchanged. -/
theorem initialize_rejects_concatenation_witness :
    1 < twoInputCell.mInputs.length ∧
      (initializeCell referenceCuDNN showRatio twoInputCell).error = some concatenationMessage ∧
      (initializeCell referenceCuDNN showRatio twoInputCell).state = twoInputCell ∧
      (initializeCell referenceCuDNN showRatio twoInputCell).calls = [] :=
  ⟨by simp [twoInputCell],
    initialize_rejects_concatenation referenceCuDNN showRatio twoInputCell
      (by simp [twoInputCell])⟩

/-- For a momentum `m` that is a number (not a NaN): on a cell with exactly one input
group whose four parameter tensors are each either empty or of the required dims,
`initialize` returns normally if and only if `0 < m < 1`; for every other number `m` it
fails with an error whose message contains the name of the cell. -/
theorem initialize_ok_iff_momentum (L : CuDNN) (fmt : ℚ → String)
    (s : BatchNormCell_Frame_CUDA) (input0 : Tensor ℚ) (dims : List Nat)
    (hin : s.mInputs = [input0])
    (hd : L.deriveBNDims CudnnBatchNormMode.CUDNN_BATCHNORM_SPATIAL input0 = some dims)
    (hscale : Acceptable dims.reverse s.mScale) (hbias : Acceptable dims.reverse s.mBias)
    (hmean : Acceptable dims.reverse s.mMean) (hvar : Acceptable dims.reverse s.mVariance) :
    ((initializeCell L fmt s).ok ↔
      0 < s.mMovingAverageMomentum ∧ s.mMovingAverageMomentum < 1) ∧
    (¬ (0 < s.mMovingAverageMomentum ∧ s.mMovingAverageMomentum < 1) →
      ∃ msg, (initializeCell L fmt s).error = some msg ∧ mentions msg s.mName) := by
  obtain ⟨herr, -⟩ := initializeCell_single L fmt s input0 dims hin hd
  rw [checkShared_acceptable _ _ _ _ _ hscale, checkShared_acceptable _ _ _ _ _ hbias,
    checkShared_acceptable _ _ _ _ _ hmean, checkShared_acceptable _ _ _ _ _ hvar] at herr
  simp only [] at herr
  unfold Run.ok
  rw [herr]
  by_cases hm : s.mMovingAverageMomentum ≤ 0 ∨ s.mMovingAverageMomentum ≥ 1
  · have hn : ¬ (0 < s.mMovingAverageMomentum ∧ s.mMovingAverageMomentum < 1) := by
      rintro ⟨h1, h2⟩
      rcases hm with h | h
      · exact absurd h1 (not_lt.mpr h)
      · exact absurd h2 (not_lt.mpr h)
    simp only [hm, if_true]
    refine ⟨⟨fun h => by simp at h, fun h => absurd h hn⟩, fun _ => ?_⟩
    exact ⟨_, rfl, wrongMomentumMessage_mentions _ _⟩
  · have hy : 0 < s.mMovingAverageMomentum ∧ s.mMovingAverageMomentum < 1 := by
      constructor
      · exact not_le.mp (fun h => hm (Or.inl h))
      · exact not_le.mp (fun h => hm (Or.inr h))
    simp only [hm, if_false]
    exact ⟨⟨fun _ => hy, fun _ => trivial⟩, fun h => absurd hy h⟩

/-- Concrete run: the fresh cell (one input, no parameter tensor yet, momentum `0.9`)
satisfies the hypotheses of `initialize_ok_iff_momentum`. -/
theorem initialize_ok_iff_momentum_witness :
    freshCell.mInputs = [constTensor [2, 1, 1, 2] 2] ∧
    referenceCuDNN.deriveBNDims CudnnBatchNormMode.CUDNN_BATCHNORM_SPATIAL
      (constTensor [2, 1, 1, 2] 2) = some [1, 1, 1, 1] ∧
    Acceptable [1, 1, 1, 1].reverse freshCell.mScale ∧
    (((initializeCell referenceCuDNN showRatio freshCell).ok ↔
      0 < freshCell.mMovingAverageMomentum ∧ freshCell.mMovingAverageMomentum < 1) ∧
    (¬ (0 < freshCell.mMovingAverageMomentum ∧ freshCell.mMovingAverageMomentum < 1) →
      ∃ msg, (initializeCell referenceCuDNN showRatio freshCell).error = some msg ∧
        mentions msg freshCell.mName)) :=
  ⟨rfl, rfl, Or.inl rfl,
    initialize_ok_iff_momentum referenceCuDNN showRatio freshCell (constTensor [2, 1, 1, 2] 2)
      [1, 1, 1, 1] rfl rfl (Or.inl rfl) (Or.inl rfl) (Or.inl rfl) (Or.inl rfl)⟩

/-- C9 (amended). For a single-input cell and for each of the four parameter tensors
(scale, bias, running mean, running variance): if that tensor is non-empty on entry to
`initialize` and its dims differ from the required dims, `initialize` fails with an
error whose message contains the cell name, the required dims and the actual dims of
the first tensor, in the order scale, bias, mean, variance, that is non-empty with
differing dims. -/
theorem initialize_reports_first_mismatch (L : CuDNN) (fmt : ℚ → String)
    (s : BatchNormCell_Frame_CUDA) (input0 : Tensor ℚ) (dims : List Nat)
    (hin : s.mInputs = [input0])
    (hd : L.deriveBNDims CudnnBatchNormMode.CUDNN_BATCHNORM_SPATIAL input0 = some dims) :
    ReportsFirstMismatch s dims.reverse (initializeCell L fmt s) := by
  intro t ht hmis
  obtain ⟨herr, -⟩ := initializeCell_single L fmt s input0 dims hin hd
  rcases acceptable_or_mismatch dims.reverse s.mScale with a1 | m1
  · rcases acceptable_or_mismatch dims.reverse s.mBias with a2 | m2
    · rcases acceptable_or_mismatch dims.reverse s.mMean with a3 | m3
      · rcases acceptable_or_mismatch dims.reverse s.mVariance with a4 | m4
        · exfalso
          simp only [sharedTensors, List.mem_cons, List.mem_singleton, List.not_mem_nil,
            or_false] at ht
          rcases ht with rfl | rfl | rfl | rfl
          · exact not_mismatch_of_acceptable _ _ a1 hmis
          · exact not_mismatch_of_acceptable _ _ a2 hmis
          · exact not_mismatch_of_acceptable _ _ a3 hmis
          · exact not_mismatch_of_acceptable _ _ a4 hmis
        · rw [checkShared_acceptable _ _ _ _ _ a1, checkShared_acceptable _ _ _ _ _ a2,
            checkShared_acceptable _ _ _ _ _ a3, checkShared_mismatch _ _ _ _ _ m4] at herr
          refine ⟨_, s.mVariance, ?_, herr, wrongSizeMessage_mentions _ _ _ _⟩
          simp [sharedTensors, List.find?, not_mismatch_of_acceptable _ _ a1,
            not_mismatch_of_acceptable _ _ a2, not_mismatch_of_acceptable _ _ a3, m4]
      · rw [checkShared_acceptable _ _ _ _ _ a1, checkShared_acceptable _ _ _ _ _ a2,
          checkShared_mismatch _ _ _ _ _ m3] at herr
        refine ⟨_, s.mMean, ?_, herr, wrongSizeMessage_mentions _ _ _ _⟩
        simp [sharedTensors, List.find?, not_mismatch_of_acceptable _ _ a1,
          not_mismatch_of_acceptable _ _ a2, m3]
    · rw [checkShared_acceptable _ _ _ _ _ a1, checkShared_mismatch _ _ _ _ _ m2] at herr
      refine ⟨_, s.mBias, ?_, herr, wrongSizeMessage_mentions _ _ _ _⟩
      simp [sharedTensors, List.find?, not_mismatch_of_acceptable _ _ a1, m2]
  · rw [checkShared_mismatch _ _ _ _ _ m1] at herr
    refine ⟨_, s.mScale, ?_, herr, wrongSizeMessage_mentions _ _ _ _⟩
    simp [sharedTensors, List.find?, m1]

/-- C9, concrete run: on the cell with a scale of dims `2` and a running mean of dims
`3` the report is about the scale, the first tensor with wrong dims. -/
theorem initialize_reports_first_mismatch_witness :
    misloadedCell.mInputs = [constTensor [2, 1, 1, 2] 2] ∧
    referenceCuDNN.deriveBNDims CudnnBatchNormMode.CUDNN_BATCHNORM_SPATIAL
      (constTensor [2, 1, 1, 2] 2) = some [1, 1, 1, 1] ∧
    ReportsFirstMismatch misloadedCell [1, 1, 1, 1].reverse
      (initializeCell referenceCuDNN showRatio misloadedCell) :=
  ⟨rfl, rfl,
    initialize_reports_first_mismatch referenceCuDNN showRatio misloadedCell
      (constTensor [2, 1, 1, 2] 2) [1, 1, 1, 1] rfl rfl⟩

set_option maxRecDepth 100000 in
/-- C9, counterexample to the statement as worded: on the cell with a scale of dims `2`
and a running mean of dims `3` (required: `1 1 1 1`), `initialize` fails at the scale;
the running mean is present with wrong dims too, but its dims do not occur in the
message. -/
theorem initialize_does_not_report_own_dims :
    ¬ ReportsOwnDims misloadedCell [1, 1, 1, 1]
      (initializeCell referenceCuDNN showRatio misloadedCell) := by
  intro h
  obtain ⟨msg, hmsg, -, -, hdims⟩ := h misloadedCell.mMean
    (by simp [sharedTensors]) (by decide)
  obtain ⟨herr, -⟩ := initializeCell_single referenceCuDNN showRatio misloadedCell
    (constTensor [2, 1, 1, 2] 2) [1, 1, 1, 1] rfl rfl
  rw [checkShared_mismatch _ _ _ _ _ (by decide)] at herr
  rw [herr] at hmsg
  have hm : msg = wrongSizeMessage "bn" "scale" [1, 1, 1, 1] [2] := (Option.some.inj hmsg).symm
  rw [hm] at hdims
  revert hdims
  decide

theorem batchNorm_propagate_clearValid (L : CuDNN) (F : Cell_Frame) (s : BatchNormCell_Frame_CUDA)
    (inference : Bool) (hok : (propagate L F s inference).ok) :
    (propagate L F s inference).state.mDiffInputs.isValid = false := by
  unfold Run.ok at hok
  unfold propagate at hok ⊢
  cases h0 : s.mInputs[0]? with
  | none => simp [h0] at hok
  | some input0 =>
    simp only [h0] at hok ⊢
    cases inference with
    | true =>
      simp only [if_true] at hok ⊢
      split at hok
      · simp at hok
      · rename_i outputs hout
        simp [hout, finishPropagate, Tensor.isValid, Tensor.clearValid]
    | false =>
      simp only [Bool.false_eq_true, if_false] at hok ⊢
      split at hok
      · simp at hok
      · rename_i res hres
        simp only [hres, finishPropagate, Tensor.isValid, Tensor.clearValid]

theorem referenceCuDNN_contract : ExponentialAverageContract referenceCuDNN := by
  intro mode alpha beta input outputs scale bias factor mean variance epsilon savedMean
    savedVariance res h
  simp only [referenceCuDNN, Option.some.injEq] at h
  subst h
  exact ⟨rfl, rfl⟩

theorem weightedAverage_self (w : ℚ) (l : List ℚ) : weightedAverage (1 - w) w l l = l := by
  unfold weightedAverage
  induction l with
  | nil => rfl
  | cons a l ih => simp only [List.zipWith_cons_cons, ih]; congr 1; ring

/-- C6 (amended). For a cell with moving-average momentum `m`, one training-mode
`propagate` hands `m` to the library as the exponential average factor, so that each
running statistic becomes `(1 - m) * (previous running value) + m * (batch statistic)`;
when the batch statistics equal the running statistics, the running statistics are
unchanged. -/
theorem propagate_running_statistics (L : CuDNN) (F : Cell_Frame)
    (s : BatchNormCell_Frame_CUDA) (input0 : Tensor ℚ) (hL : ExponentialAverageContract L)
    (hin : s.mInputs[0]? = some input0) (hok : (propagate L F s false).ok) :
    (propagate L F s false).calls =
      [CudnnCall.forwardTraining 1 0 s.mMovingAverageMomentum] ∧
    RunningStatisticsAs (1 - s.mMovingAverageMomentum) s.mMovingAverageMomentum L s input0
      (propagate L F s false) ∧
    (L.batchMean s.mMode input0 = s.mMean.data →
      (propagate L F s false).state.mMean.data = s.mMean.data) ∧
    (L.batchVariance s.mMode input0 = s.mVariance.data →
      (propagate L F s false).state.mVariance.data = s.mVariance.data) := by
  unfold Run.ok at hok
  unfold RunningStatisticsAs
  unfold propagate at hok ⊢
  simp only [hin, Bool.false_eq_true, if_false] at hok ⊢
  split at hok
  · simp at hok
  · rename_i res hres
    obtain ⟨h1, h2⟩ := hL _ _ _ _ _ _ _ _ _ _ _ _ _ _ hres
    simp only [hres, finishPropagate]
    refine ⟨trivial, ⟨h1, h2⟩, ?_, ?_⟩
    · intro hb; rw [h1, hb]; exact weightedAverage_self _ _
    · intro hb; rw [h2, hb]; exact weightedAverage_self _ _

/-- C6, concrete run: the initialised cell (momentum `0.9`, running mean 0) on an input
whose batch mean is 2, with the reference library. -/
theorem propagate_running_statistics_witness :
    ExponentialAverageContract referenceCuDNN ∧
    readyCell.mInputs[0]? = some (constTensor [2, 1, 1, 2] 2) ∧
    (propagate referenceCuDNN noActivation readyCell false).ok ∧
    RunningStatisticsAs (1 - readyCell.mMovingAverageMomentum) readyCell.mMovingAverageMomentum
      referenceCuDNN readyCell (constTensor [2, 1, 1, 2] 2)
      (propagate referenceCuDNN noActivation readyCell false) :=
  ⟨referenceCuDNN_contract, rfl, rfl,
    (propagate_running_statistics referenceCuDNN noActivation readyCell
      (constTensor [2, 1, 1, 2] 2) referenceCuDNN_contract rfl rfl).2.1⟩

/-- C6, counterexample to the statement as worded: with momentum `0.9`, running mean 0
and batch mean 2, one training pass makes the running mean `1.8`, not
`0.9 * 0 + 0.1 * 2 = 0.2`. -/
theorem propagate_running_mean_not_momentum_weighted :
    readyCell.mMovingAverageMomentum = 9 / 10 ∧ readyCell.mMean.data = [0] ∧
    referenceCuDNN.batchMean readyCell.mMode (constTensor [2, 1, 1, 2] 2) = [2] ∧
    (propagate referenceCuDNN noActivation readyCell false).state.mMean.data = [9 / 5] ∧
    ¬ RunningStatisticsAs readyCell.mMovingAverageMomentum (1 - readyCell.mMovingAverageMomentum)
      referenceCuDNN readyCell (constTensor [2, 1, 1, 2] 2)
      (propagate referenceCuDNN noActivation readyCell false) := by
  have hb : referenceCuDNN.batchMean readyCell.mMode (constTensor [2, 1, 1, 2] 2) = [2] := by
    simp [referenceCuDNN, channelMeans, channelValues, average, constTensor, Tensor.dimZ,
      Tensor.computeSize, List.range_succ, List.replicate, List.enum, List.enumFrom,
      List.filter]
    norm_num
  have hr : (propagate referenceCuDNN noActivation readyCell false).state.mMean.data
      = [9 / 5] := by
    have h1 : (propagate referenceCuDNN noActivation readyCell false).state.mMean.data =
        weightedAverage (1 - readyCell.mMovingAverageMomentum) readyCell.mMovingAverageMomentum
          readyCell.mMean.data
          (referenceCuDNN.batchMean readyCell.mMode (constTensor [2, 1, 1, 2] 2)) := rfl
    rw [h1, hb]
    simp [weightedAverage, readyCell, freshCell, constTensor, Tensor.computeSize, List.replicate]
    norm_num
  refine ⟨rfl, rfl, hb, hr, ?_⟩
  rintro ⟨h, -⟩
  rw [hr, hb] at h
  simp [weightedAverage, readyCell, freshCell, constTensor, Tensor.computeSize,
    List.replicate] at h
  norm_num at h

theorem resize_of_empty (t : Tensor ℚ) (dims : List Nat) (value : ℚ)
    (he : t.empty = true) :
    t.resize dims value = ⟨dims, List.replicate (Tensor.computeSize dims) value, t.valid⟩ := by
  have hdata : t.data = [] := List.isEmpty_iff.mp he
  simp [Tensor.resize, hdata]

theorem checkShared_result (requiredDims : List Nat) (value : ℚ) (t : Tensor ℚ) :
    (if t.empty then t.resize requiredDims value else t) = keptOrCreated requiredDims value t := by
  unfold keptOrCreated
  by_cases he : t.empty = true
  · simp only [he, if_true]; exact resize_of_empty t requiredDims value he
  · simp [he]

theorem keptOrCreated_acceptable (requiredDims : List Nat) (value : ℚ) (t : Tensor ℚ)
    (h : Acceptable requiredDims t) : Acceptable requiredDims (keptOrCreated requiredDims value t) := by
  unfold keptOrCreated
  by_cases he : t.empty = true
  · simp only [he, if_true]; exact Or.inr rfl
  · simp only [he]; exact h

theorem keptOrCreated_idem (requiredDims : List Nat) (value : ℚ) (t : Tensor ℚ) :
    keptOrCreated requiredDims value (keptOrCreated requiredDims value t)
      = keptOrCreated requiredDims value t := by
  by_cases he : t.empty = true
  · have h1 : keptOrCreated requiredDims value t =
        ⟨requiredDims, List.replicate (Tensor.computeSize requiredDims) value, t.valid⟩ := by
      simp [keptOrCreated, he]
    rw [h1]
    unfold keptOrCreated
    split <;> rfl
  · have h1 : keptOrCreated requiredDims value t = t := by simp [keptOrCreated, he]
    rw [h1, h1]

/-- C10. For a single-input cell on which `initialize` returns normally: every parameter
tensor (scale, bias, running mean, running variance) that was non-empty on entry has the
required dims and is exactly as it was, and one that was empty has the required dims and
is filled with 1 (scale) or 0 (bias, mean, variance); calling `initialize` a second time
returns normally again and changes none of the four parameter tensors. -/
theorem initialize_keeps_parameters (L : CuDNN) (fmt : ℚ → String)
    (s : BatchNormCell_Frame_CUDA) (input0 : Tensor ℚ) (dims : List Nat)
    (hin : s.mInputs = [input0])
    (hd : L.deriveBNDims CudnnBatchNormMode.CUDNN_BATCHNORM_SPATIAL input0 = some dims)
    (hok : (initializeCell L fmt s).ok) :
    (∀ t ∈ sharedTensors s, t.empty = false → t.dims = dims.reverse) ∧
    (initializeCell L fmt s).state.mScale = keptOrCreated dims.reverse 1 s.mScale ∧
    (initializeCell L fmt s).state.mBias = keptOrCreated dims.reverse 0 s.mBias ∧
    (initializeCell L fmt s).state.mMean = keptOrCreated dims.reverse 0 s.mMean ∧
    (initializeCell L fmt s).state.mVariance = keptOrCreated dims.reverse 0 s.mVariance ∧
    (initializeCell L fmt (initializeCell L fmt s).state).ok ∧
    sharedTensors (initializeCell L fmt (initializeCell L fmt s).state).state
      = sharedTensors (initializeCell L fmt s).state := by
  obtain ⟨herr, hstate⟩ := initializeCell_single L fmt s input0 dims hin hd
  unfold Run.ok at hok
  rw [hok] at herr
  have a1 : Acceptable dims.reverse s.mScale := by
    rcases acceptable_or_mismatch dims.reverse s.mScale with a | m
    · exact a
    · rw [checkShared_mismatch _ _ _ _ _ m] at herr; simp at herr
  rw [checkShared_acceptable _ _ _ _ _ a1] at herr
  have a2 : Acceptable dims.reverse s.mBias := by
    rcases acceptable_or_mismatch dims.reverse s.mBias with a | m
    · exact a
    · rw [checkShared_mismatch _ _ _ _ _ m] at herr; simp at herr
  rw [checkShared_acceptable _ _ _ _ _ a2] at herr
  have a3 : Acceptable dims.reverse s.mMean := by
    rcases acceptable_or_mismatch dims.reverse s.mMean with a | m
    · exact a
    · rw [checkShared_mismatch _ _ _ _ _ m] at herr; simp at herr
  rw [checkShared_acceptable _ _ _ _ _ a3] at herr
  have a4 : Acceptable dims.reverse s.mVariance := by
    rcases acceptable_or_mismatch dims.reverse s.mVariance with a | m
    · exact a
    · rw [checkShared_mismatch _ _ _ _ _ m] at herr; simp at herr
  rw [checkShared_acceptable _ _ _ _ _ a4] at herr
  have hm : ¬ (s.mMovingAverageMomentum ≤ 0 ∨ s.mMovingAverageMomentum ≥ 1) := by
    intro h; simp [h] at herr
  have hst := hstate _ _ _ _ (checkShared_acceptable _ _ _ _ _ a1)
    (checkShared_acceptable _ _ _ _ _ a2) (checkShared_acceptable _ _ _ _ _ a3)
    (checkShared_acceptable _ _ _ _ _ a4) hm
  simp only [checkShared_result] at hst
  -- the second call, on the state left by the first one
  have hin2 : (initializeCell L fmt s).state.mInputs = [input0] := by
    rw [hst]; exact hin
  obtain ⟨herr2, hstate2⟩ :=
    initializeCell_single L fmt (initializeCell L fmt s).state input0 dims hin2 hd
  have b1 : Acceptable dims.reverse (initializeCell L fmt s).state.mScale := by
    rw [hst]; exact keptOrCreated_acceptable _ _ _ a1
  have b2 : Acceptable dims.reverse (initializeCell L fmt s).state.mBias := by
    rw [hst]; exact keptOrCreated_acceptable _ _ _ a2
  have b3 : Acceptable dims.reverse (initializeCell L fmt s).state.mMean := by
    rw [hst]; exact keptOrCreated_acceptable _ _ _ a3
  have b4 : Acceptable dims.reverse (initializeCell L fmt s).state.mVariance := by
    rw [hst]; exact keptOrCreated_acceptable _ _ _ a4
  have hm2 : ¬ ((initializeCell L fmt s).state.mMovingAverageMomentum ≤ 0 ∨
      (initializeCell L fmt s).state.mMovingAverageMomentum ≥ 1) := by
    rw [hst]; exact hm
  have hst2 := hstate2 _ _ _ _ (checkShared_acceptable _ _ _ _ _ b1)
    (checkShared_acceptable _ _ _ _ _ b2) (checkShared_acceptable _ _ _ _ _ b3)
    (checkShared_acceptable _ _ _ _ _ b4) hm2
  rw [checkShared_acceptable _ _ _ _ _ b1, checkShared_acceptable _ _ _ _ _ b2,
    checkShared_acceptable _ _ _ _ _ b3, checkShared_acceptable _ _ _ _ _ b4] at herr2
  simp only [hm2, if_false] at herr2
  simp only [checkShared_result] at hst2
  refine ⟨?_, by rw [hst]; rfl, by rw [hst]; rfl, by rw [hst]; rfl, by rw [hst]; rfl, herr2, ?_⟩
  · intro t ht hne
    simp only [sharedTensors, List.mem_cons, List.mem_singleton, List.not_mem_nil,
      or_false] at ht
    have key : ∀ u : Tensor ℚ, Acceptable dims.reverse u → u.empty = false →
        u.dims = dims.reverse := by
      intro u hu he
      rcases hu with h | h
      · rw [he] at h; exact absurd h Bool.false_ne_true
      · exact h
    rcases ht with rfl | rfl | rfl | rfl
    · exact key _ a1 hne
    · exact key _ a2 hne
    · exact key _ a3 hne
    · exact key _ a4 hne
  · rw [hst2]
    simp only [sharedTensors, initializedState]
    rw [hst]
    simp only [initializedState, keptOrCreated_idem]

theorem loadedCell_initialize_ok : (initializeCell referenceCuDNN showRatio loadedCell).ok := by
  obtain ⟨herr, -⟩ := initializeCell_single referenceCuDNN showRatio loadedCell
    (constTensor [2, 1, 1, 2] 2) [1, 1, 1, 1] rfl rfl
  have a1 : Acceptable [1, 1, 1, 1].reverse loadedCell.mScale := Or.inr rfl
  have a2 : Acceptable [1, 1, 1, 1].reverse loadedCell.mBias := Or.inl rfl
  have a3 : Acceptable [1, 1, 1, 1].reverse loadedCell.mMean := Or.inr rfl
  have a4 : Acceptable [1, 1, 1, 1].reverse loadedCell.mVariance := Or.inl rfl
  rw [checkShared_acceptable _ _ _ _ _ a1, checkShared_acceptable _ _ _ _ _ a2,
    checkShared_acceptable _ _ _ _ _ a3, checkShared_acceptable _ _ _ _ _ a4] at herr
  unfold Run.ok
  rw [herr]
  simp [loadedCell, freshCell]
  norm_num

/-- C10, concrete run: the cell with a loaded scale `3` and a loaded running mean `1/2`
keeps both across `initialize`, while bias and running variance are created as `0`. -/
theorem initialize_keeps_parameters_witness :
    loadedCell.mInputs = [constTensor [2, 1, 1, 2] 2] ∧
    referenceCuDNN.deriveBNDims CudnnBatchNormMode.CUDNN_BATCHNORM_SPATIAL
      (constTensor [2, 1, 1, 2] 2) = some [1, 1, 1, 1] ∧
    (initializeCell referenceCuDNN showRatio loadedCell).ok ∧
    (initializeCell referenceCuDNN showRatio loadedCell).state.mScale = ⟨[1, 1, 1, 1], [3], false⟩ ∧
    (initializeCell referenceCuDNN showRatio loadedCell).state.mBias = ⟨[1, 1, 1, 1], [0], false⟩ ∧
    sharedTensors
        (initializeCell referenceCuDNN showRatio
          (initializeCell referenceCuDNN showRatio loadedCell).state).state
      = sharedTensors (initializeCell referenceCuDNN showRatio loadedCell).state :=
  have h := initialize_keeps_parameters referenceCuDNN showRatio loadedCell
    (constTensor [2, 1, 1, 2] 2) [1, 1, 1, 1] rfl rfl loadedCell_initialize_ok
  ⟨rfl, rfl, loadedCell_initialize_ok, h.2.1, h.2.2.1, h.2.2.2.2.2.2⟩

end BatchNormCell_Frame_CUDA

/-! ## Theorems: both cells -/

/-- C5. For both `PoolCell_Frame` and `BatchNormCell_Frame_CUDA`, for either value of
the `inference` argument and whatever the validity flag was before the call, after a
`propagate(inference)` that returned normally the validity flag of the `DiffInputs`
gradient tensor of the cell is cleared. -/
theorem propagate_clears_diffInputs_validity
    (K : PoolCell_Frame_Kernels) (F : Cell_Frame) (c : PoolCell_Frame) (inference : Bool)
    (L : CuDNN) (G : Cell_Frame) (s : BatchNormCell_Frame_CUDA) (inference2 : Bool)
    (hpool : (PoolCell_Frame.propagate K F c inference).ok)
    (hbn : (BatchNormCell_Frame_CUDA.propagate L G s inference2).ok) :
    (PoolCell_Frame.propagate K F c inference).state.mDiffInputs.isValid = false ∧
    (BatchNormCell_Frame_CUDA.propagate L G s inference2).state.mDiffInputs.isValid = false := by
  constructor
  · exact PoolCell_Frame.pool_propagate_clearValid K F c inference hpool
  · exact BatchNormCell_Frame_CUDA.batchNorm_propagate_clearValid L G s inference2 hbn

/-- C5, concrete run: both example cells have their `DiffInputs` marked valid before the
forward pass, the pass returns normally and the flag is cleared. -/
theorem propagate_clears_diffInputs_validity_witness :
    PoolCell_Frame.smallCell.mDiffInputs.isValid = true ∧
    BatchNormCell_Frame_CUDA.readyCell.mDiffInputs.isValid = true ∧
    (PoolCell_Frame.propagate PoolCell_Frame.idleKernels noActivation
      PoolCell_Frame.smallCell true).ok ∧
    (BatchNormCell_Frame_CUDA.propagate BatchNormCell_Frame_CUDA.referenceCuDNN noActivation
      BatchNormCell_Frame_CUDA.readyCell false).ok ∧
    (PoolCell_Frame.propagate PoolCell_Frame.idleKernels noActivation
      PoolCell_Frame.smallCell true).state.mDiffInputs.isValid = false ∧
    (BatchNormCell_Frame_CUDA.propagate BatchNormCell_Frame_CUDA.referenceCuDNN noActivation
      BatchNormCell_Frame_CUDA.readyCell false).state.mDiffInputs.isValid = false :=
  ⟨rfl, rfl, rfl, rfl,
    propagate_clears_diffInputs_validity PoolCell_Frame.idleKernels noActivation
      PoolCell_Frame.smallCell true BatchNormCell_Frame_CUDA.referenceCuDNN noActivation
      BatchNormCell_Frame_CUDA.readyCell false rfl rfl⟩

/-! ## Theorems: forward pass of BatchNormCell_Frame_CUDA, caches and counter -/

namespace BatchNormCell_Frame_CUDA

theorem fill_eq_of_sameShape (a b : Tensor ℚ) (v : ℚ) (h : SameShape a b) :
    a.fill v = b.fill v := by
  obtain ⟨hd, hl, hv⟩ := h
  have hdata : a.data.map (fun _ => v) = b.data.map (fun _ => v) := by
    rw [List.map_const', List.map_const', hl]
  cases a; cases b
  simp only [Tensor.fill] at hd hv hdata ⊢
  simp [hd, hv, hdata]

/-- C11. For `BatchNormCell_Frame_CUDA`, the run of `propagate(inference=false)` (the
routine called, the outcome, and the whole state afterwards: outputs, running
statistics, saved caches) on a cell with an input does not depend on the contents the
saved-mean and saved-variance caches had before the call: two states that differ only
in the values held by those caches give equal runs. -/
theorem propagate_training_ignores_saved_contents (L : CuDNN) (F : Cell_Frame)
    (s : BatchNormCell_Frame_CUDA) (savedMean savedVariance : Tensor ℚ)
    (hin : s.mInputs ≠ []) (hmean : SameShape savedMean s.mSavedMean)
    (hvar : SameShape savedVariance s.mSavedVariance) :
    propagate L F { s with mSavedMean := savedMean, mSavedVariance := savedVariance } false
      = propagate L F s false := by
  obtain ⟨input0, rest, hcons⟩ := List.exists_cons_of_ne_nil hin
  unfold propagate
  simp only [hcons, List.getElem?_cons_zero, Bool.false_eq_true, if_false,
    fill_eq_of_sameShape _ _ 0 hmean, fill_eq_of_sameShape _ _ 0 hvar]

/-- C11, concrete run: the cell whose caches hold the stale values 5 and 7 and the cell
whose caches hold 0 have equal training passes. -/
theorem propagate_training_ignores_saved_contents_witness :
    readyCell.mInputs ≠ [] ∧
    SameShape staleCell.mSavedMean readyCell.mSavedMean ∧
    SameShape staleCell.mSavedVariance readyCell.mSavedVariance ∧
    staleCell.mSavedMean ≠ readyCell.mSavedMean ∧
    propagate referenceCuDNN noActivation
        { readyCell with
          mSavedMean := staleCell.mSavedMean, mSavedVariance := staleCell.mSavedVariance } false
      = propagate referenceCuDNN noActivation readyCell false :=
  ⟨by simp [readyCell, freshCell], by decide, by decide,
    by simp [staleCell, readyCell, constTensor, Tensor.computeSize],
    propagate_training_ignores_saved_contents referenceCuDNN noActivation readyCell
      staleCell.mSavedMean staleCell.mSavedVariance (by simp [readyCell, freshCell])
      (by decide) (by decide)⟩

theorem propagate_inference_frame (L : CuDNN) (F : Cell_Frame) (s : BatchNormCell_Frame_CUDA) :
    (propagate L F s true).state.mMean = s.mMean ∧
    (propagate L F s true).state.mVariance = s.mVariance ∧
    (propagate L F s true).state.mSavedMean = s.mSavedMean ∧
    (propagate L F s true).state.mSavedVariance = s.mSavedVariance ∧
    (propagate L F s true).state.mNbPropagate = s.mNbPropagate := by
  unfold propagate
  cases h0 : s.mInputs[0]? with
  | none => simp
  | some input0 =>
    simp only [if_true]
    split <;> simp [finishPropagate]

theorem propagate_training_counter (L : CuDNN) (F : Cell_Frame) (s : BatchNormCell_Frame_CUDA)
    (hok : (propagate L F s false).ok) :
    (propagate L F s false).state.mNbPropagate = (s.mNbPropagate + 1) % 2 ^ 32 := by
  unfold Run.ok at hok
  unfold propagate at hok ⊢
  cases h0 : s.mInputs[0]? with
  | none => simp [h0] at hok
  | some input0 =>
    simp only [h0, Bool.false_eq_true, if_false] at hok ⊢
    split at hok
    · simp at hok
    · rename_i res hres
      simp only [hres, finishPropagate]

theorem initializeCell_counter (L : CuDNN) (fmt : ℚ → String) (s : BatchNormCell_Frame_CUDA)
    (hfew : ¬ s.mInputs.length > 1) : (initializeCell L fmt s).state.mNbPropagate = 0 := by
  unfold initializeCell
  by_cases heps : L.CUDNN_BN_MIN_EPSILON > 0 ∧ s.mEpsilon < L.CUDNN_BN_MIN_EPSILON
  all_goals
    simp only [hfew, heps, if_false, if_true, and_self]
    repeat' split
    all_goals rfl

/-- C12 (amended). For `BatchNormCell_Frame_CUDA`, `propagate(inference=true)` leaves the
running mean, the running variance, the saved-mean and saved-variance caches and the
propagate counter unchanged; a `propagate(inference=false)` that returns normally
increases the propagate counter by one modulo `2^32`, that is by exactly one unless the
counter was `2^32 - 1`; and an `initialize` that returns normally resets it to 0. -/
theorem propagate_counter_and_frame (L : CuDNN) (F : Cell_Frame) (fmt : ℚ → String)
    (s : BatchNormCell_Frame_CUDA) (hok : (propagate L F s false).ok)
    (hinit : (initializeCell L fmt s).ok) :
    ((propagate L F s true).state.mMean = s.mMean ∧
      (propagate L F s true).state.mVariance = s.mVariance ∧
      (propagate L F s true).state.mSavedMean = s.mSavedMean ∧
      (propagate L F s true).state.mSavedVariance = s.mSavedVariance ∧
      (propagate L F s true).state.mNbPropagate = s.mNbPropagate) ∧
    (propagate L F s false).state.mNbPropagate = (s.mNbPropagate + 1) % 2 ^ 32 ∧
    (s.mNbPropagate < 2 ^ 32 - 1 →
      (propagate L F s false).state.mNbPropagate = s.mNbPropagate + 1) ∧
    (initializeCell L fmt s).state.mNbPropagate = 0 := by
  have hcount := propagate_training_counter L F s hok
  refine ⟨propagate_inference_frame L F s, hcount, ?_, ?_⟩
  · intro hlt
    rw [hcount]
    exact Nat.mod_eq_of_lt (by omega)
  · have hfew : ¬ s.mInputs.length > 1 := by
      intro hmany
      unfold Run.ok at hinit
      simp [initializeCell, hmany] at hinit
    exact initializeCell_counter L fmt s hfew

theorem readyCell_initialize_ok : (initializeCell referenceCuDNN showRatio readyCell).ok := by
  obtain ⟨herr, -⟩ := initializeCell_single referenceCuDNN showRatio readyCell
    (constTensor [2, 1, 1, 2] 2) [1, 1, 1, 1] rfl rfl
  have a1 : Acceptable [1, 1, 1, 1].reverse readyCell.mScale := Or.inr rfl
  have a2 : Acceptable [1, 1, 1, 1].reverse readyCell.mBias := Or.inr rfl
  have a3 : Acceptable [1, 1, 1, 1].reverse readyCell.mMean := Or.inr rfl
  have a4 : Acceptable [1, 1, 1, 1].reverse readyCell.mVariance := Or.inr rfl
  rw [checkShared_acceptable _ _ _ _ _ a1, checkShared_acceptable _ _ _ _ _ a2,
    checkShared_acceptable _ _ _ _ _ a3, checkShared_acceptable _ _ _ _ _ a4] at herr
  unfold Run.ok
  rw [herr]
  simp [readyCell, freshCell]
  norm_num

/-- C12, concrete run: on the initialised cell an inference pass keeps the counter at 0,
a training pass makes it 1, and `initialize` puts it back to 0. -/
theorem propagate_counter_and_frame_witness :
    (propagate referenceCuDNN noActivation readyCell false).ok ∧
    (initializeCell referenceCuDNN showRatio readyCell).ok ∧
    readyCell.mNbPropagate < 2 ^ 32 - 1 ∧
    (propagate referenceCuDNN noActivation readyCell true).state.mNbPropagate = 0 ∧
    (propagate referenceCuDNN noActivation readyCell false).state.mNbPropagate = 1 :=
  have h := propagate_counter_and_frame referenceCuDNN noActivation showRatio readyCell rfl
    readyCell_initialize_ok
  ⟨rfl, readyCell_initialize_ok, by decide, h.1.2.2.2.2, h.2.2.1 (by decide)⟩

/-- C12, counterexample to the statement as worded: on the cell whose counter is
`2^32 - 1` a training pass returns normally and leaves the counter at 0, not at `2^32`. -/
theorem propagate_counter_wraps :
    (propagate referenceCuDNN noActivation saturatedCell false).ok ∧
    (propagate referenceCuDNN noActivation saturatedCell false).state.mNbPropagate = 0 ∧
    ¬ CounterPlusOne saturatedCell (propagate referenceCuDNN noActivation saturatedCell false) := by
  have hok : (propagate referenceCuDNN noActivation saturatedCell false).ok := rfl
  have h0 : (propagate referenceCuDNN noActivation saturatedCell false).state.mNbPropagate
      = 0 := by
    rw [propagate_training_counter _ _ _ hok]
    decide
  refine ⟨hok, h0, ?_⟩
  intro h
  have h1 := h hok
  rw [h0] at h1
  revert h1
  decide

end BatchNormCell_Frame_CUDA

/-! ## Theorems: parameter files of BatchNormCell_Frame_CUDA -/

theorem serialize_append (fmt : ElementFormat) (xs ys : List ℚ) :
    serialize fmt (xs ++ ys) = serialize fmt xs ++ serialize fmt ys := by
  induction xs with
  | nil => rfl
  | cons x xs ih => simp [serialize, ih]

theorem readElements_append (fmt : ElementFormat) (xs ys : List ℚ) :
    ∀ st : IStream,
      readElements fmt st (xs ++ ys) =
        ((readElements fmt (readElements fmt st xs).1 ys).1,
          (readElements fmt st xs).2 ++ (readElements fmt (readElements fmt st xs).1 ys).2) := by
  induction xs with
  | nil => intro st; rfl
  | cons x xs ih =>
    intro st
    have h := ih (readElement fmt st x).1
    show readElements fmt st (x :: (xs ++ ys)) = _
    simp only [readElements, h, List.cons_append]

theorem readElements_length (fmt : ElementFormat) (xs : List ℚ) :
    ∀ st : IStream, (readElements fmt st xs).2.length = xs.length := by
  induction xs with
  | nil => intro st; rfl
  | cons x xs ih => intro st; simp [readElements, ih]

/-- Reading back what was written: the elements are recovered and the stream is left,
still good, at the byte that follows them. -/
theorem readElements_serialize (fmt : ElementFormat) (xs : List ℚ) :
    ∀ (olds : List ℚ) (tail : List Nat), olds.length = xs.length →
      (∀ x ∈ xs, fmt.Faithful x) →
      readElements fmt ⟨serialize fmt xs ++ tail, false, false⟩ olds
        = (⟨tail, false, false⟩, xs) := by
  induction xs with
  | nil =>
    intro olds tail hlen _
    have : olds = [] := List.length_eq_zero.mp hlen
    subst this
    rfl
  | cons x xs ih =>
    intro olds tail hlen hf
    cases olds with
    | nil => simp at hlen
    | cons o os =>
      obtain ⟨hsize, hval⟩ := hf x (List.mem_cons_self _ _)
      have hstep : readElement fmt ⟨serialize fmt (x :: xs) ++ tail, false, false⟩ o
          = (⟨serialize fmt xs ++ tail, false, false⟩, x) := by
        have hle : fmt.sizeOf ≤ (fmt.bytesOf x ++ (serialize fmt xs ++ tail)).length := by
          rw [List.length_append, hsize]; omega
        simp only [readElement, IStream.good, serialize, List.append_assoc, Bool.not_false,
          Bool.and_self, if_true, hle]
        rw [← hsize, List.drop_left, List.take_left, hval]
      have hrec := ih os tail (by simpa using hlen)
        (fun y hy => hf y (List.mem_cons_of_mem _ hy))
      simp only [readElements, hstep, hrec]

/-- What the flags and the position of the stream are after reading `olds.length`
elements from a good stream. -/
theorem readElements_stream (fmt : ElementFormat) (olds : List ℚ) :
    ∀ rest : List Nat,
      (fmt.sizeOf * olds.length ≤ rest.length →
        (readElements fmt ⟨rest, false, false⟩ olds).1
          = ⟨rest.drop (fmt.sizeOf * olds.length), false, false⟩) ∧
      (rest.length < fmt.sizeOf * olds.length →
        (readElements fmt ⟨rest, false, false⟩ olds).1.eof = true) := by
  have hbad : ∀ (os : List ℚ) (st : IStream), st.eof = true →
      (readElements fmt st os).1.eof = true := by
    intro os
    induction os with
    | nil => intro st h; exact h
    | cons o os ih =>
      intro st h
      simp only [readElements]
      apply ih
      simp [readElement, IStream.good, h]
  induction olds with
  | nil => intro rest; simp [readElements]
  | cons o os ih =>
    intro rest
    simp only [List.length_cons, Nat.mul_succ]
    by_cases hle : fmt.sizeOf ≤ rest.length
    · have hstep : readElement fmt ⟨rest, false, false⟩ o
          = (⟨rest.drop fmt.sizeOf, false, false⟩, fmt.valueOf (rest.take fmt.sizeOf)) := by
        simp [readElement, IStream.good, hle]
      obtain ⟨h1, h2⟩ := ih (rest.drop fmt.sizeOf)
      simp only [readElements, hstep]
      constructor
      · intro h
        rw [h1 (by rw [List.length_drop]; omega), List.drop_drop]
        congr 2
        omega
      · intro h
        exact h2 (by rw [List.length_drop]; omega)
    · have hstep : readElement fmt ⟨rest, false, false⟩ o = (⟨[], true, true⟩, o) := by
        simp [readElement, IStream.good, hle]
      simp only [readElements, hstep]
      constructor
      · intro h; omega
      · intro _; exact hbad os _ rfl

namespace BatchNormCell_Frame_CUDA

/-- The stream after the four loads of `loadFreeParameters` is the stream after reading
all the elements of the four tensors in a row. -/
theorem loadFreeParameters_some (fmt : ElementFormat) (fileName : String) (bytes : List Nat)
    (ignoreNotExists : Bool) (s : BatchNormCell_Frame_CUDA) :
    ∃ s1 : BatchNormCell_Frame_CUDA,
      (loadFreeParameters fmt fileName (some bytes) ignoreNotExists s).state = s1 ∧
      s1.mScale.data ++ s1.mBias.data ++ s1.mMean.data ++ s1.mVariance.data =
        (readElements fmt ⟨bytes, false, false⟩
          (s.mScale.data ++ s.mBias.data ++ s.mMean.data ++ s.mVariance.data)).2 ∧
      s1.mScale.data.length = s.mScale.data.length ∧
      s1.mBias.data.length = s.mBias.data.length ∧
      s1.mMean.data.length = s.mMean.data.length ∧
      s1.mVariance.data.length = s.mVariance.data.length ∧
      s1.mScale.dims = s.mScale.dims ∧ s1.mBias.dims = s.mBias.dims ∧
      s1.mMean.dims = s.mMean.dims ∧ s1.mVariance.dims = s.mVariance.dims ∧
      (loadFreeParameters fmt fileName (some bytes) ignoreNotExists s).error =
        (let syn := (readElements fmt ⟨bytes, false, false⟩
          (s.mScale.data ++ s.mBias.data ++ s.mMean.data ++ s.mVariance.data)).1
        if syn.eof then
          some ("End-of-file reached prematurely in parameter file (.SYN): " ++ fileName)
        else if !syn.good then
          some ("Error while reading parameter file (.SYN): " ++ fileName)
        else if syn.rest ≠ [] then
          some ("Synaptic file (.SYN) size larger than expected: " ++ fileName)
        else none) := by
  refine ⟨_, rfl, ?_, ?_, ?_, ?_, ?_, ?_, ?_, ?_, ?_, ?_⟩
  · simp only [loadFreeParameters, Tensor.load, readElements_append, List.append_assoc]
    repeat' split
    all_goals simp
  all_goals
    simp only [loadFreeParameters, Tensor.load, readElements_append, List.append_assoc]
    repeat' split
    all_goals first | rfl | simp [readElements_length]

/-- C13. For every cell state `s` whose parameter values are values of the element
type, `saveFreeParameters` to a destination, when it succeeds, writes the four tensors in
the order scale, bias, mean, variance, and `loadFreeParameters` from that file into a
cell `t` whose four parameter tensors have the same shapes returns normally and makes
the scale, bias, running mean and running variance of `t` equal, element for element,
to those of `s`. -/
theorem save_load_roundtrip (fmt : ElementFormat) (fileName : String) (dest : Destination)
    (s t : BatchNormCell_Frame_CUDA) (ignoreNotExists : Bool) (content : List Nat)
    (hsave : saveFreeParameters fmt fileName dest s = Except.ok content)
    (hvalues : ∀ x ∈ s.mScale.data ++ s.mBias.data ++ s.mMean.data ++ s.mVariance.data,
      fmt.Faithful x)
    (hscale : SameSize t.mScale s.mScale) (hbias : SameSize t.mBias s.mBias)
    (hmean : SameSize t.mMean s.mMean) (hvar : SameSize t.mVariance s.mVariance) :
    content = serialize fmt s.mScale.data ++ serialize fmt s.mBias.data
      ++ serialize fmt s.mMean.data ++ serialize fmt s.mVariance.data ∧
    (loadFreeParameters fmt fileName (some content) ignoreNotExists t).ok ∧
    SameElements (loadFreeParameters fmt fileName (some content) ignoreNotExists t).state.mScale
      s.mScale ∧
    SameElements (loadFreeParameters fmt fileName (some content) ignoreNotExists t).state.mBias
      s.mBias ∧
    SameElements (loadFreeParameters fmt fileName (some content) ignoreNotExists t).state.mMean
      s.mMean ∧
    SameElements
      (loadFreeParameters fmt fileName (some content) ignoreNotExists t).state.mVariance
      s.mVariance := by
  have hcontent : content = serialize fmt s.mScale.data ++ serialize fmt s.mBias.data
      ++ serialize fmt s.mMean.data ++ serialize fmt s.mVariance.data := by
    unfold saveFreeParameters at hsave
    cases hc : dest.creatable with
    | false => simp [hc] at hsave
    | true =>
      cases hcap : dest.capacity with
      | none =>
        simp only [hc, hcap, Bool.not_true, Bool.false_eq_true, if_false] at hsave
        exact (Except.ok.inj hsave).symm
      | some n =>
        simp only [hc, hcap, Bool.not_true, Bool.false_eq_true, if_false] at hsave
        split at hsave
        · simp at hsave
        · exact (Except.ok.inj hsave).symm
  have hread := readElements_serialize fmt
    (s.mScale.data ++ s.mBias.data ++ s.mMean.data ++ s.mVariance.data)
    (t.mScale.data ++ t.mBias.data ++ t.mMean.data ++ t.mVariance.data) []
    (by simp only [List.length_append, hscale.2, hbias.2, hmean.2, hvar.2]) hvalues
  rw [List.append_nil] at hread
  simp only [serialize_append] at hread
  rw [← hcontent] at hread
  obtain ⟨s1, hs1, hdata, l1, l2, l3, l4, d1, d2, d3, d4, herr⟩ :=
    loadFreeParameters_some fmt fileName content ignoreNotExists t
  rw [hread] at hdata herr
  rw [hs1]
  have e1 := List.append_inj hdata
    (by simp only [List.length_append, l1, l2, l3, hscale.2, hbias.2, hmean.2])
  have e2 := List.append_inj e1.1
    (by simp only [List.length_append, l1, l2, hscale.2, hbias.2])
  have e3 := List.append_inj e2.1 (by rw [l1, hscale.2])
  refine ⟨hcontent, ?_, ⟨d1.trans hscale.1, e3.1⟩, ⟨d2.trans hbias.1, e3.2⟩,
    ⟨d3.trans hmean.1, e2.2⟩, ⟨d4.trans hvar.1, e1.2⟩⟩
  unfold Run.ok
  rw [herr]
  simp [IStream.good]

/-- C13, concrete run: the parameters of the trained cell (2, 1/2, 3/4 and 5), saved in
the two-byte fraction format, are the eight bytes `2 1 1 2 3 4 5 1`; loading that file
into the freshly initialised cell gives it the parameters of the trained cell. -/
theorem save_load_roundtrip_witness :
    saveFreeParameters fractionFormat "bn.syn" plainFile trainedCell
      = Except.ok [2, 1, 1, 2, 3, 4, 5, 1] ∧
    (∀ x ∈ trainedCell.mScale.data ++ trainedCell.mBias.data ++ trainedCell.mMean.data
      ++ trainedCell.mVariance.data, fractionFormat.Faithful x) ∧
    SameSize readyCell.mScale trainedCell.mScale ∧
    (loadFreeParameters fractionFormat "bn.syn" (some [2, 1, 1, 2, 3, 4, 5, 1]) false
      readyCell).ok ∧
    SameElements
      (loadFreeParameters fractionFormat "bn.syn" (some [2, 1, 1, 2, 3, 4, 5, 1]) false
        readyCell).state.mBias trainedCell.mBias := by
  have hsave : saveFreeParameters fractionFormat "bn.syn" plainFile trainedCell
      = Except.ok [2, 1, 1, 2, 3, 4, 5, 1] := by
    have h3 : Int.toNat 3 = 3 := rfl
    simp [saveFreeParameters, plainFile, trainedCell, serialize, fractionFormat]
    norm_num [h3]
  have hvalues : ∀ x ∈ trainedCell.mScale.data ++ trainedCell.mBias.data
      ++ trainedCell.mMean.data ++ trainedCell.mVariance.data, fractionFormat.Faithful x := by
    intro x hx
    simp only [trainedCell, List.mem_append, List.mem_singleton, List.cons_append,
      List.nil_append, List.mem_cons, List.not_mem_nil, or_false] at hx
    have h3 : Int.toNat 3 = 3 := rfl
    rcases hx with rfl | rfl | rfl | rfl <;>
      (simp [ElementFormat.Faithful, fractionFormat]; try norm_num [h3])
  have h := save_load_roundtrip fractionFormat "bn.syn" plainFile trainedCell readyCell false
    [2, 1, 1, 2, 3, 4, 5, 1] hsave hvalues (by decide) (by decide) (by decide) (by decide)
  exact ⟨hsave, hvalues, by decide, h.2.1, h.2.2.2.1⟩

/-- C14. For an existing parameter source, `loadFreeParameters` returns normally if and
only if the source holds exactly the bytes of the elements of the four tensors: it
fails (end of file reached prematurely) when the source is shorter, and it fails (size
larger than expected) when at least one byte remains after the last expected element. -/
theorem load_ok_iff_exact_size (fmt : ElementFormat) (fileName : String) (bytes : List Nat)
    (ignoreNotExists : Bool) (s : BatchNormCell_Frame_CUDA) :
    ((loadFreeParameters fmt fileName (some bytes) ignoreNotExists s).ok ↔
      bytes.length = fmt.sizeOf * nbFreeParameters s) ∧
    (bytes.length < fmt.sizeOf * nbFreeParameters s →
      (loadFreeParameters fmt fileName (some bytes) ignoreNotExists s).error =
        some ("End-of-file reached prematurely in parameter file (.SYN): " ++ fileName)) ∧
    (fmt.sizeOf * nbFreeParameters s < bytes.length →
      (loadFreeParameters fmt fileName (some bytes) ignoreNotExists s).error =
        some ("Synaptic file (.SYN) size larger than expected: " ++ fileName)) := by
  obtain ⟨s1, -, -, -, -, -, -, -, -, -, -, herr⟩ :=
    loadFreeParameters_some fmt fileName bytes ignoreNotExists s
  obtain ⟨hfit, hshort⟩ := readElements_stream fmt
    (s.mScale.data ++ s.mBias.data ++ s.mMean.data ++ s.mVariance.data) bytes
  have hn : (s.mScale.data ++ s.mBias.data ++ s.mMean.data ++ s.mVariance.data).length
      = nbFreeParameters s := by
    simp only [List.length_append, nbFreeParameters]
  rw [hn] at hfit hshort
  unfold Run.ok
  rw [herr]
  have hlong : fmt.sizeOf * nbFreeParameters s < bytes.length →
      (let syn := (readElements fmt ⟨bytes, false, false⟩
          (s.mScale.data ++ s.mBias.data ++ s.mMean.data ++ s.mVariance.data)).1
        if syn.eof then
          some ("End-of-file reached prematurely in parameter file (.SYN): " ++ fileName)
        else if !syn.good then
          some ("Error while reading parameter file (.SYN): " ++ fileName)
        else if syn.rest ≠ [] then
          some ("Synaptic file (.SYN) size larger than expected: " ++ fileName)
        else none) =
        some ("Synaptic file (.SYN) size larger than expected: " ++ fileName) := by
    intro h
    have hne : bytes.drop (fmt.sizeOf * nbFreeParameters s) ≠ [] := by
      intro h0
      have := congrArg List.length h0
      rw [List.length_drop] at this
      simp at this
      omega
    simp only [hfit (Nat.le_of_lt h)]
    simp [IStream.good, hne]
  have hshort2 : bytes.length < fmt.sizeOf * nbFreeParameters s →
      (let syn := (readElements fmt ⟨bytes, false, false⟩
          (s.mScale.data ++ s.mBias.data ++ s.mMean.data ++ s.mVariance.data)).1
        if syn.eof then
          some ("End-of-file reached prematurely in parameter file (.SYN): " ++ fileName)
        else if !syn.good then
          some ("Error while reading parameter file (.SYN): " ++ fileName)
        else if syn.rest ≠ [] then
          some ("Synaptic file (.SYN) size larger than expected: " ++ fileName)
        else none) =
        some ("End-of-file reached prematurely in parameter file (.SYN): " ++ fileName) := by
    intro h
    simp only [hshort h, if_true]
  refine ⟨⟨?_, ?_⟩, hshort2, hlong⟩
  · intro hok
    rcases Nat.lt_trichotomy bytes.length (fmt.sizeOf * nbFreeParameters s) with h | h | h
    · rw [hshort2 h] at hok; simp at hok
    · exact h
    · rw [hlong h] at hok; simp at hok
  · intro heq
    have hnil : bytes.drop (fmt.sizeOf * nbFreeParameters s) = [] := by
      apply List.drop_eq_nil_of_le; omega
    simp only [hfit (Nat.le_of_eq heq.symm)]
    simp [IStream.good, hnil]

/-- C15. When the parameter source cannot be opened, `loadFreeParameters` with
`ignoreNotExists = true` returns normally and with `ignoreNotExists = false` fails with
an error naming the file; in both cases no field of the cell is changed, in particular
scale, bias, running mean and running variance are as they were. -/
theorem load_from_missing_source (fmt : ElementFormat) (fileName : String)
    (s : BatchNormCell_Frame_CUDA) :
    (loadFreeParameters fmt fileName none true s).ok ∧
    (loadFreeParameters fmt fileName none true s).state = s ∧
    (loadFreeParameters fmt fileName none false s).error =
      some ("Could not open parameter file (.SYN): " ++ fileName) ∧
    (loadFreeParameters fmt fileName none false s).state = s ∧
    sharedTensors (loadFreeParameters fmt fileName none true s).state = sharedTensors s ∧
    sharedTensors (loadFreeParameters fmt fileName none false s).state = sharedTensors s := by
  simp [loadFreeParameters, Run.ok]

end BatchNormCell_Frame_CUDA

/-! ## Theorems: construction of a PoolCell_Frame -/

namespace PoolCell_Frame

/-- C16 (amended). With `POOL_KERNEL_MAX_DIMS` at least 2: when `poolDims` has no more
than `POOL_KERNEL_MAX_DIMS` entries, constructing a `PoolCell_Frame` passes its checks if
and only if `poolDims`, `strideDims` and `paddingDims` each have exactly two entries, and
it fails with a domain error when `poolDims` has not two entries, when `strideDims` has
a different number of entries than `poolDims` and when `paddingDims` has a different
number of entries than `poolDims`; when `poolDims` has more than `POOL_KERNEL_MAX_DIMS`
entries the assertion of the constructor fails before these checks. -/
theorem ctor_checks (POOL_KERNEL_MAX_DIMS : Nat) (name : String)
    (poolDims strideDims paddingDims : List Nat) (pooling : Pooling)
    (hmax : 2 ≤ POOL_KERNEL_MAX_DIMS) :
    (poolDims.length ≤ POOL_KERNEL_MAX_DIMS →
      ChecksAsSpecified poolDims strideDims paddingDims
        (ctor POOL_KERNEL_MAX_DIMS name poolDims strideDims paddingDims pooling)) ∧
    (POOL_KERNEL_MAX_DIMS < poolDims.length →
      ctor POOL_KERNEL_MAX_DIMS name poolDims strideDims paddingDims pooling
        = Except.error ConstructionFailure.assertion) := by
  constructor
  · intro hle
    have hnl : ¬ POOL_KERNEL_MAX_DIMS < 2 := by omega
    unfold ChecksAsSpecified Constructed DomainError ctor
    by_cases hp : poolDims.length = 2
    · by_cases hs : strideDims.length = 2
      · by_cases hd : paddingDims.length = 2
        · simp [hnl, hp, hs, hd]
        · simp [hnl, hp, hs, hd]
      · simp [hnl, hp, hs]
    · simp [hle, hp]
  · intro hgt
    simp [ctor, Nat.not_le.mpr hgt]

/-- C16, concrete run: with `POOL_KERNEL_MAX_DIMS = 3`, two-dimensional pooling with
two-dimensional stride and padding is constructed. -/
theorem ctor_checks_witness :
    2 ≤ 3 ∧ [2, 2].length ≤ 3 ∧
    Constructed (ctor 3 "pool" [2, 2] [2, 2] [0, 0] Pooling.Max) ∧
    ChecksAsSpecified [2, 2] [2, 2] [0, 0] (ctor 3 "pool" [2, 2] [2, 2] [0, 0] Pooling.Max) :=
  have h := (ctor_checks 3 "pool" [2, 2] [2, 2] [0, 0] Pooling.Max (by decide)).1 (by decide)
  ⟨by decide, by decide, h.1.2 ⟨rfl, rfl, rfl⟩, h⟩

/-- C16, counterexample to the statement as worded: with `POOL_KERNEL_MAX_DIMS = 3`,
four pooling dimensions make the construction fail on the assertion, not with a domain
error. -/
theorem ctor_assertion_before_checks :
    ctor 3 "pool" [2, 2, 2, 2] [1, 1, 1, 1] [0, 0, 0, 0] Pooling.Max
      = Except.error ConstructionFailure.assertion ∧
    ¬ ChecksAsSpecified [2, 2, 2, 2] [1, 1, 1, 1] [0, 0, 0, 0]
      (ctor 3 "pool" [2, 2, 2, 2] [1, 1, 1, 1] [0, 0, 0, 0] Pooling.Max) := by
  have hrun : ctor 3 "pool" [2, 2, 2, 2] [1, 1, 1, 1] [0, 0, 0, 0] Pooling.Max
      = Except.error ConstructionFailure.assertion := by
    simp [ctor]
  refine ⟨hrun, ?_⟩
  rintro ⟨-, h, -, -⟩
  obtain ⟨what, hw⟩ := h (by decide)
  rw [hrun] at hw
  simp at hw

end PoolCell_Frame

/-! ## Theorems: FcCell -/

namespace FcCell

theorem forward_getElem? (alpha beta : ℚ) (x : List ℚ) (W : List (List ℚ)) (out : List ℚ)
    (o : Nat) (y : ℚ) (hW : W.length = out.length) (hy : out[o]? = some y) :
    (forward alpha x W beta out)[o]? = some (alpha * dot (W.getD o []) x + beta * y) := by
  unfold forward
  have ho : o < out.length := by
    rcases Nat.lt_or_ge o out.length with h | h
    · exact h
    · rw [List.getElem?_eq_none h] at hy; cases hy
  have hoW : o < W.length := by omega
  rw [List.getElem?_zipWith]
  simp [List.getElem?_eq_getElem hoW, List.getElem?_eq_getElem ho, List.getD_eq_getElem _ _ hoW] at hy ⊢
  exact Or.inl hy

theorem forward_length (alpha beta : ℚ) (x : List ℚ) (W : List (List ℚ)) (out : List ℚ)
    (hW : W.length = out.length) : (forward alpha x W beta out).length = out.length := by
  simp [forward, hW]

theorem propagateLoop_later (xs : List (List ℚ)) :
    ∀ (Ws : List (List (List ℚ))) (k : Nat) (out : List ℚ) (o : Nat) (y : ℚ), 0 < k →
      (∀ W ∈ Ws, W.length = out.length) → out[o]? = some y →
      (propagateLoop xs Ws k out)[o]? = some (y + weightedSum xs Ws o) := by
  induction xs with
  | nil => intro Ws k out o y _ _ hy; simp [propagateLoop, weightedSum, hy]
  | cons x xs ih =>
    intro Ws k out o y hk hW hy
    cases Ws with
    | nil => simp [propagateLoop, weightedSum, hy]
    | cons W Ws =>
      have hWl : W.length = out.length := hW W (List.mem_cons_self _ _)
      have hstep := forward_getElem? 1 1 x W out o y hWl hy
      have hrec := ih Ws (k + 1) (forward 1 x W 1 out) o _ (Nat.succ_pos k)
        (by intro V hV; rw [forward_length _ _ _ _ _ hWl]; exact hW V (List.mem_cons_of_mem _ hV))
        hstep
      simp only [propagateLoop, hk, if_true, hrec, weightedSum, List.zipWith_cons_cons,
        List.sum_cons]
      congr 1
      ring

theorem dot_ones_left (x : List ℚ) : dot (List.replicate x.length 1) x = x.sum := by
  unfold dot
  induction x with
  | nil => rfl
  | cons a x ih => simp [List.replicate_succ, ih]

theorem dot_ones_right (w : List ℚ) : dot w (List.replicate w.length 1) = w.sum := by
  unfold dot
  induction w with
  | nil => rfl
  | cons a w ih => simp [List.replicate_succ, ih]

theorem weightedSum_unit_weights (groups : List (List ℚ)) (synapses : List (List (List ℚ)))
    (o : Nat)
    (h : List.Forall₂ (fun x W => W.getD o [] = List.replicate x.length 1) groups synapses) :
    weightedSum groups synapses o = expectedInputSum groups := by
  unfold weightedSum expectedInputSum
  induction h with
  | nil => rfl
  | cons hxW _ ih => simp only [List.zipWith_cons_cons, List.sum_cons, List.map_cons, ih, hxW,
      dot_ones_left]

theorem weightedSum_unit_inputs (groups : List (List ℚ)) (synapses : List (List (List ℚ)))
    (o : Nat)
    (h : List.Forall₂ (fun x W => x = List.replicate (W.getD o []).length 1) groups synapses) :
    weightedSum groups synapses o = expectedWeightSum synapses o := by
  unfold weightedSum expectedWeightSum
  induction h with
  | nil => rfl
  | @cons x W xs Ws hxW _ ih =>
    simp only [List.zipWith_cons_cons, List.sum_cons, List.map_cons, ih]
    rw [hxW, dot_ones_right]

theorem propagateLoop_first (x : List ℚ) (xs : List (List ℚ)) (W : List (List ℚ))
    (Ws : List (List (List ℚ))) (out : List ℚ) (o : Nat)
    (hW : ∀ V ∈ W :: Ws, V.length = out.length) (ho : o < out.length) :
    (propagateLoop (x :: xs) (W :: Ws) 0 out)[o]? = some (weightedSum (x :: xs) (W :: Ws) o) := by
  have hWl : W.length = out.length := hW W (List.mem_cons_self _ _)
  have hstep := forward_getElem? 1 0 x W out o out[o] hWl (List.getElem?_eq_getElem ho)
  have hrec := propagateLoop_later xs Ws 1 (forward 1 x W 0 out) o _ Nat.one_pos
    (by intro V hV; rw [forward_length _ _ _ _ _ hWl]; exact hW V (List.mem_cons_of_mem _ hV))
    hstep
  simp only [propagateLoop, Nat.lt_irrefl, gt_iff_lt, if_false, Nat.zero_add, hrec, weightedSum,
    List.zipWith_cons_cons, List.sum_cons]
  congr 1
  ring

/-- C17. For a fully-connected cell with no bias and no activation and at least one
input group, after `propagate` every output value, for every batch item and so for batch
item 0, equals the sum over all input groups and all input elements of those groups of
`weight(output, element) * input(element)`; with all weights 1 this is the sum of all
input values of all groups, and with all inputs 1 it is the sum of the weights of that
output. -/
theorem propagate_weighted_sum (c : FcCell) (b o : Nat) (groups : List (List ℚ)) (out : List ℚ)
    (hgroups : c.mInputs[b]? = some groups) (hout : c.mOutputs[b]? = some out)
    (hone : groups ≠ [] ∧ c.mSynapses ≠ [])
    (hW : ∀ W ∈ c.mSynapses, W.length = out.length) (ho : o < out.length) :
    (∃ result, (propagate c).mOutputs[b]? = some result ∧
      result[o]? = some (weightedSum groups c.mSynapses o)) ∧
    (List.Forall₂ (fun x W => W.getD o [] = List.replicate x.length 1) groups c.mSynapses →
      weightedSum groups c.mSynapses o = expectedInputSum groups) ∧
    (List.Forall₂ (fun x W => x = List.replicate (W.getD o []).length 1) groups c.mSynapses →
      weightedSum groups c.mSynapses o = expectedWeightSum c.mSynapses o) := by
  refine ⟨?_, weightedSum_unit_weights _ _ _, weightedSum_unit_inputs _ _ _⟩
  obtain ⟨x, xs, hx⟩ := List.exists_cons_of_ne_nil hone.1
  obtain ⟨W, Ws, hWs⟩ := List.exists_cons_of_ne_nil hone.2
  refine ⟨propagateLoop groups c.mSynapses 0 out, ?_, ?_⟩
  · simp only [propagate]
    rw [List.getElem?_zipWith, hgroups, hout]
  · rw [hx, hWs]
    exact propagateLoop_first x xs W Ws out o (by rw [← hWs]; exact hW) ho

/-- C17, concrete run: two input groups of constant value 1 and 1/2 with weight 1 give
the output `1 + 1/2 = 3/2` for batch item 0, whatever the output held before. -/
theorem propagate_weighted_sum_witness :
    twoGroupCell.mInputs[0]? = some [[1], [1 / 2]] ∧ twoGroupCell.mOutputs[0]? = some [9] ∧
    (∃ result, (propagate twoGroupCell).mOutputs[0]? = some result ∧
      result[0]? = some (weightedSum [[1], [1 / 2]] twoGroupCell.mSynapses 0)) ∧
    weightedSum [[1], [1 / 2]] twoGroupCell.mSynapses 0 = expectedInputSum [[1], [1 / 2]] ∧
    expectedInputSum [[1], [1 / 2]] = 3 / 2 := by
  have h := propagate_weighted_sum twoGroupCell 0 0 [[1], [1 / 2]] [9] rfl rfl
    ⟨by simp, by simp [twoGroupCell]⟩ (by simp [twoGroupCell]) (by decide)
  refine ⟨rfl, rfl, h.1, h.2.1 ?_, ?_⟩
  · simp [twoGroupCell]
  · simp [expectedInputSum]
    norm_num

end FcCell

/-! ## Theorems: DeconvCell_Frame -/

namespace DeconvCell_Frame

theorem getBias_setBias (c : DeconvCell_Frame) (o : Nat) (v : Tensor ℚ) (v0 : ℚ)
    (ho : o < c.mBias.data.length) (hv : v.data[0]? = some v0) :
    ∃ c', setBias c o v = Except.ok c' ∧
      (∀ value, getBias c' o value = Except.ok ⟨[1], [v0], value.valid⟩) ∧
      (∀ o' value, o' ≠ o → getBias c' o' value = getBias c o' value) := by
  refine ⟨{ c with mBias := { c.mBias with data := c.mBias.data.set o v0 } }, ?_, ?_, ?_⟩
  · simp [setBias, hv, ho]
  · intro value
    simp [getBias, List.getElem?_set_self ho]
  · intro o' value hne
    simp [getBias, List.getElem?_set_ne (Ne.symm hne)]

theorem getWeight_setWeight (c : DeconvCell_Frame) (output channel : Nat)
    (w kernel : Tensor ℚ) (a : Nat × Nat × Nat)
    (ha : weightAddress c output channel = some a)
    (hk : kernelAt c.mSharedSynapses.tensors a = some kernel)
    (hw : w.dims = kernel.dims ∧ w.data.length = kernel.data.length) :
    ∃ c', setWeight c output channel w = Except.ok c' ∧
      ∀ value, getWeight c' output channel value = Except.ok ⟨w.dims, w.data, value.valid⟩ := by
  unfold kernelAt at hk
  cases h1 : c.mSharedSynapses.tensors[a.1]? with
  | none => simp [h1] at hk
  | some sharedSynapses =>
    simp only [h1] at hk
    cases h2 : sharedSynapses[a.2.1]? with
    | none => simp [h2] at hk
    | some row =>
      simp only [h2] at hk
      have hassign : assign kernel w = some { kernel with data := w.data } := by
        simp [assign, hw.1, hw.2]
      have i1 : a.1 < c.mSharedSynapses.tensors.length := by
        rcases Nat.lt_or_ge a.1 c.mSharedSynapses.tensors.length with h | h
        · exact h
        · rw [List.getElem?_eq_none h] at h1; cases h1
      have i2 : a.2.1 < sharedSynapses.length := by
        rcases Nat.lt_or_ge a.2.1 sharedSynapses.length with h | h
        · exact h
        · rw [List.getElem?_eq_none h] at h2; cases h2
      have i3 : a.2.2 < row.length := by
        rcases Nat.lt_or_ge a.2.2 row.length with h | h
        · exact h
        · rw [List.getElem?_eq_none h] at hk; cases hk
      refine ⟨{ c with
          mSharedSynapses :=
            { c.mSharedSynapses with
              tensors := c.mSharedSynapses.tensors.set a.1
                (sharedSynapses.set a.2.1 (row.set a.2.2 { kernel with data := w.data })) } },
        ?_, ?_⟩
      · simp only [setWeight, ha, h1, h2, hk, hassign]
      · intro value
        have ha2 : weightAddress
            { c with
              mSharedSynapses :=
                { c.mSharedSynapses with
                  tensors := c.mSharedSynapses.tensors.set a.1
                    (sharedSynapses.set a.2.1 (row.set a.2.2 { kernel with data := w.data })) } }
            output channel = some a := by
          simpa [weightAddress] using ha
        simp only [getWeight, ha2, kernelAt, List.getElem?_set_self i1,
          List.getElem?_set_self i2, List.getElem?_set_self i3]
        simp [hw.1]

/-- C18. For `DeconvCell_Frame` the index-addressed accessors round-trip: for every
output `o` that has a bias and every value tensor `v` with at least one element, after
`setBias(o, v)` the accessor `getBias(o)` returns the one-element tensor holding `v(0)`
and `getBias(o')` for every other output returns what it returned before; and for every
`(output, channel)` that addresses a kernel and every `w` of the shape of that kernel,
after `setWeight(output, channel, w)` the accessor `getWeight(output, channel)` returns
`w`. -/
theorem accessors_roundtrip (c : DeconvCell_Frame) (o : Nat) (v : Tensor ℚ) (v0 : ℚ)
    (output channel : Nat) (w kernel : Tensor ℚ) (a : Nat × Nat × Nat)
    (ho : o < c.mBias.data.length) (hv : v.data[0]? = some v0)
    (ha : weightAddress c output channel = some a)
    (hk : kernelAt c.mSharedSynapses.tensors a = some kernel)
    (hw : w.dims = kernel.dims ∧ w.data.length = kernel.data.length) :
    (∃ c', setBias c o v = Except.ok c' ∧
      (∀ value, getBias c' o value = Except.ok ⟨[1], [v0], value.valid⟩) ∧
      (∀ o' value, o' ≠ o → getBias c' o' value = getBias c o' value)) ∧
    (∃ c', setWeight c output channel w = Except.ok c' ∧
      ∀ value, getWeight c' output channel value = Except.ok ⟨w.dims, w.data, value.valid⟩) :=
  ⟨getBias_setBias c o v v0 ho hv, getWeight_setWeight c output channel w kernel a ha hk hw⟩

/-- C18, concrete run: in the example cell, output 1 has a bias and `(output 1, channel
2)` addresses the kernel holding 6 in the second weight tensor. -/
theorem accessors_roundtrip_witness :
    1 < deconvCell.mBias.data.length ∧
    weightAddress deconvCell 1 2 = some (1, 1, 0) ∧
    kernelAt deconvCell.mSharedSynapses.tensors (1, 1, 0) = some ⟨[1, 1], [6], false⟩ ∧
    (∃ c', setBias deconvCell 1 ⟨[1], [7], false⟩ = Except.ok c' ∧
      (∀ value, getBias c' 1 value = Except.ok ⟨[1], [7], value.valid⟩) ∧
      (∀ o' value, o' ≠ 1 → getBias c' o' value = getBias deconvCell o' value)) ∧
    (∃ c', setWeight deconvCell 1 2 ⟨[1, 1], [8], false⟩ = Except.ok c' ∧
      ∀ value, getWeight c' 1 2 value = Except.ok ⟨[1, 1], [8], value.valid⟩) :=
  have h := accessors_roundtrip deconvCell 1 ⟨[1], [7], false⟩ 7 1 2 ⟨[1, 1], [8], false⟩
    ⟨[1, 1], [6], false⟩ (1, 1, 0) (by decide) rfl (by decide) rfl ⟨rfl, rfl⟩
  ⟨by decide, by decide, rfl, h.1, h.2⟩

end DeconvCell_Frame

/-! ## Theorems: a forward pass of PoolCell_Frame followed by a backward pass -/

namespace PoolCell_Frame

theorem propagateLoop_trace (K : PoolCell_Frame_Kernels) (alpha : ℚ) (ins : List (Tensor ℚ)) :
    ∀ (k : Nat) (beta0 : ℚ) (offset : Nat) (c : PoolCell_Frame),
      (c.mPooling = Pooling.Max → k + ins.length ≤ c.mArgMax.length) →
      ForwardTrace K alpha ins k offset c (propagateLoop K alpha ins k beta0 offset c) := by
  induction ins with
  | nil =>
    intro k beta0 offset c _
    unfold ForwardTrace
    simp [propagateLoop]
  | cons input rest ih =>
    intro k beta0 offset c hA
    simp only [List.length_cons] at hA
    -- the loop after its first iteration, for the state `c1` left by that iteration
    have step : ∀ (c1 : PoolCell_Frame) (call0 : PoolCall),
        c1.mInputs = c.mInputs → c1.mPooling = c.mPooling → c1.mMapping = c.mMapping →
        c1.mPoolDesc = c.mPoolDesc → c1.mArgMax.length = c.mArgMax.length →
        (∀ j, j < k → c1.mArgMax[j]? = c.mArgMax[j]?) →
        (c.mPooling = Pooling.Max → ∃ beta outputs argMax,
          c1.mArgMax[k]? = some (K.forwardMax alpha input c.mPoolDesc beta outputs argMax
            false ⟨c.mMapping, offset, input.dimZ⟩).2) →
        call0.kernel = c.forwardKernel → call0.alpha = alpha → call0.flag = c.kernelFlag →
        call0.group = k → call0.rowsOffset = offset → call0.rowsNb = input.dimZ →
        ∀ beta1 : ℚ,
        ForwardTrace K alpha (input :: rest) k offset c
          ((propagateLoop K alpha rest (k + 1) beta1 ((offset + input.dimZ) % 2 ^ 32) c1).after
            call0) := by
      intro c1 call0 hin hpool hmap hdesc hlen hprev harg hker halpha hflag hgrp hoff hnb beta1
      obtain ⟨e1, e2, e3, e4, e5, e6, e7, e8, e9⟩ :=
        ih (k + 1) beta1 ((offset + input.dimZ) % 2 ^ 32) c1
          (by intro h; rw [hlen]; have := hA (hpool ▸ h); omega)
      refine ⟨e1, e2.trans hin, e3.trans hpool, e4.trans hmap, e5.trans hdesc, e6.trans hlen,
        ?_, ?_, ?_⟩
      · intro i inp hi
        cases i with
        | zero =>
          have : inp = input := by simpa using hi.symm
          subst this
          exact ⟨call0, by simp [Run.after], hker, halpha, hflag, by simpa using hgrp,
            by simpa [wrapOffsets] using hoff, hnb⟩
        | succ i =>
          obtain ⟨call, c1', c2, c3, c4, c5, c6, c7⟩ := e7 i inp (by simpa using hi)
          refine ⟨call, by simpa [Run.after] using c1', ?_, c3, ?_, ?_, ?_, c7⟩
          · rw [c2]; simp [forwardKernel, hpool]
          · rw [c4]; simp [kernelFlag, hpool]
          · rw [c5]; omega
          · rw [c6]; simp [wrapOffsets]
      · intro hmax i inp hi
        cases i with
        | zero =>
          have : inp = input := by simpa using hi.symm
          subst this
          obtain ⟨beta, outputs, argMax, h0⟩ := harg hmax
          refine ⟨beta, outputs, argMax, ?_⟩
          have := e9 k (Nat.lt_succ_self k)
          simp only [Run.after, Nat.add_zero, List.map_cons, wrapOffsets,
            List.getD_cons_zero] at this ⊢
          rw [this, h0]
        | succ i =>
          obtain ⟨beta, outputs, argMax, h0⟩ := e8 (hpool.trans hmax) i inp (by simpa using hi)
          refine ⟨beta, outputs, argMax, ?_⟩
          have hidx : k + (i + 1) = k + 1 + i := by omega
          simp only [Run.after, List.map_cons, wrapOffsets, List.getD_cons_succ, hidx]
          rw [h0, hdesc, hmap]
      · intro j hj
        simp only [Run.after]
        rw [e9 j (by omega), hprev j hj]
    cases hp : c.mPooling with
    | Max =>
      have hk : k < c.mArgMax.length := by have := hA hp; omega
      obtain ⟨am, ham⟩ : ∃ am, c.mArgMax[k]? = some am :=
        ⟨c.mArgMax[k], List.getElem?_eq_getElem hk⟩
      have hrun : propagateLoop K alpha (input :: rest) k beta0 offset c =
          (propagateLoop K alpha rest (k + 1) (if k > 0 then 1 else beta0)
            ((offset + input.dimZ) % 2 ^ 32)
            { c with
              mOutputs := (K.forwardMax alpha input c.mPoolDesc (if k > 0 then 1 else beta0)
                c.mOutputs am false ⟨c.mMapping, offset, input.dimZ⟩).1
              mArgMax := c.mArgMax.set k (K.forwardMax alpha input c.mPoolDesc
                (if k > 0 then 1 else beta0) c.mOutputs am false
                ⟨c.mMapping, offset, input.dimZ⟩).2 }).after
            ⟨PoolKernel.forwardMax, alpha, if k > 0 then 1 else beta0, k, false, offset,
              input.dimZ⟩ := by
        simp only [propagateLoop, hp, ham]
      rw [hrun]
      apply step
      · rfl
      · rfl
      · rfl
      · rfl
      · simp
      · intro j hj
        exact List.getElem?_set_ne (by omega)
      · intro _
        exact ⟨_, _, _, List.getElem?_set_self hk⟩
      · simp [forwardKernel, hp]
      · rfl
      · simp [kernelFlag, hp]
      · rfl
      · rfl
      · rfl
    | Average =>
      have hrun : propagateLoop K alpha (input :: rest) k beta0 offset c =
          (propagateLoop K alpha rest (k + 1) (if k > 0 then 1 else beta0)
            ((offset + input.dimZ) % 2 ^ 32)
            { c with
              mOutputs := K.forwardAverage alpha input c.mPoolDesc (if k > 0 then 1 else beta0)
                c.mOutputs true ⟨c.mMapping, offset, input.dimZ⟩ }).after
            ⟨PoolKernel.forwardAverage, alpha, if k > 0 then 1 else beta0, k, true, offset,
              input.dimZ⟩ := by
        simp only [propagateLoop, hp]
      rw [hrun]
      apply step
      · rfl
      · rfl
      · rfl
      · rfl
      · rfl
      · intro j _; rfl
      · intro h; rw [hp] at h; exact absurd h (by decide)
      · simp [forwardKernel, hp]
      · rfl
      · simp [kernelFlag, hp]
      · rfl
      · rfl
      · rfl

theorem backPropagateLoop_trace (K : PoolCell_Frame_Kernels) (alpha : ℚ)
    (ins : List (Tensor ℚ)) :
    ∀ (k offset : Nat) (c : PoolCell_Frame),
      k + ins.length ≤ c.mDiffOutputs.length →
      (c.mPooling = Pooling.Max → k + ins.length ≤ c.mArgMax.length) →
      BackwardTrace K alpha ins k offset c (backPropagateLoop K alpha ins k offset c) := by
  induction ins with
  | nil =>
    intro k offset c _ _
    unfold BackwardTrace
    simp [backPropagateLoop]
  | cons input rest ih =>
    intro k offset c hD hA
    simp only [List.length_cons] at hD hA
    have hk : k < c.mDiffOutputs.length := by omega
    obtain ⟨slot0, hslot0⟩ : ∃ t, c.mDiffOutputs[k]? = some t :=
      ⟨c.mDiffOutputs[k], List.getElem?_eq_getElem hk⟩
    have step : ∀ (d : Tensor ℚ) (call0 : PoolCall),
        (c.mPooling = Pooling.Max → ∃ slot argMax, c.mDiffOutputs[k]? = some slot ∧
          c.mArgMax[k]? = some argMax ∧
          d = K.backwardMax alpha c.mDiffInputs c.mPoolDesc (if slot.isValid then 1 else 0)
            slot argMax ⟨c.mMapping, offset, input.dimZ⟩) →
        call0.kernel = c.backwardKernel → call0.alpha = alpha → call0.flag = c.kernelFlag →
        call0.group = k → call0.rowsOffset = offset → call0.rowsNb = input.dimZ →
        BackwardTrace K alpha (input :: rest) k offset c
          ((backPropagateLoop K alpha rest (k + 1) ((offset + input.dimZ) % 2 ^ 32)
            { c with mDiffOutputs := c.mDiffOutputs.set k d.setValid }).after call0) := by
      intro d call0 hd hker halpha hflag hgrp hoff hnb
      obtain ⟨e1, e2, e3, e4⟩ := ih (k + 1) ((offset + input.dimZ) % 2 ^ 32)
        { c with mDiffOutputs := c.mDiffOutputs.set k d.setValid }
        (by simp only [List.length_set]; omega)
        (by intro h; have := hA h; show k + 1 + rest.length ≤ c.mArgMax.length; omega)
      refine ⟨e1, ?_, ?_, ?_⟩
      · intro i inp hi
        cases i with
        | zero =>
          have : inp = input := by simpa using hi.symm
          subst this
          exact ⟨call0, by simp [Run.after], hker, halpha, hflag, by simpa using hgrp,
            by simpa [wrapOffsets] using hoff, hnb⟩
        | succ i =>
          obtain ⟨call, c1, c2, c3, c4, c5, c6, c7⟩ := e2 i inp (by simpa using hi)
          refine ⟨call, by simpa [Run.after] using c1, ?_, c3, ?_, ?_, ?_, c7⟩
          · rw [c2]; simp [backwardKernel]
          · rw [c4]; simp [kernelFlag]
          · rw [c5]; omega
          · rw [c6]; simp [wrapOffsets]
      · intro hmax i inp hi
        cases i with
        | zero =>
          have : inp = input := by simpa using hi.symm
          subst this
          obtain ⟨slot, argMax, h1, h2, h3⟩ := hd hmax
          refine ⟨slot, argMax, by simpa using h1, by simpa using h2, ?_⟩
          have := e4 k (Nat.lt_succ_self k)
          simp only [Run.after, Nat.add_zero, List.map_cons, wrapOffsets,
            List.getD_cons_zero, List.getElem?_set_self hk] at this ⊢
          rw [this, h3]
        | succ i =>
          obtain ⟨slot, argMax, h1, h2, h3⟩ := e3 hmax i inp (by simpa using hi)
          have hidx : k + (i + 1) = k + 1 + i := by omega
          refine ⟨slot, argMax, ?_, ?_, ?_⟩
          · rw [hidx, ← h1]
            exact (List.getElem?_set_ne (by omega)).symm
          · rw [hidx]; exact h2
          · simp only [Run.after, List.map_cons, wrapOffsets, List.getD_cons_succ, hidx]
            exact h3
      · intro j hj
        simp only [Run.after]
        rw [e4 j (by omega)]
        exact List.getElem?_set_ne (by omega)
    cases hp : c.mPooling with
    | Max =>
      have hka : k < c.mArgMax.length := by have := hA hp; omega
      obtain ⟨am, ham⟩ : ∃ am, c.mArgMax[k]? = some am :=
        ⟨c.mArgMax[k], List.getElem?_eq_getElem hka⟩
      have hrun : backPropagateLoop K alpha (input :: rest) k offset c =
          (backPropagateLoop K alpha rest (k + 1) ((offset + input.dimZ) % 2 ^ 32)
            { c with
              mDiffOutputs := c.mDiffOutputs.set k
                (K.backwardMax alpha c.mDiffInputs c.mPoolDesc (if slot0.isValid then 1 else 0)
                  slot0 am ⟨c.mMapping, offset, input.dimZ⟩).setValid }).after
            ⟨PoolKernel.backwardMax, alpha, if slot0.isValid then 1 else 0, k, false, offset,
              input.dimZ⟩ := by
        simp only [backPropagateLoop, hslot0, hp, ham]
      rw [hrun]
      apply step
      · intro _
        exact ⟨slot0, am, hslot0, ham, rfl⟩
      · simp [backwardKernel, hp]
      · rfl
      · simp [kernelFlag, hp]
      · rfl
      · rfl
      · rfl
    | Average =>
      have hrun : backPropagateLoop K alpha (input :: rest) k offset c =
          (backPropagateLoop K alpha rest (k + 1) ((offset + input.dimZ) % 2 ^ 32)
            { c with
              mDiffOutputs := c.mDiffOutputs.set k
                (K.backwardAverage alpha c.mDiffInputs c.mPoolDesc
                  (if slot0.isValid then 1 else 0) slot0 true
                  ⟨c.mMapping, offset, input.dimZ⟩).setValid }).after
            ⟨PoolKernel.backwardAverage, alpha, if slot0.isValid then 1 else 0, k, true, offset,
              input.dimZ⟩ := by
        simp only [backPropagateLoop, hslot0, hp]
      rw [hrun]
      apply step
      · intro h; rw [hp] at h; exact absurd h (by decide)
      · simp [backwardKernel, hp]
      · rfl
      · simp [kernelFlag, hp]
      · rfl
      · rfl
      · rfl

theorem propagate_trace (K : PoolCell_Frame_Kernels) (F : Cell_Frame) (c : PoolCell_Frame)
    (inference : Bool) (hinit : c.Initialized) :
    ForwardTrace K 1 c.mInputs 0 0 c (propagate K F c inference) := by
  have h := propagateLoop_trace K 1 c.mInputs 0 0 0 c (by intro h; simpa using hinit h)
  obtain ⟨e1, e2, e3, e4, e5, e6, e7, e8, e9⟩ := h
  have hrun : propagate K F c inference =
      { propagateLoop K 1 c.mInputs 0 0 0 c with
        state :=
          { (propagateLoop K 1 c.mInputs 0 0 0 c).state with
            mOutputs := F.propagate inference (propagateLoop K 1 c.mInputs 0 0 0 c).state.mOutputs
            mDiffInputs := (propagateLoop K 1 c.mInputs 0 0 0 c).state.mDiffInputs.clearValid } } := by
    simp only [propagate, e1]
  rw [hrun]
  exact ⟨e1, e2, e3, e4, e5, e6, e7, e8, e9⟩

theorem backPropagate_trace (K : PoolCell_Frame_Kernels) (F : Cell_Frame) (c : PoolCell_Frame)
    (hne : c.mDiffOutputs ≠ []) (hslots : c.mInputs.length ≤ c.mDiffOutputs.length)
    (hinit : c.Initialized) :
    BackwardTrace K 1 c.mInputs 0 0
      { c with mDiffInputs := F.backPropagate c.mOutputs c.mDiffInputs }
      (backPropagate K F c) := by
  have hemp : ¬ c.mDiffOutputs.isEmpty = true := fun h => hne (List.isEmpty_iff.mp h)
  have hrun : backPropagate K F c = backPropagateLoop K 1 c.mInputs 0 0
      { c with mDiffInputs := F.backPropagate c.mOutputs c.mDiffInputs } := by
    simp [backPropagate, hemp]
  rw [hrun]
  exact backPropagateLoop_trace K 1 c.mInputs 0 0 _ (by simpa using hslots)
    (by intro h; simpa using hinit h)

theorem routedGradient_set (i : Nat) (v : ℚ) :
    ∀ (gs : List ℚ) (as : List Nat) (e : Nat), as[e]? ≠ some i →
      routedGradient (gs.set e v) as i = routedGradient gs as i := by
  intro gs
  induction gs with
  | nil => intro as e _; rfl
  | cons g gs ih =>
    intro as e h
    cases as with
    | nil => cases e <;> rfl
    | cons a as =>
      cases e with
      | zero =>
        have ha : a ≠ i := by simpa using h
        simp [routedGradient, ha]
      | succ e =>
        have := ih as e (by simpa using h)
        simp [routedGradient, this]

theorem backwardMaxSpec_getElem? (alpha beta : ℚ) (diffInputs diffOutput : Tensor ℚ)
    (desc : PoolDesc) (argMax : Tensor Nat) (rows : MappingRows) (i : Nat) (old : ℚ)
    (h : diffOutput.data[i]? = some old) :
    (backwardMaxSpec alpha diffInputs desc beta diffOutput argMax rows).setValid.data[i]? =
      some (alpha * routedGradient diffInputs.data argMax.data i + beta * old) := by
  have hi : i < diffOutput.data.length := by
    by_contra hn
    rw [List.getElem?_eq_none (by omega)] at h
    cases h
  simp [backwardMaxSpec, Tensor.setValid, List.getElem?_zipWith, List.getElem?_range hi, h]

theorem forward_then_backward (K : PoolCell_Frame_Kernels) (F : Cell_Frame)
    (c : PoolCell_Frame) (inference : Bool) (dI : Tensor ℚ) (dO : List (Tensor ℚ))
    (hmax : c.mPooling = Pooling.Max) (hinit : c.Initialized)
    (hslots : dO.length = c.mInputs.length) (k : Nat) (input : Tensor ℚ)
    (hk : c.mInputs[k]? = some input) :
    ∃ (offset : Nat) (beta1 : ℚ) (outputs : Tensor ℚ) (argMax0 : Tensor Nat) (slot : Tensor ℚ),
      (propagate K F c inference).state.mArgMax[k]? = some
        (K.forwardMax 1 input c.mPoolDesc beta1 outputs argMax0 false
          ⟨c.mMapping, offset, input.dimZ⟩).2 ∧
      dO[k]? = some slot ∧
      (backPropagate K F
        { (propagate K F c inference).state with mDiffInputs := dI, mDiffOutputs := dO }
        ).state.mDiffOutputs[k]? = some
          (K.backwardMax 1 (F.backPropagate (propagate K F c inference).state.mOutputs dI)
            c.mPoolDesc (if slot.isValid then 1 else 0) slot
            (K.forwardMax 1 input c.mPoolDesc beta1 outputs argMax0 false
              ⟨c.mMapping, offset, input.dimZ⟩).2
            ⟨c.mMapping, offset, input.dimZ⟩).setValid := by
  obtain ⟨-, f2, f3, f4, f5, f6, -, f8, -⟩ := propagate_trace K F c inference hinit
  have hklt : k < c.mInputs.length := by
    by_contra hn
    rw [List.getElem?_eq_none (by omega)] at hk
    cases hk
  have hne : dO ≠ [] := by
    intro h0
    rw [h0] at hslots
    simp at hslots
    omega
  have hinit2 : Initialized
      { (propagate K F c inference).state with mDiffInputs := dI, mDiffOutputs := dO } := by
    intro _
    show (propagate K F c inference).state.mInputs.length ≤
      (propagate K F c inference).state.mArgMax.length
    rw [f2, f6]
    exact hinit hmax
  obtain ⟨-, -, b3, -⟩ := backPropagate_trace K F
    { (propagate K F c inference).state with mDiffInputs := dI, mDiffOutputs := dO }
    hne (by show (propagate K F c inference).state.mInputs.length ≤ dO.length; rw [f2]; omega)
    hinit2
  obtain ⟨beta1, outputs, argMax0, hfa⟩ := f8 hmax k input hk
  obtain ⟨slot, argMax, hs, ha, hout⟩ := b3 (by show (propagate K F c inference).state.mPooling = _; rw [f3]; exact hmax)
    k input (by show (propagate K F c inference).state.mInputs[k]? = _; rw [f2]; exact hk)
  simp only [Nat.zero_add] at hfa hs ha hout
  have ha2 : (propagate K F c inference).state.mArgMax[k]? = some argMax := ha
  rw [hfa] at ha2
  have hae := Option.some.inj ha2
  refine ⟨_, beta1, outputs, argMax0, slot, hfa, hs, ?_⟩
  rw [hout, ← hae]
  simp only [f2, f4, f5]

/-- C19. For every initialised `PoolCell_Frame` in `Max` mode with one upstream gradient
slot per input group, a `propagate` followed by a `backPropagate` (on any incoming
gradient) both return normally, and for every input group `k` the argmax tensor handed to
the backward max kernel is the one the forward max kernel returned for group `k` and
`propagate` left in `mArgMax[k]`, with the same mapping rows. When the backward max kernel
scatters as the specification describes, element `i` of the new gradient slot is the sum
of the incoming gradients whose recorded argmax is `i` (scaled and added to the old
content), and an output element whose recorded argmax is not `i` contributes nothing. -/
theorem max_backward_uses_forward_argmax (K : PoolCell_Frame_Kernels) (F : Cell_Frame)
    (c : PoolCell_Frame) (inference : Bool) (dI : Tensor ℚ) (dO : List (Tensor ℚ))
    (hmax : c.mPooling = Pooling.Max) (hinit : c.Initialized)
    (hslots : dO.length = c.mInputs.length) :
    ArgMaxHandedOver K F c (propagate K F c inference)
        (backPropagate K F
          { (propagate K F c inference).state with mDiffInputs := dI, mDiffOutputs := dO })
        dI dO ∧
      (K.backwardMax = backwardMaxSpec →
        GradientRouted F c (propagate K F c inference)
          (backPropagate K F
            { (propagate K F c inference).state with mDiffInputs := dI, mDiffOutputs := dO })
          dI dO) := by
  obtain ⟨f1, f2, -, -, -, f6, -, -, -⟩ := propagate_trace K F c inference hinit
  have hbok : (backPropagate K F
      { (propagate K F c inference).state with mDiffInputs := dI, mDiffOutputs := dO }).ok := by
    by_cases h0 : dO = []
    · simp [backPropagate, h0, Run.ok]
    · exact (backPropagate_trace K F
        { (propagate K F c inference).state with mDiffInputs := dI, mDiffOutputs := dO }
        h0 (by show (propagate K F c inference).state.mInputs.length ≤ dO.length
               rw [f2]; omega)
        (by intro _
            show (propagate K F c inference).state.mInputs.length ≤
              (propagate K F c inference).state.mArgMax.length
            rw [f2, f6]; exact hinit hmax)).1
  refine ⟨⟨f1, hbok, ?_⟩, ?_⟩
  · intro k input hk
    obtain ⟨offset, beta1, outputs, argMax0, slot, h1, h2, h3⟩ :=
      forward_then_backward K F c inference dI dO hmax hinit hslots k input hk
    exact ⟨⟨c.mMapping, offset, input.dimZ⟩, _, beta1, _, outputs, argMax0, slot, rfl, rfl,
      rfl, h1, h2, h3⟩
  · intro hK k input hk
    obtain ⟨offset, beta1, outputs, argMax0, slot, h1, h2, h3⟩ :=
      forward_then_backward K F c inference dI dO hmax hinit hslots k input hk
    refine ⟨_, slot, _, if slot.isValid then 1 else 0, h1, h2, h3, ?_⟩
    intro i old hold
    refine ⟨?_, ?_⟩
    · rw [hK]
      exact backwardMaxSpec_getElem? 1 _ _ slot _ _ _ i old hold
    · intro e v he
      exact routedGradient_set i v _ _ e he

/-- C19, concrete run: `smallCell` with the scattering kernels and the incoming gradient
`7` satisfies the hypotheses; the forward pass records element `1` as argmax, and the
backward pass leaves the gradient `7` at element `1` of both slots and nowhere else. -/
theorem max_backward_uses_forward_argmax_witness :
    smallCell.mPooling = Pooling.Max ∧ smallCell.Initialized ∧
      smallCell.mDiffOutputs.length = smallCell.mInputs.length ∧
      ArgMaxHandedOver scatterKernels noActivation smallCell
        (propagate scatterKernels noActivation smallCell false)
        (backPropagate scatterKernels noActivation
          { (propagate scatterKernels noActivation smallCell false).state with
            mDiffInputs := sevenGradient, mDiffOutputs := smallCell.mDiffOutputs })
        sevenGradient smallCell.mDiffOutputs ∧
      GradientRouted noActivation smallCell
        (propagate scatterKernels noActivation smallCell false)
        (backPropagate scatterKernels noActivation
          { (propagate scatterKernels noActivation smallCell false).state with
            mDiffInputs := sevenGradient, mDiffOutputs := smallCell.mDiffOutputs })
        sevenGradient smallCell.mDiffOutputs ∧
      (backPropagate scatterKernels noActivation
          { (propagate scatterKernels noActivation smallCell false).state with
            mDiffInputs := sevenGradient, mDiffOutputs := smallCell.mDiffOutputs }
        ).state.mDiffOutputs.map Tensor.data = [[0, 7], [0, 7, 0]] :=
  ⟨rfl, by decide, rfl,
    (max_backward_uses_forward_argmax scatterKernels noActivation smallCell false sevenGradient
      smallCell.mDiffOutputs rfl (by decide) rfl).1,
    (max_backward_uses_forward_argmax scatterKernels noActivation smallCell false sevenGradient
      smallCell.mDiffOutputs rfl (by decide) rfl).2 rfl,
    by
      simp [backPropagate, backPropagateLoop, propagate, propagateLoop, smallCell,
        scatterKernels, idleKernels, noActivation, sevenGradient, backwardMaxSpec,
        routedGradient, Run.after, Tensor.isValid, Tensor.setValid, Tensor.clearValid,
        constTensor, Tensor.computeSize, Tensor.dimZ, List.range_succ]⟩

end PoolCell_Frame

/-! ## Theorems: Utils -/

namespace Utils

theorem round_int (x : ℚ) (rule : Rounding) : ∃ n : ℤ, round x rule = n := by
  unfold round
  cases rule
  · exact ⟨_, rfl⟩
  · exact ⟨_, rfl⟩
  · by_cases h : x < 0
    · exact ⟨⌈x - 1 / 2⌉, by simp only [h, if_true]⟩
    · exact ⟨⌊x + 1 / 2⌋, by simp only [h, if_false]⟩
  · by_cases h : x < 0
    · exact ⟨⌊x + 1 / 2⌋, by simp only [h, if_true]⟩
    · exact ⟨⌈x - 1 / 2⌉, by simp only [h, if_false]⟩

theorem round_near (x : ℚ) (rule : Rounding) : |round x rule - x| ≤ 1 / 2 := by
  have hf1 := Int.floor_le (x + 1 / 2)
  have hf2 := Int.lt_floor_add_one (x + 1 / 2)
  have hc1 := Int.le_ceil (x - 1 / 2)
  have hc2 := Int.ceil_lt_add_one (x - 1 / 2)
  unfold round
  rw [abs_le]
  cases rule
  · constructor <;> simp only <;> linarith
  · constructor <;> simp only <;> linarith
  · by_cases h : x < 0
    · simp only [h, if_true]; constructor <;> linarith
    · simp only [h, if_false]; constructor <;> linarith
  · by_cases h : x < 0
    · simp only [h, if_true]; constructor <;> linarith
    · simp only [h, if_false]; constructor <;> linarith

theorem round_away_neg (x : ℚ) :
    round (-x) Rounding.HalfAwayFromZero = - round x Rounding.HalfAwayFromZero := by
  unfold round
  rcases lt_trichotomy x 0 with h | h | h
  · have h1 : ¬ (-x < 0) := by linarith
    simp only [h, h1, if_true, if_false]
    have : -x + 1 / 2 = -(x - 1 / 2) := by ring
    rw [this, Int.floor_neg]
    push_cast
    ring
  · subst h
    norm_num
  · have h1 : ¬ (x < 0) := by linarith
    have h2 : -x < 0 := by linarith
    simp only [h1, h2, if_true, if_false]
    have : -x - 1 / 2 = -(x + 1 / 2) := by ring
    rw [this, Int.ceil_neg]
    push_cast
    ring

theorem round_away_half (n : ℤ) :
    round ((n : ℚ) + 1 / 2) Rounding.HalfAwayFromZero = if 0 ≤ n then (n : ℚ) + 1 else (n : ℚ) := by
  unfold round
  by_cases h : 0 ≤ n
  · have hq : (0 : ℚ) ≤ n := by exact_mod_cast h
    have h1 : ¬ ((n : ℚ) + 1 / 2 < 0) := by linarith
    simp only [h1, h, if_true, if_false]
    have : (n : ℚ) + 1 / 2 + 1 / 2 = ((n + 1 : ℤ) : ℚ) := by push_cast; ring
    rw [this, Int.floor_intCast]
    push_cast; ring
  · have hn : n ≤ -1 := by omega
    have hq : (n : ℚ) ≤ -1 := by exact_mod_cast hn
    have h1 : (n : ℚ) + 1 / 2 < 0 := by linarith
    simp only [h1, h, if_true, if_false]
    have : (n : ℚ) + 1 / 2 - 1 / 2 = ((n : ℤ) : ℚ) := by ring
    rw [this, Int.ceil_intCast]


/-- C27. For every number `x`, in exact arithmetic, `Utils::round(x)` with the rule
`HalfAwayFromZero` is the symmetrical round: the result is an integer, it differs from `x`
by at most one half, a value `n + 1/2` halfway between the integers `n` and `n + 1` is
rounded to the one farther from zero (`n + 1` when positive, `n` when negative, of
absolute value `|x| + 1/2`), and `round(-x) = -round(x)`. -/
theorem round_symmetric (x : ℚ) :
    (∃ n : ℤ, round x Rounding.HalfAwayFromZero = n) ∧
    |round x Rounding.HalfAwayFromZero - x| ≤ 1 / 2 ∧
    (∀ n : ℤ, x = (n : ℚ) + 1 / 2 →
      round x Rounding.HalfAwayFromZero = (if 0 < x then (n : ℚ) + 1 else (n : ℚ)) ∧
      |round x Rounding.HalfAwayFromZero| = |x| + 1 / 2) ∧
    round (-x) Rounding.HalfAwayFromZero = - round x Rounding.HalfAwayFromZero := by
  refine ⟨round_int x _, round_near x _, ?_, round_away_neg x⟩
  · intro n hx
    subst hx
    rw [round_away_half]
    by_cases h : 0 ≤ n
    · have hq : (0 : ℚ) ≤ n := by exact_mod_cast h
      have h1 : (0 : ℚ) < (n : ℚ) + 1 / 2 := by linarith
      simp only [h, h1, if_true]
      refine ⟨trivial, ?_⟩
      rw [abs_of_nonneg (by linarith), abs_of_pos h1]
      ring
    · have hn : n ≤ -1 := by omega
      have hq : (n : ℚ) ≤ -1 := by exact_mod_cast hn
      have h1 : ¬ ((0 : ℚ) < (n : ℚ) + 1 / 2) := by linarith
      simp only [h, h1, if_false]
      refine ⟨trivial, ?_⟩
      rw [abs_of_nonpos (by linarith), abs_of_nonpos (by linarith)]
      ring

section
variable {F : Type} [LinearOrderedField F]

theorem meanLoop_eq (rest : List F) :
    ∀ (k : Nat) (m : F), 1 ≤ k → 0 < k - 1 + rest.length →
      meanLoop rest k m = (((k - 1 : Nat) : F) * m + rest.sum) / ((k - 1 + rest.length : Nat) : F) := by
  induction rest with
  | nil =>
    intro k m hk hpos
    have hk1 : (((k - 1 : Nat) : F)) ≠ 0 := by
      have : 0 < k - 1 := by simpa using hpos
      exact_mod_cast this.ne'
    show m = (((k - 1 : Nat) : F) * m + 0) / ((k - 1 + 0 : Nat) : F)
    rw [add_zero, Nat.add_zero, mul_div_cancel_left₀ m hk1]
  | cons x rest ih =>
    intro k m hk _
    have hkq : ((k : Nat) : F) ≠ 0 := by
      have : 0 < k := by omega
      exact_mod_cast this.ne'
    simp only [meanLoop]
    rw [ih (k + 1) _ (by omega) (by simp; omega)]
    have e1 : k + 1 - 1 + rest.length = k - 1 + (x :: rest).length := by
      simp only [List.length_cons]; omega
    rw [e1]
    congr 1
    have e2 : ((k + 1 - 1 : Nat) : F) = (k : F) := by simp
    have e3 : ((k - 1 : Nat) : F) = (k : F) - 1 := by
      rw [Nat.cast_sub hk]; simp
    rw [e2, e3, List.sum_cons]
    field_simp
    ring

theorem meanLoop_start (x : List F) (hne : x ≠ []) : meanLoop x 1 0 = arithmeticMean x := by
  have hlen : 0 < x.length := List.length_pos.mpr hne
  rw [meanLoop_eq x 1 0 (le_refl 1) (by simpa using hlen)]
  simp [arithmeticMean]

/-- C23. For every non-empty sequence `x`, `Utils::mean`, computed in exact arithmetic,
returns the arithmetic mean `(x_1 + ... + x_n) / n`; for the empty sequence it fails with
a runtime error. -/
theorem mean_eq_arithmeticMean (x : List F) (hne : x ≠ []) :
    mean x = Except.ok (arithmeticMean x) ∧
    mean ([] : List F) = Except.error
      (UtilsFailure.runtime_error "Utils::mean(): number of elements must be > 0.") := by
  refine ⟨?_, rfl⟩
  have hemp : x.isEmpty = false := by
    cases x with
    | nil => exact absurd rfl hne
    | cons _ _ => rfl
  simp only [mean, hemp, meanLoop_start x hne]
  rfl

theorem sumSquaredDeviations_expand (x : List F) (c : F) :
    sumSquaredDeviations x c =
      (x.map fun xi => xi ^ 2).sum - 2 * c * x.sum + (x.length : F) * c ^ 2 := by
  unfold sumSquaredDeviations
  induction x with
  | nil => simp
  | cons a x ih =>
    simp only [List.map_cons, List.sum_cons, List.length_cons, ih]
    push_cast
    ring

theorem meanStdDevLoop_eq (rest : List F) :
    ∀ (k : Nat) (m M2 : F), 1 ≤ k →
      (meanStdDevLoop rest k m M2).1 = meanLoop rest k m ∧
      (meanStdDevLoop rest k m M2).2 =
        M2 + (rest.map fun xi => xi ^ 2).sum + ((k : F) - 1) * m ^ 2
          - ((k : F) - 1 + (rest.length : F)) * (meanLoop rest k m) ^ 2 := by
  induction rest with
  | nil =>
    intro k m M2 _
    simp [meanStdDevLoop, meanLoop]
  | cons x rest ih =>
    intro k m M2 hk
    have hkq : ((k : Nat) : F) ≠ 0 := by
      have : 0 < k := by omega
      exact_mod_cast this.ne'
    obtain ⟨h1, h2⟩ := ih (k + 1) (m + (x - m) / k)
      (M2 + (x - m) * (x - (m + (x - m) / k))) (by omega)
    simp only [meanStdDevLoop, meanLoop]
    refine ⟨h1, ?_⟩
    rw [h2]
    simp only [List.map_cons, List.sum_cons, List.length_cons]
    push_cast
    field_simp
    ring

theorem arithmeticMean_mul_length (x : List F) (hne : x ≠ []) :
    (x.length : F) * arithmeticMean x = x.sum := by
  have hlen : (x.length : F) ≠ 0 := by
    have : 0 < x.length := List.length_pos.mpr hne
    exact_mod_cast this.ne'
  unfold arithmeticMean
  field_simp

theorem meanStdDevLoop_start (x : List F) (hne : x ≠ []) :
    meanStdDevLoop x 1 0 0 = (arithmeticMean x, sumSquaredDeviations x (arithmeticMean x)) := by
  obtain ⟨h1, h2⟩ := meanStdDevLoop_eq x 1 0 0 (le_refl 1)
  rw [meanLoop_start x hne] at h1 h2
  have hs := arithmeticMean_mul_length x hne
  refine Prod.ext h1 ?_
  rw [h2, sumSquaredDeviations_expand]
  show _ = _
  simp only
  have : 2 * arithmeticMean x * x.sum
      = 2 * ((x.length : F) * arithmeticMean x) * arithmeticMean x := by
    rw [hs]; ring
  rw [this]
  push_cast
  ring

theorem sumSquaredDeviations_nonneg (x : List F) (c : F) : 0 ≤ sumSquaredDeviations x c := by
  unfold sumSquaredDeviations
  apply List.sum_nonneg
  intro v hv
  obtain ⟨xi, -, rfl⟩ := List.mem_map.mp hv
  positivity

theorem variance_nonneg (x : List F) (unbiased : Bool) : 0 ≤ variance x unbiased := by
  unfold variance
  apply div_nonneg (sumSquaredDeviations_nonneg _ _)
  split <;> exact Nat.cast_nonneg _

/-- C24. With an exact square root, `Utils::meanStdDev` on a sequence `x` of `n` numbers,
computed in exact arithmetic, fails with a runtime error exactly when `x` is empty or when
`n = 1` and `unbiased` is true; otherwise it returns `(mu, s)` where `mu` is the arithmetic
mean of `x`, `s ≥ 0` and `s^2` is the sum of the squared deviations from `mu` divided by
`n - 1` when `unbiased` is true and by `n` when it is false. -/
theorem meanStdDev_welford (sqrt : F → F) (x : List F) (unbiased : Bool)
    (hsqrt : ExactSqrt sqrt) :
    ((∃ what, meanStdDev sqrt x unbiased = Except.error (UtilsFailure.runtime_error what)) ↔
      (x = [] ∨ (x.length = 1 ∧ unbiased = true))) ∧
    (x ≠ [] → (unbiased = true → 2 ≤ x.length) →
      ∃ s : F, meanStdDev sqrt x unbiased = Except.ok (arithmeticMean x, s) ∧
        0 ≤ s ∧ s ^ 2 = variance x unbiased) := by
  constructor
  · constructor
    · rintro ⟨what, h⟩
      by_contra hcon
      push_neg at hcon
      obtain ⟨hne, hsz⟩ := hcon
      have hemp : x.isEmpty = false := by
        cases x with
        | nil => exact absurd rfl hne
        | cons _ _ => rfl
      have hsz2 : ¬ (x.length = 1 ∧ unbiased = true) := fun hh => hsz hh.1 hh.2
      simp [meanStdDev, hemp, hsz2] at h
    · rintro (h | ⟨h1, h2⟩)
      · subst h
        exact ⟨_, rfl⟩
      · have hemp : x.isEmpty = false := by
          cases x with
          | nil => simp at h1
          | cons _ _ => rfl
        exact ⟨"Utils::meanStdDev(): number of elements must be > 1 for unbiased.",
          by simp [meanStdDev, hemp, h1, h2]⟩
  · intro hne hsize
    have hemp : x.isEmpty = false := by
      cases x with
      | nil => exact absurd rfl hne
      | cons _ _ => rfl
    have hsz2 : ¬ (x.length = 1 ∧ unbiased = true) := by
      rintro ⟨h1, h2⟩
      have := hsize h2
      omega
    obtain ⟨hs1, hs2⟩ := hsqrt _ (variance_nonneg x unbiased)
    refine ⟨sqrt (variance x unbiased), ?_, hs1, hs2⟩
    simp only [meanStdDev, hemp, hsz2, if_false, Bool.false_eq_true, meanStdDevLoop_start x hne,
      variance]
    cases unbiased <;> simp

end

/-- C23, concrete run: the mean of the fractions `1, 2, 6` is `3`. -/
theorem mean_eq_arithmeticMean_witness :
    ([1, 2, 6] : List ℚ) ≠ [] ∧ mean ([1, 2, 6] : List ℚ) = Except.ok (arithmeticMean [1, 2, 6]) ∧
    arithmeticMean ([1, 2, 6] : List ℚ) = 3 :=
  ⟨by simp, (mean_eq_arithmeticMean ([1, 2, 6] : List ℚ) (by simp)).1,
    by norm_num [arithmeticMean]⟩

/-- C24, concrete run over the real numbers with their square root: the sequence
`0, 2, 4` has mean `2` and unbiased variance `4`. -/
theorem meanStdDev_welford_witness :
    ExactSqrt Real.sqrt ∧ ([0, 2, 4] : List ℝ) ≠ [] ∧ 2 ≤ ([0, 2, 4] : List ℝ).length ∧
    (∃ s : ℝ, meanStdDev Real.sqrt [0, 2, 4] true = Except.ok (arithmeticMean [0, 2, 4], s) ∧
      0 ≤ s ∧ s ^ 2 = variance [0, 2, 4] true) ∧
    arithmeticMean ([0, 2, 4] : List ℝ) = 2 ∧ variance ([0, 2, 4] : List ℝ) true = 4 := by
  have hsqrt : ExactSqrt Real.sqrt := fun v hv => ⟨Real.sqrt_nonneg v, Real.sq_sqrt hv⟩
  have hm : arithmeticMean ([0, 2, 4] : List ℝ) = 2 := by norm_num [arithmeticMean]
  have hv : variance ([0, 2, 4] : List ℝ) true = 4 := by
    norm_num [variance, sumSquaredDeviations, hm]
  exact ⟨hsqrt, by simp, by simp,
    (meanStdDev_welford Real.sqrt [0, 2, 4] true hsqrt).2 (by simp) (fun _ => by simp), hm, hv⟩

theorem fmod_multiples (g : ℚ) (hg : 0 < g) (r s : Nat) (hr : 0 < r) :
    fmod ((s : ℚ) * g) ((r : ℚ) * g) = some (((s % r : Nat) : ℚ) * g) := by
  have hrq : (0 : ℚ) < r := by exact_mod_cast hr
  have hrg : (r : ℚ) * g ≠ 0 := (mul_pos hrq hg).ne'
  have hdiv : (s : ℚ) * g / ((r : ℚ) * g) = (s : ℚ) / r := by
    field_simp
    ring
  have hnn : (0 : ℚ) ≤ (s : ℚ) / r := div_nonneg (Nat.cast_nonneg _) hrq.le
  have hfloor : ⌊(s : ℚ) / r⌋ = ((s / r : Nat) : ℤ) := by
    rw [Int.floor_eq_iff]
    have hdm : (s : ℚ) = (r : ℚ) * ((s / r : Nat) : ℚ) + ((s % r : Nat) : ℚ) := by
      exact_mod_cast (Nat.div_add_mod s r).symm
    have hmod : ((s % r : Nat) : ℚ) < r := by exact_mod_cast Nat.mod_lt s hr
    have hmod0 : (0 : ℚ) ≤ ((s % r : Nat) : ℚ) := Nat.cast_nonneg _
    simp only [Int.cast_natCast]
    constructor
    · rw [le_div_iff₀ hrq]
      nlinarith
    · rw [div_lt_iff₀ hrq]
      nlinarith
  unfold fmod
  rw [if_neg hrg, hdiv, if_pos hnn, hfloor]
  congr 1
  have hdm : (s : ℚ) = (r : ℚ) * ((s / r : Nat) : ℚ) + ((s % r : Nat) : ℚ) := by
    exact_mod_cast (Nat.div_add_mod s r).symm
  simp only [Int.cast_natCast]
  rw [hdm]
  ring

theorem gcdLoop_multiples (g p : ℚ) (hg : 0 < g) (hp0 : 0 ≤ p) (hpg : p < g) :
    ∀ (fuel r s : Nat), 0 < r → r ≤ fuel →
      gcdLoop p fuel ((r : ℚ) * g) ((s : ℚ) * g) = some ((Nat.gcd r s : ℚ) * g) := by
  intro fuel
  induction fuel with
  | zero => intro r s hr hf; omega
  | succ fuel ih =>
    intro r s hr hf
    simp only [gcdLoop, fmod_multiples g hg r s hr]
    by_cases hz : s % r = 0
    · have hnot : ¬ (|((s % r : Nat) : ℚ) * g| > p) := by
        rw [hz]; simp; exact hp0
      rw [if_neg hnot]
      have : Nat.gcd r s = r := Nat.gcd_eq_left (Nat.dvd_of_mod_eq_zero hz)
      rw [this]
    · have hpos : 0 < s % r := Nat.pos_of_ne_zero hz
      have hq : (1 : ℚ) ≤ ((s % r : Nat) : ℚ) := by exact_mod_cast hpos
      have hbig : |((s % r : Nat) : ℚ) * g| > p := by
        rw [abs_of_nonneg (by positivity)]
        nlinarith
      rw [if_pos hbig]
      have hlt : s % r < r := Nat.mod_lt s hr
      rw [ih (s % r) r hpos (by omega)]
      rw [Nat.gcd_rec r s]


theorem gcd_multiples (g p : ℚ) (hg : 0 < g) (hp0 : 0 ≤ p) (hpg : p < g) (N M fuel : Nat)
    (hN : 0 < N) (hM : 0 < M) (hfuel : min N M ≤ fuel) :
    gcd fuel ((N : ℚ) * g) ((M : ℚ) * g) p = some ((Nat.gcd N M : ℚ) * g) := by
  unfold gcd
  rcases le_total N M with h | h
  · have hq : (N : ℚ) * g ≤ (M : ℚ) * g :=
      mul_le_mul_of_nonneg_right (by exact_mod_cast h) hg.le
    rw [min_eq_left hq, max_eq_right hq]
    exact gcdLoop_multiples g p hg hp0 hpg fuel N M hN (by rw [min_eq_left h] at hfuel; exact hfuel)
  · have hq : (M : ℚ) * g ≤ (N : ℚ) * g :=
      mul_le_mul_of_nonneg_right (by exact_mod_cast h) hg.le
    rw [min_eq_right hq, max_eq_left hq, Nat.gcd_comm N M]
    exact gcdLoop_multiples g p hg hp0 hpg fuel M N hM (by rw [min_eq_right h] at hfuel; exact hfuel)

/-- C26. For every `g > 0`, all positive integers `N` and `M` and every precision `p`
with `0 ≤ p < g`, `Utils::gcd(N*g, M*g, p)`, computed in exact arithmetic, ends after at
most `min N M` runs of the body of its loop and returns `gcd(N, M) * g`, of which `N*g` and
`M*g` are integer multiples; for `g = 1` and a precision below 1 it returns the greatest
common divisor of `N` and `M`. -/
theorem gcd_of_multiples (g p : ℚ) (N M fuel : Nat) (hg : 0 < g) (hp : 0 ≤ p ∧ p < g)
    (hN : 0 < N) (hM : 0 < M) (hfuel : min N M ≤ fuel) :
    gcd fuel ((N : ℚ) * g) ((M : ℚ) * g) p = some ((Nat.gcd N M : ℚ) * g) ∧
    (∃ n m : ℤ, (N : ℚ) * g = n * ((Nat.gcd N M : ℚ) * g) ∧
      (M : ℚ) * g = m * ((Nat.gcd N M : ℚ) * g)) ∧
    (∀ p1 : ℚ, 0 ≤ p1 → p1 < 1 → gcd fuel N M p1 = some (Nat.gcd N M : ℚ)) := by
  refine ⟨gcd_multiples g p hg hp.1 hp.2 N M fuel hN hM hfuel, ?_, ?_⟩
  · obtain ⟨n, hn⟩ := Nat.gcd_dvd_left N M
    obtain ⟨m, hm⟩ := Nat.gcd_dvd_right N M
    refine ⟨n, m, ?_, ?_⟩
    · have : (N : ℚ) = (Nat.gcd N M : ℚ) * n := by exact_mod_cast hn
      rw [Int.cast_natCast]
      nth_rewrite 1 [this]
      ring
    · have : (M : ℚ) = (Nat.gcd N M : ℚ) * m := by exact_mod_cast hm
      rw [Int.cast_natCast]
      nth_rewrite 1 [this]
      ring
  · intro p1 h0 h1
    have := gcd_multiples 1 p1 one_pos h0 h1 N M fuel hN hM hfuel
    simpa using this

/-- C26, concrete run: `gcd(6/4, 4/4)` with precision `10^-6` is `2/4`. -/
theorem gcd_of_multiples_witness :
    (0 : ℚ) < 1 / 4 ∧ ((0 : ℚ) ≤ 1 / 1000000 ∧ (1 / 1000000 : ℚ) < 1 / 4) ∧ 0 < 6 ∧ 0 < 4 ∧
    min 6 4 ≤ 4 ∧
    gcd 4 (((6 : Nat) : ℚ) * (1 / 4)) (((4 : Nat) : ℚ) * (1 / 4)) (1 / 1000000)
      = some (((Nat.gcd 6 4 : Nat) : ℚ) * (1 / 4)) ∧
    ((Nat.gcd 6 4 : Nat) : ℚ) * (1 / 4) = 1 / 2 :=
  ⟨by norm_num, by norm_num, by decide, by decide, by decide,
    (gcd_of_multiples (1 / 4) (1 / 1000000) 6 4 4 (by norm_num) (by norm_num) (by decide)
      (by decide) (by decide)).1,
    by norm_num⟩

theorem toInt_intCast (n : ℤ) (h1 : -2147483648 ≤ n) (h2 : n ≤ 2147483647) :
    toInt (n : ℚ) = some n := by
  unfold toInt
  simp only [Int.floor_intCast, Int.ceil_intCast, ite_self]
  rw [if_pos ⟨h1, h2⟩]

theorem intOfUnsigned_eq (v : ℤ) (h1 : -2147483648 ≤ v) (h2 : v < 2147483648) :
    intOfUnsigned v = v := by
  unfold intOfUnsigned
  rw [Int.emod_eq_of_lt (by omega) (by omega)]
  omega

theorem symmetric_zero (a : ℚ) (m : Nat) (ha : 0 < a) (hm : 1 ≤ m) :
    (0 - -a) / ((a - -a) / ((2 * m - 1 : Nat) : ℚ)) = (m : ℚ) - 1 / 2 := by
  have hc : ((2 * m - 1 : Nat) : ℚ) = 2 * (m : ℚ) - 1 := by
    rw [Nat.cast_sub (by omega)]; push_cast; ring
  rw [hc]
  have hane : a ≠ 0 := ha.ne'
  have : a - -a = 2 * a := by ring
  rw [this]
  field_simp
  ring

theorem symmetric_away (a : ℚ) (m : Nat) (ha : 0 < a) (hm : 2 ≤ m) (hm2 : 2 * m < 2 ^ 32) :
    zeroAlignedQuantizedRange (-a) a (2 * m) Rounding.HalfAwayFromZero
      = Except.ok (-a - 2 * a / ((2 * m : Nat) - 2 : ℚ), a) := by
  have hmq : (2 : ℚ) ≤ m := by exact_mod_cast hm
  have h1 : ¬ a ≤ -a := by linarith
  have h2 : ¬ 2 * m < 2 := by omega
  have hr : round ((m : ℚ) - 1 / 2) Rounding.HalfAwayFromZero = ((m : ℤ) : ℚ) := by
    have hnn : ¬ ((m : ℚ) - 1 / 2 < 0) := by linarith
    simp only [round, hnn, if_false]
    have : (m : ℚ) - 1 / 2 + 1 / 2 = ((m : ℤ) : ℚ) := by push_cast; ring
    rw [this, Int.floor_intCast]
  have hc := toInt_intCast (m : ℤ) (by omega) (by omega)
  have hw : intOfUnsigned ((m : ℤ) - ((2 * m - 1 : Nat) : ℤ)) = 1 - (m : ℤ) := by
    rw [intOfUnsigned_eq _ (by omega) (by omega)]
    omega
  have hneg : ¬ ((m : ℤ) < 0) := by omega
  have hz : ¬ (1 - (m : ℤ) > 0) := by omega
  have hle : ¬ (((m : ℤ) : ℚ) ≤ (m : ℚ) - 1 / 2) := by
    push_cast; linarith
  have hzn : 1 - (m : ℤ) < 0 := by omega
  simp only [zeroAlignedQuantizedRange, h1, h2, if_false, symmetric_zero a m ha (by omega), hr,
    hc, hw, hneg, hz, hle, hzn, if_true]
  congr 2
  have hm1 : (m : ℚ) - 1 ≠ 0 := by linarith
  have hm1' : (1 : ℚ) - m ≠ 0 := by linarith
  have hm2' : (2 : ℚ) * m - 2 ≠ 0 := by linarith
  push_cast
  field_simp
  ring

theorem symmetric_towards (a : ℚ) (m : Nat) (ha : 0 < a) (hm : 2 ≤ m) (hm2 : 2 * m < 2 ^ 32) :
    zeroAlignedQuantizedRange (-a) a (2 * m) Rounding.HalfTowardsZero
      = Except.ok (-a, a + 2 * a / ((2 * m : Nat) - 2 : ℚ)) := by
  have hmq : (2 : ℚ) ≤ m := by exact_mod_cast hm
  have h1 : ¬ a ≤ -a := by linarith
  have h2 : ¬ 2 * m < 2 := by omega
  have hr : round ((m : ℚ) - 1 / 2) Rounding.HalfTowardsZero = (((m : ℤ) - 1 : ℤ) : ℚ) := by
    have hnn : ¬ ((m : ℚ) - 1 / 2 < 0) := by linarith
    simp only [round, hnn, if_false]
    have : (m : ℚ) - 1 / 2 - 1 / 2 = (((m : ℤ) - 1 : ℤ) : ℚ) := by push_cast; ring
    rw [this, Int.ceil_intCast]
  have hc := toInt_intCast ((m : ℤ) - 1) (by omega) (by omega)
  have hw : intOfUnsigned ((m : ℤ) - 1 - ((2 * m - 1 : Nat) : ℤ)) = - (m : ℤ) := by
    rw [intOfUnsigned_eq _ (by omega) (by omega)]
    omega
  have hneg : ¬ ((m : ℤ) - 1 < 0) := by omega
  have hz : ¬ (- (m : ℤ) > 0) := by omega
  have hle : ((((m : ℤ) - 1 : ℤ)) : ℚ) ≤ (m : ℚ) - 1 / 2 := by
    push_cast; linarith
  have hpos : (m : ℤ) - 1 > 0 := by omega
  simp only [zeroAlignedQuantizedRange, h1, h2, if_false, symmetric_zero a m ha (by omega), hr,
    hc, hw, hneg, hz, hle, hpos, if_true]
  congr 2
  have hm1 : (m : ℚ) - 1 ≠ 0 := by linarith
  have hm2' : (2 : ℚ) * m - 2 ≠ 0 := by linarith
  push_cast
  field_simp
  ring

/-- On exact numbers: for every `a > 0` and every even number of levels at least 4,
`Utils::zeroAlignedQuantizedRange(-a, a, levels, HalfAwayFromZero)` returns
`(-a - delta, a)` and `Utils::zeroAlignedQuantizedRange(-a, a, levels, HalfTowardsZero)`
returns `(-a, a + delta)`, for the same `delta = 2a / (levels - 2) > 0`. -/
theorem symmetric_range_even (a : ℚ) (levels : Nat) (ha : 0 < a) (heven : levels % 2 = 0)
    (hlev : 4 ≤ levels) (hlt : levels < 2 ^ 32) :
    ∃ delta : ℚ, 0 < delta ∧
      zeroAlignedQuantizedRange (-a) a levels Rounding.HalfAwayFromZero
        = Except.ok (-a - delta, a) ∧
      zeroAlignedQuantizedRange (-a) a levels Rounding.HalfTowardsZero
        = Except.ok (-a, a + delta) := by
  obtain ⟨m, hm⟩ : ∃ m, levels = 2 * m := ⟨levels / 2, by omega⟩
  subst hm
  have hmq : (2 : ℚ) ≤ m := by exact_mod_cast (by omega : 2 ≤ m)
  refine ⟨2 * a / ((2 * m : Nat) - 2 : ℚ), ?_, symmetric_away a m ha (by omega) hlt,
    symmetric_towards a m ha (by omega) hlt⟩
  apply div_pos (by linarith)
  push_cast
  linarith

/-- Concrete run on exact numbers: the range `[-1, 1]` with 4 levels. -/
theorem symmetric_range_even_witness :
    (0 : ℚ) < 1 ∧ 4 % 2 = 0 ∧ 4 ≤ 4 ∧ 4 < 2 ^ 32 ∧
    ∃ delta : ℚ, 0 < delta ∧
      zeroAlignedQuantizedRange (-1) 1 4 Rounding.HalfAwayFromZero
        = Except.ok (-1 - delta, 1) ∧
      zeroAlignedQuantizedRange (-1) 1 4 Rounding.HalfTowardsZero
        = Except.ok (-1, 1 + delta) :=
  ⟨by norm_num, by decide, by decide, by decide,
    symmetric_range_even 1 4 (by norm_num) (by decide) (by decide) (by decide)⟩

/-- On exact numbers, with two levels the range `[-1, 1]` becomes `(-1, 0)` under
`HalfAwayFromZero` and `(0, 1)` under `HalfTowardsZero`; neither is of the form
`(-a - delta, a)` or `(-a, a + delta)`. -/
theorem symmetric_range_two_levels :
    (0 : ℚ) < 1 ∧ 2 % 2 = 0 ∧ 2 ≤ 2 ∧
    zeroAlignedQuantizedRange (-1) 1 2 Rounding.HalfAwayFromZero = Except.ok (-1, 0) ∧
    zeroAlignedQuantizedRange (-1) 1 2 Rounding.HalfTowardsZero = Except.ok (0, 1) ∧
    (¬ ∃ delta : ℚ, 0 < delta ∧
      zeroAlignedQuantizedRange (-1) 1 2 Rounding.HalfAwayFromZero
        = Except.ok (-1 - delta, 1)) ∧
    (¬ ∃ delta : ℚ, 0 < delta ∧
      zeroAlignedQuantizedRange (-1) 1 2 Rounding.HalfTowardsZero
        = Except.ok (-1, 1 + delta)) := by
  have hz : (0 - -1 : ℚ) / ((1 - -1) / ((2 - 1 : Nat) : ℚ)) = (1 : ℚ) - 1 / 2 := by norm_num
  have hr1 : round ((1 : ℚ) - 1 / 2) Rounding.HalfAwayFromZero = ((1 : ℤ) : ℚ) := by
    norm_num [round]
  have hr2 : round ((1 : ℚ) - 1 / 2) Rounding.HalfTowardsZero = ((0 : ℤ) : ℚ) := by
    norm_num [round]
  have hc1 := toInt_intCast 1 (by decide) (by decide)
  have hc0 := toInt_intCast 0 (by decide) (by decide)
  have e1 : zeroAlignedQuantizedRange (-1) 1 2 Rounding.HalfAwayFromZero = Except.ok (-1, 0) := by
    simp only [zeroAlignedQuantizedRange, hz, hr1, hc1]
    norm_num [intOfUnsigned]
  have e2 : zeroAlignedQuantizedRange (-1) 1 2 Rounding.HalfTowardsZero = Except.ok (0, 1) := by
    simp only [zeroAlignedQuantizedRange, hz, hr2, hc0]
    norm_num [intOfUnsigned]
  refine ⟨by norm_num, by decide, by decide, e1, e2, ?_, ?_⟩
  · rintro ⟨delta, -, h⟩
    rw [e1] at h
    have := congrArg Prod.snd (Except.ok.inj h)
    norm_num at this
  · rintro ⟨delta, -, h⟩
    rw [e2] at h
    have := congrArg Prod.fst (Except.ok.inj h)
    norm_num at this

end Utils

/-! ## Theorems: Utils, median -/

namespace Utils

end Utils

/-! ## Theorems: DeepNetExport -/

namespace DeepNetExport

theorem scanParents_spec (cellName : String) :
    ∀ (parents : List (Option Cell)) (st : ScanState), (∀ p ∈ parents, p ≠ none) →
      scanParents cellName parents st = some
        ⟨st.tmp ++ underscored (parents.filterMap fun p => p.map Cell.getName),
          st.isHandle && !decide (cellName ∈ parents.filterMap fun p => p.map Cell.getName)⟩ := by
  intro parents
  induction parents with
  | nil => intro st _; simp [scanParents, underscored]
  | cons p rest ih =>
    intro st h
    cases p with
    | none => exact absurd rfl (h none (List.mem_cons_self _ _))
    | some parent =>
      simp only [scanParents]
      rw [ih _ (fun q hq => h q (List.mem_cons_of_mem _ hq))]
      simp only [List.filterMap_cons, Option.map_some', underscored, String.append_assoc,
        List.mem_cons]
      congr 2
      by_cases hn : parent.getName = cellName
      · simp [hn]
      · have hn2 : ¬ cellName = parent.getName := fun e => hn e.symm
        simp [hn, hn2]

theorem scanParents_null (cellName : String) :
    ∀ (parents : List (Option Cell)) (st : ScanState), none ∈ parents →
      scanParents cellName parents st = none := by
  intro parents
  induction parents with
  | nil => intro st h; simp at h
  | cons p rest ih =>
    intro st h
    cases p with
    | none => rfl
    | some parent =>
      simp only [scanParents]
      exact ih _ (by simpa using h)

theorem scanCells_idle (deepNet : DeepNet) (cellName : String) :
    ∀ (cells : List String) (st : ScanState), st.isHandle = false →
      scanCells deepNet cellName cells st = some st := by
  intro cells
  induction cells with
  | nil => intro st _; rfl
  | cons c rest ih =>
    intro st hb
    simp only [scanCells, hb, Bool.false_eq_true, if_false]
    exact ih st hb

theorem scanCells_append (deepNet : DeepNet) (cellName : String) (l2 : List String) :
    ∀ (l1 : List String) (st : ScanState),
      scanCells deepNet cellName (l1 ++ l2) st
        = (scanCells deepNet cellName l1 st).bind (scanCells deepNet cellName l2) := by
  intro l1
  induction l1 with
  | nil => intro st; rfl
  | cons c rest ih =>
    intro st
    simp only [List.cons_append, scanCells]
    cases hb : st.isHandle with
    | false => simp only [Bool.false_eq_true, if_false]; exact ih st
    | true =>
      simp only [if_true]
      cases scanParents cellName (deepNet.getParentCells c) { tmp := "", isHandle := true } with
      | none => rfl
      | some st1 => exact ih st1

theorem scanLayers_flatten (deepNet : DeepNet) (cellName : String) :
    ∀ (layers : List (List String)) (st : ScanState),
      scanLayers deepNet cellName layers st = scanCells deepNet cellName layers.flatten st := by
  intro layers
  induction layers with
  | nil => intro st; rfl
  | cons layer rest ih =>
    intro st
    rw [List.flatten_cons, scanCells_append]
    simp only [scanLayers]
    cases scanCells deepNet cellName layer st with
    | none => rfl
    | some st1 => exact ih st1

theorem scanCells_read (deepNet : DeepNet) (cellName : String) :
    ∀ (cells : List String) (st : ScanState), st.isHandle = true →
      (NoNullParent deepNet (readCells deepNet cellName cells) →
        scanCells deepNet cellName cells st
          = some (scanOutcome deepNet cellName cells st)) ∧
      (¬ NoNullParent deepNet (readCells deepNet cellName cells) →
        scanCells deepNet cellName cells st = none) := by
  intro cells
  induction cells with
  | nil =>
    intro st hb
    refine ⟨fun _ => by simp [scanCells, scanOutcome, hb], fun h => ?_⟩
    exact absurd (fun c hc => by simp [readCells] at hc) h
  | cons c rest ih =>
    intro st hb
    by_cases hnull : none ∈ deepNet.getParentCells c
    · -- a null parent of `c`, which is read
      have hmem : c ∈ readCells deepNet cellName (c :: rest) := by
        unfold readCells
        split <;> simp
      refine ⟨fun h => absurd rfl (h c hmem none hnull), fun _ => ?_⟩
      simp only [scanCells, hb, if_true, scanParents_null cellName _ _ hnull]
    · have hc : ∀ p ∈ deepNet.getParentCells c, p ≠ none :=
        fun p hp e => hnull (e ▸ hp)
      have hstep : scanParents cellName (deepNet.getParentCells c) { tmp := "", isHandle := true }
          = some ⟨underscored (parentNames deepNet c), !hasParent deepNet cellName c⟩ := by
        rw [scanParents_spec cellName _ _ hc]
        simp only [String.empty_append, Bool.true_and]
        rfl
      cases hp : hasParent deepNet cellName c with
      | true =>
        have hrun : scanCells deepNet cellName (c :: rest) st
            = some (scanOutcome deepNet cellName (c :: rest) st) := by
          simp only [scanCells, hb, if_true, hstep, hp, Bool.not_true]
          rw [scanCells_idle deepNet cellName rest _ rfl]
          simp only [scanOutcome, hb, if_true, List.find?_cons, hp]
        refine ⟨fun _ => hrun, fun h => ?_⟩
        refine absurd ?_ h
        intro d hd
        simp only [readCells, hp, if_true, List.mem_singleton] at hd
        rw [hd]
        exact hc
      | false =>
        have hread : readCells deepNet cellName (c :: rest)
            = c :: readCells deepNet cellName rest := by
          simp only [readCells, hp, Bool.false_eq_true, if_false]
        have hout : scanOutcome deepNet cellName rest
              ⟨underscored (parentNames deepNet c), true⟩
            = scanOutcome deepNet cellName (c :: rest) st := by
          cases rest with
          | nil =>
            simp only [scanOutcome, hb, if_true, List.find?_cons, hp, List.find?_nil,
              List.getLast?_nil, List.getLast?_singleton]
          | cons d rest2 =>
            simp only [scanOutcome, hb, if_true, List.getLast?_cons_cons]
            rw [List.find?_cons (a := c), hp]
            cases List.find? (hasParent deepNet cellName) (d :: rest2) with
            | some e => rfl
            | none =>
              simp only
              cases hl : (d :: rest2).getLast? with
              | some e => rfl
              | none => simp at hl
        obtain ⟨ih1, ih2⟩ := ih ⟨underscored (parentNames deepNet c), true⟩ rfl
        have hrun : scanCells deepNet cellName (c :: rest) st
            = scanCells deepNet cellName rest ⟨underscored (parentNames deepNet c), true⟩ := by
          simp only [scanCells, hb, if_true, hstep, hp, Bool.not_false]
        rw [hrun, hread, ← hout]
        constructor
        · intro h
          exact ih1 (fun d hd => h d (List.mem_cons_of_mem _ hd))
        · intro h
          apply ih2
          intro h2
          apply h
          intro d hd
          rcases List.mem_cons.mp hd with e | e
          · rw [e]; exact hc
          · exact h2 d e

/-- C29 (amended). For every network and every valid `(layerNumber, cellNumber)` whose
cell can be read, with the cells of the layers `layerNumber + 1, ...` scanned in order:
when no parent pointer is null among the parents of the scanned cells up to and including
the first one that has a parent named like the given cell (all scanned cells when there
is none), `getCellOutputName` returns the concatenation of `parent name + "_"` over all
parents, in order, of the first scanned cell that has a parent named like the given cell
and, without such a cell, that concatenation for the last scanned cell; when one of
these parent pointers is null there is no result (the null pointer is dereferenced);
and the result is the empty string when there is no later layer. -/
theorem getCellOutputName_scan (deepNet : DeepNet) (layerNumber cellNumber : Nat)
    (layer : List String) (key : String) (cell : Cell)
    (hlayer : deepNet.getLayers[layerNumber]? = some layer)
    (hkey : layer[cellNumber]? = some key) (hcell : deepNet.getCell key = some cell) :
    (NoNullParent deepNet
        (readCells deepNet cell.getName (deepNet.getLayers.drop (layerNumber + 1)).flatten) →
      getCellOutputName deepNet layerNumber cellNumber = some
        (expectedOutputName deepNet cell.getName
          (deepNet.getLayers.drop (layerNumber + 1)).flatten)) ∧
    (¬ NoNullParent deepNet
        (readCells deepNet cell.getName (deepNet.getLayers.drop (layerNumber + 1)).flatten) →
      getCellOutputName deepNet layerNumber cellNumber = none) ∧
    (deepNet.getLayers.drop (layerNumber + 1) = [] →
      getCellOutputName deepNet layerNumber cellNumber = some "") := by
  obtain ⟨h1, h2⟩ := scanCells_read deepNet cell.getName
    (deepNet.getLayers.drop (layerNumber + 1)).flatten ⟨"", true⟩ rfl
  have hrun : getCellOutputName deepNet layerNumber cellNumber
      = (scanCells deepNet cell.getName (deepNet.getLayers.drop (layerNumber + 1)).flatten
          ⟨"", true⟩).map ScanState.tmp := by
    simp only [getCellOutputName, hlayer, hkey, hcell, scanLayers_flatten]
    cases scanCells deepNet cell.getName (deepNet.getLayers.drop (layerNumber + 1)).flatten
      ⟨"", true⟩ <;> rfl
  refine ⟨fun h => ?_, fun h => ?_, fun h => ?_⟩
  · rw [hrun, h1 h]
    simp only [Option.map_some', scanOutcome, if_true, expectedOutputName]
    cases List.find? (hasParent deepNet cell.getName)
        (deepNet.getLayers.drop (layerNumber + 1)).flatten with
    | some e => rfl
    | none =>
      cases (deepNet.getLayers.drop (layerNumber + 1)).flatten.getLast? <;> rfl
  · rw [hrun, h2 h]
    rfl
  · rw [hrun, h]
    rfl

/-- C29, concrete run on `diamondNet`, where no parent pointer is null: for `a` the first
scanned cell `b` has the parent `a` and the result is `a_`. On `lateNullNet` the null
pointer comes after the first cell fed by `a` and is not read. -/
theorem getCellOutputName_scan_witness :
    diamondNet.getLayers[0]? = some ["a"] ∧ ["a"][0]? = some "a" ∧
    diamondNet.getCell "a" = some ⟨"a"⟩ ∧
    NoNullParent diamondNet (readCells diamondNet "a" (diamondNet.getLayers.drop 1).flatten) ∧
    getCellOutputName diamondNet 0 0 = some
      (expectedOutputName diamondNet "a" (diamondNet.getLayers.drop 1).flatten) ∧
    expectedOutputName diamondNet "a" (diamondNet.getLayers.drop 1).flatten = "a_" ∧
    getCellOutputName lateNullNet 1 0 = some "a_" := by
  have hno : NoNullParent diamondNet
      (readCells diamondNet "a" (diamondNet.getLayers.drop 1).flatten) := by
    unfold NoNullParent; decide
  refine ⟨rfl, rfl, rfl, hno, ?_, by decide, by decide⟩
  exact (getCellOutputName_scan diamondNet 0 0 ["a"] "a" ⟨"a"⟩ rfl rfl rfl).1 hno

/-- C29, counterexample: in `envNet` the position `(1, 0)` is valid and holds the cell
`a`; the only later cell, `b`, has `a` among its parents, after the null pointer of the
environment, and `getCellOutputName` has no result. -/
theorem getCellOutputName_null_parent :
    envNet.getLayers[1]? = some ["a"] ∧ ["a"][0]? = some "a" ∧
    envNet.getCell "a" = some ⟨"a"⟩ ∧
    (envNet.getLayers.drop 2).flatten = ["b"] ∧
    envNet.getParentCells "b" = [none, some ⟨"a"⟩] ∧
    hasParent envNet "a" "b" = true ∧
    getCellOutputName envNet 1 0 = none ∧
    getCellOutputName envNet 1 0 ≠ some (expectedOutputName envNet "a" ["b"]) := by
  have h : getCellOutputName envNet 1 0 = none := by decide
  refine ⟨rfl, rfl, rfl, rfl, rfl, by decide, h, ?_⟩
  rw [h]
  exact fun e => Option.noConfusion e

end DeepNetExport

/-! ## Theorems: Utils, quoted strings -/

namespace Utils

theorem writeQuoted_fold (str : List Char) :
    ∀ os : List Char,
      List.foldl (fun os c => (if c = '"' ∨ c = '\\' then os ++ ['\\'] else os) ++ [c]) os str
        = os ++ escapedText str := by
  induction str with
  | nil => intro os; simp [escapedText]
  | cons c cs ih =>
    intro os
    simp only [List.foldl_cons, ih, escapedText]
    by_cases h : c = '"' ∨ c = '\\'
    · simp [h]
    · simp [h]

theorem writeQuoted_eq (os str : List Char) :
    writeQuoted '"' '\\' os str = os ++ '"' :: escapedText str ++ ['"'] := by
  unfold writeQuoted
  rw [writeQuoted_fold]
  simp

theorem writeVector_eq (vec : List (List Char)) :
    ∀ os : List Char, writeVector os vec = os ++ vectorText vec := by
  induction vec with
  | nil => intro os; simp [writeVector, vectorText]
  | cons str rest ih =>
    intro os
    have h := ih (writeQuoted '"' '\\' os str ++ [' '])
    unfold writeVector at h ⊢
    rw [List.foldl_cons, h, writeQuoted_eq]
    simp [vectorText]

theorem get_cons (c : Char) (cs : List Char) (sk : Bool) :
    CharStream.get ⟨c :: cs, false, false, sk⟩ = (some c, ⟨cs, false, false, sk⟩) := rfl

theorem peek_cons (c : Char) (cs : List Char) (sk : Bool) :
    CharStream.peek ⟨c :: cs, false, false, sk⟩ = (some c, ⟨c :: cs, false, false, sk⟩) := rfl

theorem get_good (rest : List Char) (sk : Bool) (h : rest ≠ []) :
    (CharStream.get ⟨rest, false, false, sk⟩).2.good = true := by
  cases rest with
  | nil => exact absurd rfl h
  | cons c cs => rfl

theorem readQuotedLoop_escaped (sk : Bool) (tail : List Char) :
    ∀ (str acc : List Char),
      readQuotedLoop '"' '\\'
          (CharStream.get ⟨escapedText str ++ '"' :: tail, false, false, sk⟩).1 false acc
          (CharStream.get ⟨escapedText str ++ '"' :: tail, false, false, sk⟩).2
        = Except.ok (acc ++ str, ⟨tail, false, false, sk⟩) := by
  intro str
  induction str with
  | nil =>
    intro acc
    simp only [escapedText, List.nil_append, get_cons]
    rw [readQuotedLoop]
    simp
  | cons a s ih =>
    intro acc
    have hne : escapedText s ++ '"' :: tail ≠ [] := by simp
    by_cases h : a = '"' ∨ a = '\\'
    · simp only [escapedText, h, if_true, List.cons_append, List.nil_append, get_cons]
      rw [readQuotedLoop]
      have h1 : (some '\\' : Option Char) ≠ some '"' := by decide
      simp only [h1, ne_eq, not_false_eq_true, true_or, if_true, get_cons, Bool.not_false,
        beq_self_eq_true, Bool.and_true, Bool.not_true, Bool.false_eq_true, if_false]
      have hg : (⟨escapedText s ++ '"' :: tail, false, false, sk⟩ : CharStream).good = true :=
        rfl
      rw [if_pos hg, readQuotedLoop]
      simp only [or_true, if_true, Bool.not_true, Bool.false_and, Bool.not_false,
        get_good _ sk hne, charOfInt, Option.getD_some]
      rw [ih (acc ++ [a])]
      simp
    · have hq : a ≠ '"' := fun e => h (Or.inl e)
      have he : a ≠ '\\' := fun e => h (Or.inr e)
      simp only [escapedText, h, if_false, List.cons_append, List.nil_append, get_cons]
      rw [readQuotedLoop]
      have h1 : (some a : Option Char) ≠ some '"' := fun e => hq (Option.some.inj e)
      have h2 : ((some a : Option Char) == some '\\') = false := by
        simp [he]
      simp only [h1, ne_eq, not_false_eq_true, true_or, if_true, Bool.not_false, h2,
        Bool.and_false, get_good _ sk hne, charOfInt, Option.getD_some]
      rw [ih (acc ++ [a])]
      simp

theorem discardWhitespace_quote (cs : List Char) (sk : Bool) :
    discardWhitespace ⟨'"' :: cs, false, false, sk⟩ = ⟨'"' :: cs, false, false, sk⟩ := by
  rw [discardWhitespace]
  simp [peek_cons, isspace]

theorem discardWhitespace_nil (sk : Bool) :
    discardWhitespace ⟨[], false, false, sk⟩ = ⟨[], true, false, sk⟩ := by
  rw [discardWhitespace]
  simp [CharStream.peek, CharStream.good, isspace]

theorem discardWhitespace_space (cs : List Char) (sk : Bool) :
    discardWhitespace ⟨' ' :: cs, false, false, sk⟩
      = discardWhitespace ⟨cs, false, false, sk⟩ := by
  rw [discardWhitespace]
  simp [peek_cons, get_cons, isspace]

theorem readQuoted_quoted (str tail word : List Char) (sk : Bool) :
    readQuoted '"' '\\' ⟨'"' :: (escapedText str ++ '"' :: tail), false, false, sk⟩ word
      = Except.ok (str, ⟨tail, false, false, sk⟩) := by
  unfold readQuoted
  have h1 : (if sk = true then discardWhitespace
        ⟨'"' :: (escapedText str ++ '"' :: tail), false, false, sk⟩
      else ⟨'"' :: (escapedText str ++ '"' :: tail), false, false, sk⟩)
      = ⟨'"' :: (escapedText str ++ '"' :: tail), false, false, sk⟩ := by
    cases sk
    · rfl
    · simp only [if_true]; exact discardWhitespace_quote _ _
  simp only [h1, peek_cons, get_cons, if_true]
  rw [readQuotedLoop_escaped false tail str []]
  simp

theorem readQuoted_after_space (str tail word : List Char) :
    readQuoted '"' '\\' ⟨' ' :: '"' :: (escapedText str ++ '"' :: tail), false, false, true⟩
        word
      = Except.ok (str, ⟨tail, false, false, true⟩) := by
  have h := readQuoted_quoted str tail word true
  unfold readQuoted at h ⊢
  simp only [if_true] at h ⊢
  rw [discardWhitespace_space]
  exact h

theorem readQuoted_end (word : List Char) :
    readQuoted '"' '\\' ⟨[], false, false, true⟩ word
      = Except.ok (word, ⟨[], true, true, true⟩) := by
  unfold readQuoted
  simp only [if_true, discardWhitespace_nil]
  simp [CharStream.peek, CharStream.good, extractString]

theorem readQuoted_space_end (word : List Char) :
    readQuoted '"' '\\' ⟨[' '], false, false, true⟩ word
      = Except.ok (word, ⟨[], true, true, true⟩) := by
  have h := readQuoted_end word
  unfold readQuoted at h ⊢
  simp only [if_true] at h ⊢
  rw [discardWhitespace_space]
  exact h

theorem readVectorLoop_rest (vec : List (List Char)) :
    ∀ (fuel : Nat) (word : List Char) (acc : List (List Char)) (sk : Bool), vec.length < fuel →
      readVectorLoop fuel ⟨' ' :: vectorText vec, false, false, sk⟩ word acc
        = some (Except.ok (acc ++ vec, ⟨[], true, true, true⟩)) := by
  induction vec with
  | nil =>
    intro fuel word acc sk hf
    obtain ⟨f, rfl⟩ : ∃ f, fuel = f + 1 := ⟨fuel - 1, by omega⟩
    simp only [readVectorLoop, vectorText, readQuoted_space_end]
    simp
  | cons str rest ih =>
    intro fuel word acc sk hf
    simp only [List.length_cons] at hf
    obtain ⟨f, rfl⟩ : ∃ f, fuel = f + 1 := ⟨fuel - 1, by omega⟩
    simp only [readVectorLoop, vectorText, readQuoted_after_space]
    simp only [Bool.false_eq_true, if_false]
    rw [ih f str (acc ++ [str]) true (by omega)]
    simp

theorem readVectorLoop_text (vec : List (List Char)) (fuel : Nat) (hf : vec.length < fuel) :
    readVectorLoop fuel (streamOn (vectorText vec)) [] []
      = some (Except.ok (vec, ⟨[], true, true, true⟩)) := by
  obtain ⟨f, rfl⟩ : ∃ f, fuel = f + 1 := ⟨fuel - 1, by omega⟩
  cases vec with
  | nil =>
    simp only [readVectorLoop, vectorText, streamOn, readQuoted_end]
    simp
  | cons str rest =>
    simp only [List.length_cons] at hf
    simp only [readVectorLoop, vectorText, streamOn, readQuoted_quoted]
    simp only [Bool.false_eq_true, if_false]
    rw [readVectorLoop_rest rest f str ([] ++ [str]) true (by omega)]
    simp

/-- C28. For every vector `v` of strings (whatever characters they hold: spaces, double
quotes, backslashes, none at all), reading a vector of strings with `operator>>` from the
text written by `operator<<` on `v` ends (as soon as the bound on the runs of its loop
exceeds the length of `v`), yields a vector equal to `v` and leaves the stream at its end
with only the eof bit set; and for a single string `s`, reading `Utils::quoted` from the
text written by `Utils::quoted(s)` with the default delimiter and escape recovers `s`. -/
theorem vector_of_strings_roundtrip (v : List (List Char)) (fuel : Nat) (hfuel : v.length < fuel) :
    readVector fuel (streamOn (writeVector [] v))
      = some (Except.ok (v, ⟨[], true, false, true⟩)) ∧
    (∀ s word : List Char,
      readQuoted '"' '\\' (streamOn (writeQuoted '"' '\\' [] s)) word
        = Except.ok (s, ⟨[], false, false, true⟩)) := by
  constructor
  · unfold readVector
    rw [writeVector_eq, List.nil_append, readVectorLoop_text v fuel hfuel]
    rfl
  · intro s word
    rw [writeQuoted_eq]
    exact readQuoted_quoted s [] word true

/-- C28, concrete run: the vector of `a b`, the empty string and `c"d\\` (with a double
quote and a backslash) is written as three quoted strings, each followed by a space, and
read back. -/
theorem vector_of_strings_roundtrip_witness :
    ["a b".data, "".data, "c\"d\\".data].length < 4 ∧
    String.mk (writeVector [] ["a b".data, "".data, "c\"d\\".data])
      = "\"a b\" \"\" \"c\\\"d\\\\\" " ∧
    readVector 4 (streamOn (writeVector [] ["a b".data, "".data, "c\"d\\".data]))
      = some (Except.ok (["a b".data, "".data, "c\"d\\".data], ⟨[], true, false, true⟩)) :=
  ⟨by decide, by decide,
    (vector_of_strings_roundtrip ["a b".data, "".data, "c\"d\\".data] 4 (by decide)).1⟩

end Utils

/-! ## Theorems: BatchNormCell_Frame_CUDA, the momentum as a `double` -/

namespace BatchNormCell_Frame_CUDA

/-- For a momentum that is a number, `initializeCellWith` is `initializeCell`. -/
theorem initializeCellWith_number (L : CuDNN) (fmt : ℚ → String)
    (s : BatchNormCell_Frame_CUDA) :
    initializeCellWith L (fmt s.mMovingAverageMomentum) s
        (MomentumValue.number s.mMovingAverageMomentum)
      = initializeCell L fmt s := by
  unfold initializeCellWith initializeCell
  by_cases heps : L.CUDNN_BN_MIN_EPSILON > 0 ∧ s.mEpsilon < L.CUDNN_BN_MIN_EPSILON
  all_goals
    simp only [heps, if_true, if_false, and_self, momentumOutOfRange, decide_eq_true_eq]

/-- With a NaN as momentum, `initialize` returns normally on every cell with one input
group whose four parameter tensors are each either empty or of the required dims. -/
theorem initializeCellWith_nan_ok (L : CuDNN) (shown : String) (s : BatchNormCell_Frame_CUDA)
    (input0 : Tensor ℚ) (dims : List Nat) (hin : s.mInputs = [input0])
    (hd : L.deriveBNDims CudnnBatchNormMode.CUDNN_BATCHNORM_SPATIAL input0 = some dims)
    (hscale : Acceptable dims.reverse s.mScale) (hbias : Acceptable dims.reverse s.mBias)
    (hmean : Acceptable dims.reverse s.mMean) (hvar : Acceptable dims.reverse s.mVariance) :
    (initializeCellWith L shown s MomentumValue.nan).ok := by
  unfold Run.ok initializeCellWith
  by_cases heps : L.CUDNN_BN_MIN_EPSILON > 0 ∧ s.mEpsilon < L.CUDNN_BN_MIN_EPSILON
  all_goals
    simp only [hin, List.length_singleton, gt_iff_lt, Nat.lt_irrefl, if_false, heps, if_true,
      and_self, List.getElem?_cons_zero, hd, checkShared_acceptable _ _ _ _ _ hscale,
      checkShared_acceptable _ _ _ _ _ hbias, checkShared_acceptable _ _ _ _ _ hmean,
      checkShared_acceptable _ _ _ _ _ hvar, momentumOutOfRange, Bool.false_eq_true]

/-- C8, evaluation at the failing input: a NaN does not lie strictly between 0 and 1,
yet the test of `initialize` is false for it, and on the fresh cell (one input group, no
parameter tensor yet) `initialize` with a NaN as momentum returns normally instead of
failing with the error that names the cell. -/
theorem initialize_accepts_nan_momentum :
    ¬ MomentumValue.nan.InOpenUnit ∧ momentumOutOfRange MomentumValue.nan = false ∧
    freshCell.mInputs.length = 1 ∧
    (initializeCellWith referenceCuDNN "nan" freshCell MomentumValue.nan).ok ∧
    (initializeCellWith referenceCuDNN "nan" freshCell MomentumValue.nan).error
      ≠ some (wrongMomentumMessage freshCell.mName "nan") := by
  have hok := initializeCellWith_nan_ok referenceCuDNN "nan" freshCell
    (constTensor [2, 1, 1, 2] 2) [1, 1, 1, 1] rfl rfl (Or.inl rfl) (Or.inl rfl) (Or.inl rfl)
    (Or.inl rfl)
  refine ⟨fun h => h, rfl, rfl, hok, ?_⟩
  unfold Run.ok at hok
  rw [hok]
  exact fun h => Option.noConfusion h

end BatchNormCell_Frame_CUDA


/-! ## Theorems: Utils, zeroAlignedQuantizedRange in the arithmetic of `double` -/

namespace Utils

/-- With no rounding at all, `roundWith` is `round`. -/
theorem roundWith_exact (x : ℚ) (rule : Rounding) : roundWith (fun v => v) x rule = round x rule := by
  cases rule <;> rfl

/-- With no rounding at all, the function in the arithmetic of `double` is the function
on exact numbers. -/
theorem zeroAlignedQuantizedRangeWith_exact (minVal maxVal : ℚ) (levels : Nat)
    (rule : Rounding) :
    zeroAlignedQuantizedRangeWith (fun v => v) minVal maxVal levels rule
      = zeroAlignedQuantizedRange minVal maxVal levels rule := by
  simp only [zeroAlignedQuantizedRangeWith, zeroAlignedQuantizedRange, roundWith_exact]

theorem roundHalfEven_eq (x : ℚ) (n : ℤ) (h1 : (n : ℚ) - 1 / 2 < x) (h2 : x < (n : ℚ) + 1 / 2) :
    roundHalfEven x = n := by
  unfold roundHalfEven
  rcases lt_or_le x n with h | h
  · have hf : ⌊x⌋ = n - 1 := by
      rw [Int.floor_eq_iff]; push_cast; constructor <;> linarith
    rw [hf]
    have c1 : ¬ (x - ((n - 1 : ℤ) : ℚ) < 1 / 2) := by push_cast; linarith
    have c2 : x - ((n - 1 : ℤ) : ℚ) > 1 / 2 := by push_cast; linarith
    rw [if_neg c1, if_pos c2]
    omega
  · have hf : ⌊x⌋ = n := by
      rw [Int.floor_eq_iff]; constructor <;> linarith
    rw [hf]
    have c1 : x - (n : ℚ) < 1 / 2 := by linarith
    rw [if_pos c1]

/-- The `double` nearest to `x`, of magnitude `y` in the binade `[2^(e+52), 2^(e+53))`,
is `n * 2^e` when `n` is the integer nearest to `x / 2^e`. -/
theorem binary64_eq (x y : ℚ) (e n : ℤ) (hy : |x| = y) (h1 : (2 : ℚ) ^ (e + 52) ≤ y)
    (h2 : y < (2 : ℚ) ^ (e + 53)) (hn1 : (n : ℚ) - 1 / 2 < x / 2 ^ e)
    (hn2 : x / 2 ^ e < (n : ℚ) + 1 / 2) : binary64 x = (n : ℚ) * 2 ^ e := by
  subst hy
  have hpos : 0 < |x| := lt_of_lt_of_le (zpow_pos (by norm_num) _) h1
  have hx : x ≠ 0 := abs_pos.mp hpos
  have hlog : Int.log 2 |x| = e + 52 := by
    have a := (Int.zpow_le_iff_le_log (by norm_num : 1 < 2) hpos).mp
      (by rw [Nat.cast_ofNat]; exact h1)
    have b := (Int.lt_zpow_iff_log_lt (by norm_num : 1 < 2) hpos).mp
      (by rw [Nat.cast_ofNat]; exact h2)
    omega
  have he : e + 52 - 52 = e := by ring
  simp only [binary64, hx, if_false, hlog, he]
  rw [roundHalfEven_eq _ n hn1 hn2]

theorem binary64_one : binary64 (1) = 1 := by
  have habs : |(1 : ℚ)| = 1 := by
    rw [abs_of_pos (by norm_num)]
  rw [binary64_eq (1) (1) (-52) (4503599627370496) habs (by norm_num) (by norm_num)
    (by norm_num) (by norm_num)]
  norm_num

theorem binary64_two : binary64 (2) = 2 := by
  have habs : |(2 : ℚ)| = 2 := by
    rw [abs_of_pos (by norm_num)]
  rw [binary64_eq (2) (2) (-51) (4503599627370496) habs (by norm_num) (by norm_num)
    (by norm_num) (by norm_num)]
  norm_num

theorem binary64_half : binary64 (1 / 2) = 1 / 2 := by
  have habs : |(1 / 2 : ℚ)| = 1 / 2 := by
    rw [abs_of_pos (by norm_num)]
  rw [binary64_eq (1 / 2) (1 / 2) (-53) (4503599627370496) habs (by norm_num) (by norm_num)
    (by norm_num) (by norm_num)]
  norm_num

theorem binary64_scaling94 : binary64 (2 / 93) = 3099251356470019 / 144115188075855872 := by
  have habs : |(2 / 93 : ℚ)| = 2 / 93 := by
    rw [abs_of_pos (by norm_num)]
  rw [binary64_eq (2 / 93) (2 / 93) (-58) (6198502712940038) habs (by norm_num) (by norm_num)
    (by norm_num) (by norm_num)]
  norm_num

theorem binary64_zero94 : binary64 (144115188075855872 / 3099251356470019) = 6544293208522751 / 140737488355328 := by
  have habs : |(144115188075855872 / 3099251356470019 : ℚ)| = 144115188075855872 / 3099251356470019 := by
    rw [abs_of_pos (by norm_num)]
  rw [binary64_eq (144115188075855872 / 3099251356470019) (144115188075855872 / 3099251356470019) (-47) (6544293208522751) habs (by norm_num) (by norm_num)
    (by norm_num) (by norm_num)]
  norm_num

theorem binary64_shifted94 : binary64 (6614661952700415 / 140737488355328) = 6614661952700415 / 140737488355328 := by
  have habs : |(6614661952700415 / 140737488355328 : ℚ)| = 6614661952700415 / 140737488355328 := by
    rw [abs_of_pos (by norm_num)]
  rw [binary64_eq (6614661952700415 / 140737488355328) (6614661952700415 / 140737488355328) (-47) (6614661952700415) habs (by norm_num) (by norm_num)
    (by norm_num) (by norm_num)]
  norm_num

theorem binary64_47 : binary64 (47) = 47 := by
  have habs : |(47 : ℚ)| = 47 := by
    rw [abs_of_pos (by norm_num)]
  rw [binary64_eq (47) (47) (-47) (6614661952700416) habs (by norm_num) (by norm_num)
    (by norm_num) (by norm_num)]
  norm_num

theorem binary64_max94 : binary64 (47 / 46) = 2300751983547971 / 2251799813685248 := by
  have habs : |(47 / 46 : ℚ)| = 47 / 46 := by
    rw [abs_of_pos (by norm_num)]
  rw [binary64_eq (47 / 46) (47 / 46) (-52) (4601503967095942) habs (by norm_num) (by norm_num)
    (by norm_num) (by norm_num)]
  norm_num

theorem binary64_scaling50 : binary64 (2 / 49) = 5882252574524729 / 144115188075855872 := by
  have habs : |(2 / 49 : ℚ)| = 2 / 49 := by
    rw [abs_of_pos (by norm_num)]
  rw [binary64_eq (2 / 49) (2 / 49) (-57) (5882252574524729) habs (by norm_num) (by norm_num)
    (by norm_num) (by norm_num)]
  norm_num

theorem binary64_zero50 : binary64 (144115188075855872 / 5882252574524729) = 6896136929411073 / 281474976710656 := by
  have habs : |(144115188075855872 / 5882252574524729 : ℚ)| = 144115188075855872 / 5882252574524729 := by
    rw [abs_of_pos (by norm_num)]
  rw [binary64_eq (144115188075855872 / 5882252574524729) (144115188075855872 / 5882252574524729) (-48) (6896136929411073) habs (by norm_num) (by norm_num)
    (by norm_num) (by norm_num)]
  norm_num

theorem binary64_shifted50 : binary64 (6755399441055745 / 281474976710656) = 6755399441055745 / 281474976710656 := by
  have habs : |(6755399441055745 / 281474976710656 : ℚ)| = 6755399441055745 / 281474976710656 := by
    rw [abs_of_pos (by norm_num)]
  rw [binary64_eq (6755399441055745 / 281474976710656) (6755399441055745 / 281474976710656) (-48) (6755399441055745) habs (by norm_num) (by norm_num)
    (by norm_num) (by norm_num)]
  norm_num

theorem binary64_25 : binary64 (25) = 25 := by
  have habs : |(25 : ℚ)| = 25 := by
    rw [abs_of_pos (by norm_num)]
  rw [binary64_eq (25) (25) (-48) (7036874417766400) habs (by norm_num) (by norm_num)
    (by norm_num) (by norm_num)]
  norm_num

theorem binary64_min50 : binary64 (-25 / 24) = -4691249611844267 / 4503599627370496 := by
  have habs : |(-25 / 24 : ℚ)| = 25 / 24 := by
    rw [abs_of_neg (by norm_num)]; norm_num
  rw [binary64_eq (-25 / 24) (25 / 24) (-52) (-4691249611844267) habs (by norm_num) (by norm_num)
    (by norm_num) (by norm_num)]
  norm_num


theorem doubleRange_away94 :
    zeroAlignedQuantizedRangeWith binary64 (-1) 1 94 Rounding.HalfAwayFromZero
      = Except.ok (-1, 2300751983547971 / 2251799813685248) := by
  have s1 : binary64 (1 - -1) = 2 := by norm_num [binary64_two]
  have s2 : binary64 (2 / ((94 - 1 : Nat) : ℚ)) = 3099251356470019 / 144115188075855872 := by
    norm_num [binary64_scaling94]
  have s3 : binary64 (0 - -1) = 1 := by norm_num [binary64_one]
  have s4 : binary64 (1 / (3099251356470019 / 144115188075855872))
      = 6544293208522751 / 140737488355328 := by
    norm_num [binary64_zero94]
  have s5 : binary64 (6544293208522751 / 140737488355328 + 1 / 2)
      = 6614661952700415 / 140737488355328 := by
    norm_num [binary64_shifted94]
  have s6 : ⌊(6614661952700415 / 140737488355328 : ℚ)⌋ = 46 := by
    rw [Int.floor_eq_iff]; norm_num
  have s7 : toInt ((46 : ℤ) : ℚ) = some 46 := toInt_intCast 46 (by decide) (by decide)
  have hnn : ¬ ((6544293208522751 / 140737488355328 : ℚ) < 0) := by norm_num
  have hw : intOfUnsigned (46 - ((94 - 1 : Nat) : ℤ)) = -47 := by decide
  simp only [zeroAlignedQuantizedRangeWith, s1, s2, s3, s4, roundWith, hnn, if_false, s5, s6, s7,
    hw]
  norm_num [binary64_47, binary64_max94]

theorem doubleRange_towards50 :
    zeroAlignedQuantizedRangeWith binary64 (-1) 1 50 Rounding.HalfTowardsZero
      = Except.ok (-4691249611844267 / 4503599627370496, 1) := by
  have s1 : binary64 (1 - -1) = 2 := by norm_num [binary64_two]
  have s2 : binary64 (2 / ((50 - 1 : Nat) : ℚ)) = 5882252574524729 / 144115188075855872 := by
    norm_num [binary64_scaling50]
  have s3 : binary64 (0 - -1) = 1 := by norm_num [binary64_one]
  have s4 : binary64 (1 / (5882252574524729 / 144115188075855872))
      = 6896136929411073 / 281474976710656 := by
    norm_num [binary64_zero50]
  have s5 : binary64 (6896136929411073 / 281474976710656 - 1 / 2)
      = 6755399441055745 / 281474976710656 := by
    norm_num [binary64_shifted50]
  have s6 : ⌈(6755399441055745 / 281474976710656 : ℚ)⌉ = 25 := by
    rw [Int.ceil_eq_iff]; norm_num
  have s7 : toInt ((25 : ℤ) : ℚ) = some 25 := toInt_intCast 25 (by decide) (by decide)
  have hnn : ¬ ((6896136929411073 / 281474976710656 : ℚ) < 0) := by norm_num
  have hw : intOfUnsigned (25 - ((50 - 1 : Nat) : ℤ)) = -24 := by decide
  simp only [zeroAlignedQuantizedRangeWith, s1, s2, s3, s4, roundWith, hnn, if_false, s5, s6, s7,
    hw]
  have s9 : binary64 (-(25 / 24)) = -(4691249611844267 / 4503599627370496) := by
    rw [show (-(25 / 24) : ℚ) = -25 / 24 by norm_num, binary64_min50]
    norm_num
  norm_num [binary64_25, s9]

theorem doubleRange_away2 :
    zeroAlignedQuantizedRangeWith binary64 (-1) 1 2 Rounding.HalfAwayFromZero
      = Except.ok (-1, 0) := by
  have s1 : binary64 (1 - -1) = 2 := by norm_num [binary64_two]
  have s2 : binary64 (2 / ((2 - 1 : Nat) : ℚ)) = 2 := by
    norm_num [binary64_two]
  have s3 : binary64 (0 - -1) = 1 := by norm_num [binary64_one]
  have s4 : binary64 (1 / 2) = 1 / 2 := by
    norm_num [binary64_half]
  have s5 : binary64 (1 / 2 + 1 / 2) = 1 := by
    norm_num [binary64_one]
  have s6 : ⌊(1 : ℚ)⌋ = 1 := Int.floor_one
  have s7 : toInt ((1 : ℤ) : ℚ) = some 1 := toInt_intCast 1 (by decide) (by decide)
  have hnn : ¬ ((1 / 2 : ℚ) < 0) := by norm_num
  have hw : intOfUnsigned (1 - ((2 - 1 : Nat) : ℤ)) = 0 := by decide
  simp only [zeroAlignedQuantizedRangeWith, s1, s2, s3, s4, roundWith, hnn, if_false, s5, s6, s7,
    hw]
  norm_num

/-- C22, evaluation at the failing inputs, in the arithmetic of `double`. The range
`[-1, 1]` with 94 levels and `HalfAwayFromZero` becomes `(-1, 1.0217...)`: the upper end
is moved, not the lower one, although on exact numbers the result is `(-1 - 1/46, 1)`.
The range `[-1, 1]` with 50 levels and `HalfTowardsZero` becomes `(-1.0416..., 1)`: the
lower end is moved, not the upper one, although on exact numbers the result is
`(-1, 1 + 1/24)`. With 2 levels and `HalfAwayFromZero` the range becomes `(-1, 0)`. None
of the three results has the form `(-a - delta, a)`, respectively `(-a, a + delta)`,
with `delta > 0`. -/
theorem symmetric_range_in_double :
    zeroAlignedQuantizedRangeWith binary64 (-1) 1 94 Rounding.HalfAwayFromZero
      = Except.ok (-1, 2300751983547971 / 2251799813685248) ∧
    zeroAlignedQuantizedRange (-1) 1 94 Rounding.HalfAwayFromZero
      = Except.ok (-1 - 1 / 46, 1) ∧
    (¬ ∃ delta : ℚ, 0 < delta ∧
      zeroAlignedQuantizedRangeWith binary64 (-1) 1 94 Rounding.HalfAwayFromZero
        = Except.ok (-1 - delta, 1)) ∧
    zeroAlignedQuantizedRangeWith binary64 (-1) 1 50 Rounding.HalfTowardsZero
      = Except.ok (-4691249611844267 / 4503599627370496, 1) ∧
    zeroAlignedQuantizedRange (-1) 1 50 Rounding.HalfTowardsZero
      = Except.ok (-1, 1 + 1 / 24) ∧
    (¬ ∃ delta : ℚ, 0 < delta ∧
      zeroAlignedQuantizedRangeWith binary64 (-1) 1 50 Rounding.HalfTowardsZero
        = Except.ok (-1, 1 + delta)) ∧
    zeroAlignedQuantizedRangeWith binary64 (-1) 1 2 Rounding.HalfAwayFromZero
      = Except.ok (-1, 0) ∧
    (¬ ∃ delta : ℚ, 0 < delta ∧
      zeroAlignedQuantizedRangeWith binary64 (-1) 1 2 Rounding.HalfAwayFromZero
        = Except.ok (-1 - delta, 1)) := by
  have e1 : zeroAlignedQuantizedRange (-1) 1 94 Rounding.HalfAwayFromZero
      = Except.ok (-1 - 1 / 46, 1) := by
    have h := symmetric_away 1 47 (by norm_num) (by decide) (by decide)
    norm_num at h
    norm_num [h]
  have e2 : zeroAlignedQuantizedRange (-1) 1 50 Rounding.HalfTowardsZero
      = Except.ok (-1, 1 + 1 / 24) := by
    have h := symmetric_towards 1 25 (by norm_num) (by decide) (by decide)
    norm_num at h
    norm_num [h]
  refine ⟨doubleRange_away94, e1, ?_, doubleRange_towards50, e2, ?_, doubleRange_away2, ?_⟩
  · rintro ⟨delta, hd, h⟩
    rw [doubleRange_away94] at h
    injection h with h
    have h2 := congrArg Prod.snd h
    norm_num at h2
  · rintro ⟨delta, hd, h⟩
    rw [doubleRange_towards50] at h
    injection h with h
    have h2 := congrArg Prod.fst h
    norm_num at h2
  · rintro ⟨delta, hd, h⟩
    rw [doubleRange_away2] at h
    injection h with h
    have h2 := congrArg Prod.snd h
    norm_num at h2

end Utils

end N2D2
